import Mathlib

/-!
# Verification of the dispersal client/server core (`dfcutils.cpp`, `netutils.cpp`, `utils.cpp`)

Shallow embedding.  Bytes (`unsigned char`) are natural numbers below 256, byte
buffers (`std::vector<unsigned char>`, file contents, socket streams) are lists of
bytes, `int` is `Int` restricted to the 32-bit range by explicit casts, `uint32_t`
and `size_t` are `Nat`.  A socket is modelled by the list of bytes written to it
or still to be read from it.  An access outside the placement table or outside
`FileSplit::splits` is `none`.  Every function that calls `htonl` or `ntohl` takes the
byte order of the host it runs on as its first argument.
-/

namespace Dfs

/-! ## Constants (`utils.hpp`, `netutils.hpp`) -/

def CHUNKS_PER_SERVER : Nat := 2
def NUM_SERVER : Nat := 4
def MAX_SEG_SIZE : Nat := 512
def INT_SIZE : Nat := 4
def INITIAL_WRITE_FLAG : Nat := 0
def MD5_DIGEST_LENGTH : Nat := 16

/-! ## Integer codec (`netutils.cpp`) -/

/-- Byte reversal of a 32-bit word: what `htonl`/`ntohl` of the C library do on a
little-endian host. -/
def bswap32 (x : Nat) : Nat :=
  (x % 256) * 2 ^ 24 + (x / 2 ^ 8 % 256) * 2 ^ 16 + (x / 2 ^ 16 % 256) * 2 ^ 8 + x / 2 ^ 24 % 256

/-- C library `htonl`: the identity on a big-endian host, a byte swap on a
little-endian one.  `littleEndian` is the byte order of the host running the code. -/
def htonl (littleEndian : Bool) (x : Nat) : Nat :=
  if littleEndian then bswap32 x else x

/-- C library `ntohl`, the same conversion as `htonl`. -/
def ntohl (littleEndian : Bool) (x : Nat) : Nat :=
  if littleEndian then bswap32 x else x

/-- The cast `static_cast<uint32_t>(n)` of an `int`. -/
def toUint32 (n : Int) : Nat := (n % 2 ^ 32).toNat

/-- The cast `static_cast<int>(u)` of a `uint32_t` (two's complement). -/
def toInt32 (u : Nat) : Int :=
  if u % 2 ^ 32 < 2 ^ 31 then ((u % 2 ^ 32 : Nat) : Int) else ((u % 2 ^ 32 : Nat) : Int) - 2 ^ 32

/-- The four bytes `buffer[0..3]` that `NetUtils::encodeIntToUchar(vector&, int)` stores. -/
def encodeIntBytes (littleEndian : Bool) (n : Int) : List Nat :=
  let network_order := htonl littleEndian (toUint32 n)
  [(network_order >>> 24) &&& 0xFF,
   (network_order >>> 16) &&& 0xFF,
   (network_order >>> 8) &&& 0xFF,
   network_order &&& 0xFF]

/-- Model of `NetUtils::encodeIntToUchar(std::vector<unsigned char>&, int)`: the buffer is
grown to `INT_SIZE` when shorter, its first four bytes are overwritten and the
rest is kept. -/
def encodeIntToUchar (littleEndian : Bool) (buffer : List Nat) (n : Int) : List Nat :=
  encodeIntBytes littleEndian n ++ buffer.drop INT_SIZE

/-- Model of `NetUtils::decodeIntFromUchar(const std::vector<unsigned char>&, int&)`; reading
`buffer[0..3]` of a shorter buffer is out of bounds (`none`). -/
def decodeIntFromUchar (littleEndian : Bool) (buffer : List Nat) : Option Int :=
  match buffer with
  | b0 :: b1 :: b2 :: b3 :: _ =>
    let network_order := ((b0 <<< 24) ||| (b1 <<< 16) ||| (b2 <<< 8) ||| b3) % 2 ^ 32
    some (toInt32 (ntohl littleEndian network_order))
  | _ => none

/-- Model of `NetUtils::sendIntValueSocket`: the bytes handed to `sendToSocket`. -/
def sendIntValueSocket (littleEndian : Bool) (value : Int) : List Nat :=
  encodeIntToUchar littleEndian (List.replicate INT_SIZE 0) value

/-! ## Placement table (`dfcutils.cpp`) -/

/-- Model of `DfcUtils::filePiecesMapping[4][4][2]`. -/
def filePiecesMappingTable : List (List (List Int)) :=
  [ [ [1, 2], [2, 3], [3, 4], [4, 1] ],
    [ [4, 1], [1, 2], [2, 3], [3, 4] ],
    [ [3, 4], [4, 1], [1, 2], [2, 3] ],
    [ [2, 3], [3, 4], [4, 1], [1, 2] ] ]

/-- The access `filePiecesMapping[mod][server][slot]`; `none` outside the table. -/
def filePiecesMapping (mod server slot : Nat) : Option Int :=
  match filePiecesMappingTable.get? mod with
  | none => none
  | some row =>
    match row.get? server with
    | none => none
    | some pair => pair.get? slot


/-! ## Splits (`utils.hpp`) -/

/-- Model of `struct Split`. -/
structure Split where
  id : Int
  content : List Nat
  content_length : Nat
  deriving DecidableEq, Repr

/-- The default constructor `Split()`. -/
def Split.new : Split := { id := 0, content := [], content_length := 0 }

/-- Model of `struct FileSplit`; `splits` is the `std::array<std::unique_ptr<Split>, NUM_SERVER>`
(four entries, `none` for a null pointer). -/
structure FileSplit where
  file_name : String
  splits : List (Option Split)
  split_count : Nat
  deriving DecidableEq, Repr

/-- The default constructor `FileSplit()`. -/
def FileSplit.new : FileSplit :=
  { file_name := "", splits := List.replicate NUM_SERVER none, split_count := 0 }

/-! ## Local files -/

/-- An open `std::ifstream`: the bytes of the file, the read position and the fail bit. -/
structure IfStream where
  data : List Nat
  pos : Nat
  fail : Bool
  deriving DecidableEq, Repr

/-- Model of `std::istream::read(buf, n)` into a buffer of at least `n` bytes: a failed stream
reads nothing; when fewer than `n` bytes are left they are stored, the rest of the
buffer is untouched and the fail bit is set. -/
def IfStream.read (file : IfStream) (buf : List Nat) (n : Nat) : List Nat × IfStream :=
  if file.fail then (buf, file)
  else
    let avail := file.data.drop file.pos
    if n ≤ avail.length then
      (avail.take n ++ buf.drop n, { file with pos := file.pos + n })
    else
      (avail ++ buf.drop avail.length, { file with pos := file.data.length, fail := true })

/-- One iteration `i` of the loop of `DfcUtils::splitFileToPieces`. -/
def splitFileToPieces.step (splitSize remSize : Nat) (st : IfStream × List (Option Split))
    (i : Nat) : IfStream × List (Option Split) :=
  let totalChunks := 4
  let content_length := if i ≠ totalChunks - 1 then splitSize else splitSize + remSize
  let r := st.1.read (List.replicate content_length 0) content_length
  (r.2, st.2.set i (some { id := (i : Int) + 1, content := r.1, content_length := content_length }))

/-- Model of `DfcUtils::splitFileToPieces(filePath, fileSplit)`.  `file` is the content of the
file at `filePath`, `none` when it cannot be opened.  Returns the `bool` result and
the updated `fileSplit`. -/
def splitFileToPieces (filePath : String) (file : Option (List Nat)) (fileSplit : FileSplit) :
    Bool × FileSplit :=
  match file with
  | none => (false, fileSplit)
  | some bytes =>
    let fileSize := bytes.length
    let totalChunks := 4
    let splitSize := fileSize / totalChunks
    let remSize := fileSize % totalChunks
    let st := (List.range totalChunks).foldl (splitFileToPieces.step splitSize remSize)
      ({ data := bytes, pos := 0, fail := false }, fileSplit.splits)
    (true, { file_name := filePath, splits := st.2, split_count := totalChunks })

/-- Model of `DfcUtils::combineFileFromPieces`.  `opened` tells whether the output file could be
opened; the result is the `bool` returned and the bytes written to the file (in the
order written).  `none` when `splits[i]` is indexed outside the array or
`content_length` exceeds the content buffer. -/
def combineFileFromPieces (opened : Bool) (fileSplit : FileSplit) : Option (Bool × List Nat) :=
  if !opened then some (false, [])
  else
    (List.range fileSplit.split_count).foldlM
      (fun (acc : Bool × List Nat) i =>
        match fileSplit.splits.get? i with
        | none => none
        | some none => some acc
        | some (some split) =>
          if split.content_length ≤ split.content.length then
            some (true, acc.2 ++ split.content.take split.content_length)
          else none)
      (true, [])

/-! ## Per-piece cipher (`utils.cpp`) -/

/-- The loop over `j` of `Utils::encryptDecryptFileSplit`:
`content[j] = content[j] ^ key[j % keyLen]`, stored as `unsigned char`.  `key` holds
the bytes of the password, each taken as its unsigned value (the low eight bits of
the promoted `char`, the only ones the store keeps).  The source divides by zero for
an empty key; the model is meant for keys of at least one byte. -/
def xorContent (key : List Nat) (content : List Nat) : List Nat :=
  content.enum.map (fun jc => (jc.2 ^^^ key.getD (jc.1 % key.length) 0) % 256)

/-- Model of `Utils::encryptDecryptFileSplit(fileSplit, key)`; every non-null split among the
first `split_count` has its content transformed in place. -/
def encryptDecryptFileSplit (fileSplit : FileSplit) (key : List Nat) : FileSplit :=
  { fileSplit with
    splits := fileSplit.splits.enum.map (fun is =>
      if is.1 < fileSplit.split_count then
        is.2.map (fun split => { split with content := xorContent key split.content })
      else is.2) }

/-! ## Hash reduction (`utils.cpp`) -/

/-- The reduction loop of `Utils::getMd5SumHashMod` over `digest[0..MD5_DIGEST_LENGTH)`. -/
def md5DigestMod (digest : List Nat) : Nat :=
  (List.range MD5_DIGEST_LENGTH).foldl (fun mod i => (mod * 16 + digest.getD i 0) % NUM_SERVER) 0

/-- The MD5 digest `5d41402abc4b2a76b9719d911017c592` of the five bytes "hello". -/
def helloDigest : List Nat :=
  [0x5d, 0x41, 0x40, 0x2a, 0xbc, 0x4b, 0x2a, 0x76, 0xb9, 0x71, 0x9d, 0x91, 0x10, 0x17, 0xc5, 0x92]

/-- Model of `Utils::getMd5SumHashMod(filePath)`.  `file` is the content at `filePath` (`none`
when it cannot be opened); `md5` is OpenSSL's MD5 of the bytes fed by the read loop,
which are all the bytes of the file. -/
def getMd5SumHashMod (md5 : List Nat → List Nat) (file : Option (List Nat)) : Int :=
  match file with
  | none => -1
  | some bytes => (md5DigestMod (md5 bytes) : Int)


/-! ## Sockets and piece frames (`netutils.cpp`) -/

/-- Ways a receive can end other than by returning: `recvFromSocket` calls `exit(1)`
when the peer closes before the payload is complete, `writeSplitFromSocketAsStream`
throws `std::runtime_error`, and an index may fall outside an array. -/
inductive NetError where
  | peerClosed
  | runtimeError (msg : String)
  | outOfBounds
  deriving DecidableEq, Repr

/-- Model of `NetUtils::recvFromSocket(socket, payload)` for a payload of `size` bytes:
`sock` is what the peer sends; the result is the payload read and the bytes left. -/
def recvFromSocket (sock : List Nat) (size : Nat) : Except NetError (List Nat × List Nat) :=
  if size ≤ sock.length then .ok (sock.take size, sock.drop size) else .error .peerClosed

/-- Model of `NetUtils::writeSplitToSocketAsStream(socket, split)`: the bytes sent, a
nine-byte header (flag, id, length) and then the content when `content_length > 0`.
`sendToSocket` keeps the payload size in an `int`, so the bytes after the header are those
of the code for contents of fewer than `2^31` bytes; the header is that of the code for
every split. -/
def writeSplitToSocketAsStream (littleEndian : Bool) (split : Split) : List Nat :=
  let idBuffer := encodeIntToUchar littleEndian (List.replicate INT_SIZE 0) split.id
  let lengthBuffer :=
    encodeIntToUchar littleEndian (List.replicate INT_SIZE 0) (toInt32 split.content_length)
  let headerBuffer := [INITIAL_WRITE_FLAG] ++ idBuffer ++ lengthBuffer
  headerBuffer ++ (if split.content_length > 0 then split.content else [])

/-- Model of `NetUtils::writeSplitFromSocketAsStream(socket, split)`: reads one piece
frame from `sock` into `split`; returns the split and the bytes left on the socket.
The checks `bytesReceived != 9` and `contentBytesReceived != contentLength` of the
source cannot fire, since `recvFromSocket` returns the full size or does not return. -/
def writeSplitFromSocketAsStream (littleEndian : Bool) (sock : List Nat) (split : Split) :
    Except NetError (Split × List Nat) :=
  match recvFromSocket sock 9 with
  | .error e => .error e
  | .ok (headerBuffer, sock1) =>
    let flag := headerBuffer.getD 0 0
    if flag ≠ INITIAL_WRITE_FLAG then .error (.runtimeError "Invalid flag in split header")
    else
      match decodeIntFromUchar littleEndian ((headerBuffer.drop 1).take 4),
            decodeIntFromUchar littleEndian ((headerBuffer.drop 5).take 4) with
      | some splitId, some contentLength =>
        if contentLength < 0 ∨ contentLength > (MAX_SEG_SIZE : Int) then
          .error (.runtimeError "Invalid content length in split header")
        else if contentLength > 0 then
          match recvFromSocket sock1 contentLength.toNat with
          | .error e => .error e
          | .ok (content, sock2) =>
            .ok ({ split with id := splitId, content := content,
                              content_length := contentLength.toNat }, sock2)
        else
          .ok ({ split with id := splitId, content := [], content_length := 0 }, sock1)
      | _, _ => .error .outOfBounds

/-! ## Client upload (`dfcutils.cpp`) -/

/-- The element `splits[idx]` of the array of a `FileSplit`; `none` outside `0..3`. -/
def splitsAt (splits : List (Option Split)) (idx : Int) : Option (Option Split) :=
  if 0 ≤ idx then splits.get? idx.toNat else none

/-- Model of `DfcUtils::sendFileSplits(socket, fileSplit, mod, serverIdx)`: the bytes
written to the socket of server `serverIdx`. -/
def sendFileSplits (littleEndian : Bool) (fileSplit : FileSplit) (mod serverIdx : Nat) :
    Option (List Nat) :=
  (List.range CHUNKS_PER_SERVER).foldlM
    (fun (out : List Nat) i =>
      match filePiecesMapping mod serverIdx i with
      | none => none
      | some filePiece =>
        match splitsAt fileSplit.splits (filePiece - 1) with
        | none => none
        | some none => some out
        | some (some split) => some (out ++ writeSplitToSocketAsStream littleEndian split))
    []

/-! ## Server side (`dfsutils.cpp`, `utils.cpp`) -/

/-- The piece files of one basename in one folder of a server: `dir k` is the content
of the hidden file `.<basename>.<k>`, `none` when there is no such file. -/
abbrev PieceDir := Int → Option (List Nat)

/-- Model of `Utils::writeSplitToFile(split, fileFolder, fileName)` in a writable folder:
the file `.<fileName>.<split.id>` is replaced by `content_length` bytes of the content. -/
def writeSplitToFile (split : Split) (dir : PieceDir) : PieceDir :=
  Function.update dir split.id (some (split.content.take split.content_length))

/-- Model of `Utils::readIntoSplitFromFile(filePath, split)`; `file` is the content at
`filePath`, `none` when it cannot be opened. -/
def readIntoSplitFromFile (file : Option (List Nat)) (split : Split) : Split :=
  match file with
  | none => split
  | some bytes => { split with content_length := bytes.length, content := bytes }

/-- Bytes of an ASCII string literal. -/
def asciiBytes (msg : String) : List Nat := msg.toList.map Char.toNat

def FILE_NOT_FOUND_ERROR : String := "Requested file does not exists on server"

/-- Model of `DfsUtils::sendErrorHelper(socket, message)`: the bytes sent. -/
def sendErrorHelper (littleEndian : Bool) (message : String) : List Nat :=
  sendIntValueSocket littleEndian (asciiBytes message).length ++ asciiBytes message

/-- State of the server after the PUT branch: the piece files, the bytes sent back to
the client, the `bool` returned and what is left unread on the socket. -/
structure PutOutcome where
  dir : PieceDir
  reply : List Nat
  result : Bool
  rest : List Nat

/-- The PUT branch of `DfsUtils::dfsCommandExec`: two piece frames are received and
each is written to its piece file; a thrown exception (always raised right after the
nine header bytes were read) is answered with `-1` and the `FILE_NOT_FOUND` error
frame.  `.error` is the `exit(1)` of a short read. -/
def dfsCommandExecPut (littleEndian : Bool) (sock : List Nat) (dir : PieceDir) :
    Except NetError PutOutcome :=
  match writeSplitFromSocketAsStream littleEndian sock Split.new with
  | .error .peerClosed => .error .peerClosed
  | .error _ =>
    .ok { dir := dir, result := false, rest := sock.drop 9,
          reply := sendIntValueSocket littleEndian (-1) ++
            sendErrorHelper littleEndian FILE_NOT_FOUND_ERROR }
  | .ok (split0, sock1) =>
    let dir1 := writeSplitToFile split0 dir
    match writeSplitFromSocketAsStream littleEndian sock1 Split.new with
    | .error .peerClosed => .error .peerClosed
    | .error _ =>
      .ok { dir := dir1, result := false, rest := sock1.drop 9,
            reply := sendIntValueSocket littleEndian (-1) ++
              sendErrorHelper littleEndian FILE_NOT_FOUND_ERROR }
    | .ok (split1, sock2) =>
      .ok { dir := writeSplitToFile split1 dir1, result := true, rest := sock2,
            reply := sendIntValueSocket littleEndian 1 }

/-- One round of the piece-service loop of the GET branch of `DfsUtils::dfsCommandExec`:
`request` is what the client sent (a 4-byte piece id), the result is the piece frame
sent back. -/
def dfsServePiece (littleEndian : Bool) (dir : PieceDir) (request : List Nat) :
    Except NetError (List Nat) :=
  match recvFromSocket request INT_SIZE with
  | .error e => .error e
  | .ok (payload, _) =>
    match decodeIntFromUchar littleEndian payload with
    | none => .error .outOfBounds
    | some splitId =>
      let split0 := readIntoSplitFromFile (dir splitId) { Split.new with id := splitId }
      .ok (writeSplitToSocketAsStream littleEndian split0)

/-- A storage server as the client sees it during GET: its byte order and the piece
files of the requested basename. -/
structure DfsHost where
  littleEndian : Bool
  dir : PieceDir

/-! ## Client download (`dfcutils.cpp`) -/

/-- The body of the inner loop of `DfcUtils::fetchRemoteSplits` for server `i` and
slot `j`: the id is sent, and for an id in `1..4` the frame sent back is read into
`splits[splitId - 1]`. -/
def fetchRemoteSplits.step (littleEndian : Bool) (host : DfsHost) (mod i : Nat)
    (splits : List (Option Split)) (j : Nat) : Except NetError (List (Option Split)) :=
  match filePiecesMapping mod i j with
  | none => .error .outOfBounds
  | some splitId =>
    let request := sendIntValueSocket littleEndian splitId
    if splitId ≥ 1 ∧ splitId ≤ 4 then
      match splitsAt splits (splitId - 1) with
      | some (some split) =>
        match dfsServePiece host.littleEndian host.dir request with
        | .error e => .error e
        | .ok frame =>
          match writeSplitFromSocketAsStream littleEndian frame split with
          | .error e => .error e
          | .ok (split1, _) => .ok (splits.set (splitId - 1).toNat (some split1))
      | _ => .error .outOfBounds
    else .ok splits

/-- Model of `DfcUtils::fetchRemoteSplits(connFds, connCount, fileSplit, mod)`;
`connFds[i]` is `none` for `-1` and the server behind the socket otherwise. -/
def fetchRemoteSplits (littleEndian : Bool) (connFds : List (Option DfsHost)) (connCount : Nat)
    (fileSplit : FileSplit) (mod : Nat) : Except NetError FileSplit :=
  let init : List (Option Split) := (List.range 4).foldl (fun sp i => sp.set i (some Split.new))
    fileSplit.splits
  match (List.range connCount).foldlM
      (fun (splits : List (Option Split)) i =>
        match connFds.get? i with
        | none => Except.error NetError.outOfBounds
        | some none => Except.ok splits
        | some (some host) =>
          (List.range CHUNKS_PER_SERVER).foldlM
            (fetchRemoteSplits.step littleEndian host mod i) splits)
      init with
  | .error e => .error e
  | .ok splits => .ok { fileSplit with split_count := 4, splits := splits }

/-! ## PUT followed by GET (`DfcUtils::commandExec`) -/

/-- The upload part of the PUT branch of `DfcUtils::commandExec` for a readable local
file with content `bytes`: split, cipher, and the bytes sent to each of the
`connCount` servers (`connected i` tells whether `connFds[i] != -1`). -/
def commandExecPut (littleEndian : Bool) (bytes key : List Nat) (mod connCount : Nat)
    (connected : Nat → Bool) : Option (List (Option (List Nat))) :=
  let fileSplit := (splitFileToPieces "" (some bytes) FileSplit.new).2
  let fileSplit := encryptDecryptFileSplit fileSplit key
  (List.range connCount).mapM (fun i =>
    if connected i then (sendFileSplits littleEndian fileSplit mod i).map some
    else some none)

/-- The download part of the GET branch of `DfcUtils::commandExec` after `PROCEED_SIG`:
fetch, cipher, combine.  The result is the content written to the local file. -/
def commandExecGet (littleEndian : Bool) (connFds : List (Option DfsHost)) (connCount : Nat)
    (key : List Nat) (mod : Nat) : Except NetError (Option (Bool × List Nat)) :=
  match fetchRemoteSplits littleEndian connFds connCount FileSplit.new mod with
  | .error e => .error e
  | .ok fileSplit =>
    .ok (combineFileFromPieces true (encryptDecryptFileSplit fileSplit key))

/-! ## Chunk reports and their collation (`utils.hpp`, `utils.cpp`, `dfcutils.cpp`) -/

def MAX_CHAR_BUFF : Nat := 100
def MAX_NUM_FILES : Nat := 100

/-- Model of `struct ChunkInfo`: `file_name` holds the bytes of the `std::string`,
`chunks` is the `std::array<int, CHUNKS_PER_SERVER>`. -/
structure ChunkInfo where
  file_name : List Nat
  chunks : Int × Int
  deriving DecidableEq, Repr

/-- The default constructor `ChunkInfo()`. -/
def ChunkInfo.new : ChunkInfo := { file_name := [], chunks := (0, 0) }

/-- The element `chunks[k]` of a `ChunkInfo`, for `k < CHUNKS_PER_SERVER`. -/
def ChunkInfo.chunkAt (chunkInfo : ChunkInfo) (k : Nat) : Int :=
  if k = 0 then chunkInfo.chunks.1 else chunkInfo.chunks.2

/-- Model of `struct ServerChunksInfo`. -/
structure ServerChunksInfo where
  chunks : Int
  chunk_info : List ChunkInfo
  deriving DecidableEq, Repr

/-- The default constructor `ServerChunksInfo()`. -/
def ServerChunksInfo.new : ServerChunksInfo := { chunks := 0, chunk_info := [] }

/-- The loop `for (int j = 0; j < 4; j++)` of `DfcUtils::fetchRemoteFileInfo` for server
`i` and the reported ids `chunks0`, `chunks1`, run from `j` for `fuel` more rows: the
first row whose pair matches in either order, `-1` (the value of `mod` before the loop)
when the loop ends without a match. -/
def fetchRemoteFileInfo.matchLoop (i : Nat) (chunks0 chunks1 : Int) : Nat → Nat → Option Int
  | 0, _ => some (-1)
  | fuel + 1, j =>
    match filePiecesMapping j i 0, filePiecesMapping j i 1 with
    | some m0, some m1 =>
      if (m0 = chunks0 ∧ m1 = chunks1) ∨ (m0 = chunks1 ∧ m1 = chunks0) then some (j : Int)
      else fetchRemoteFileInfo.matchLoop i chunks0 chunks1 fuel (j + 1)
    | _, _ => none

/-- The block of `DfcUtils::fetchRemoteFileInfo` that tries to extract `mod` from the
report of server `i`: only when `mod` is still `-1` and the report is not empty, from
its first `ChunkInfo`. -/
def fetchRemoteFileInfo.deriveMod (mod : Int) (i : Nat) (serverChunksInfo : ServerChunksInfo) :
    Option Int :=
  if mod = -1 then
    match serverChunksInfo.chunk_info with
    | [] => some mod
    | chunkInfo :: _ =>
      fetchRemoteFileInfo.matchLoop i chunkInfo.chunks.1 chunkInfo.chunks.2 4 0
  else some mod

/-- Model of `Utils::checkComplete(flagArray)` for the `std::array<bool, NUM_SERVER>`. -/
def checkComplete (flagArray : List Bool) : Bool :=
  let sum := (List.range NUM_SERVER).foldl
    (fun (sum : Int) i => sum + (if flagArray.getD i false then 1 else 0)) 0
  decide (sum ≥ 2)

/-- Model of `struct ServerChunksCollate`: `file_names` are the `MAX_NUM_FILES` arrays of
`MAX_CHAR_BUFF` chars, `chunks` the `MAX_NUM_FILES` arrays of `NUM_SERVER` flags. -/
structure ServerChunksCollate where
  file_names : List (List Nat)
  chunks : List (List Bool)
  num_files : Nat
  deriving DecidableEq, Repr

/-- The constructor `ServerChunksCollate()`: every array filled with zero / `false`. -/
def ServerChunksCollate.new : ServerChunksCollate :=
  { file_names := List.replicate MAX_NUM_FILES (List.replicate MAX_CHAR_BUFF 0),
    chunks := List.replicate MAX_NUM_FILES (List.replicate NUM_SERVER false),
    num_files := 0 }

/-- The `std::string` built from a `char` array: its bytes before the first zero. -/
def cString (buf : List Nat) : List Nat := buf.takeWhile (fun b => b ≠ 0)

/-- C library `strncpy(dst, src, n)` for a destination of at least `n` bytes: the first
`n` bytes of `dst` become the first `n` bytes of the C string `src`, padded with zeros. -/
def strncpy (dst src : List Nat) (n : Nat) : List Nat :=
  let copied := (cString src).take n
  copied ++ List.replicate (n - copied.length) 0 ++ dst.drop n

/-- The loop of `Utils::checkFileNameExist(fileNames, fileName, n)` from index `i`, for
`fuel` more entries. -/
def checkFileNameExist.loop (fileNames : List (List Nat)) (fileName : List Nat) :
    Nat → Nat → Option Int
  | 0, _ => some (-1)
  | fuel + 1, i =>
    match fileNames.get? i with
    | none => none
    | some slot =>
      if cString slot = fileName then some (i : Int)
      else checkFileNameExist.loop fileNames fileName fuel (i + 1)

/-- Model of `Utils::checkFileNameExist(fileNames, fileName, n)`. -/
def checkFileNameExist (fileNames : List (List Nat)) (fileName : List Nat) (n : Nat) :
    Option Int :=
  checkFileNameExist.loop fileNames fileName n 0

/-- The assignment `serverChunksCollate.chunks[j][chunkNum - 1] = true`. -/
def setChunkFlag (chunks : List (List Bool)) (j : Nat) (chunkNum : Int) :
    Option (List (List Bool)) :=
  match chunks.get? j with
  | none => none
  | some row =>
    if 0 ≤ chunkNum - 1 ∧ (chunkNum - 1).toNat < row.length then
      some (chunks.set j (row.set (chunkNum - 1).toNat true))
    else none

/-- The body of the loop of `Utils::insertToServerChunksCollate` for one `ChunkInfo`. -/
def insertToServerChunksCollate.step (collate : ServerChunksCollate) (chunkInfo : ChunkInfo) :
    Option ServerChunksCollate :=
  match checkFileNameExist collate.file_names chunkInfo.file_name collate.num_files with
  | none => none
  | some found =>
    let created : Option (ServerChunksCollate × Nat) :=
      if found < 0 then
        let j := collate.num_files + 1 - 1
        match collate.file_names.get? j with
        | none => none
        | some slot =>
          some ({ collate with
                  num_files := collate.num_files + 1,
                  file_names := collate.file_names.set j
                    (strncpy slot chunkInfo.file_name (MAX_CHAR_BUFF - 1)) }, j)
      else some (collate, found.toNat)
    match created with
    | none => none
    | some (collate1, j) =>
      (List.range CHUNKS_PER_SERVER).foldlM
        (fun (c : ServerChunksCollate) k =>
          match setChunkFlag c.chunks j (chunkInfo.chunkAt k) with
          | none => none
          | some chunks => some { c with chunks := chunks })
        collate1

/-- Model of `Utils::insertToServerChunksCollate(serverChunksCollate, serverChunksInfo)`. -/
def insertToServerChunksCollate (collate : ServerChunksCollate)
    (serverChunksInfo : ServerChunksInfo) : Option ServerChunksCollate :=
  (List.range serverChunksInfo.chunks.toNat).foldlM
    (fun (c : ServerChunksCollate) i =>
      match serverChunksInfo.chunk_info.get? i with
      | none => none
      | some chunkInfo => insertToServerChunksCollate.step c chunkInfo)
    collate

/-- The bytes written to standard output for entry `i` by the loop of
`DfcUtils::getOutputListCommand`: the name, then a line end or `" [INCOMPLETE]"` and a
line end. -/
def getOutputListCommand.line (fileName : List Nat) (flags : List Bool) : List Nat :=
  cString fileName ++
    (if checkComplete flags then [10] else asciiBytes " [INCOMPLETE]" ++ [10])

/-- Model of `DfcUtils::getOutputListCommand`: everything written to standard output. -/
def getOutputListCommand (collate : ServerChunksCollate) : Option (List Nat) :=
  (List.range collate.num_files).foldlM
    (fun (out : List Nat) i =>
      match collate.file_names.get? i, collate.chunks.get? i with
      | some fileName, some flags => some (out ++ getOutputListCommand.line fileName flags)
      | _, _ => none)
    []

/-- What the GET branch of `DfcUtils::commandExec` does after the aggregation. -/
inductive GetDecision where
  | fileNotFound
  | fileIncomplete
  | proceed
  deriving DecidableEq, Repr

/-- The checks of the GET branch of `DfcUtils::commandExec` on the aggregate:
"File not found on any server" when no file was reported, "File is incomplete" when
`checkComplete` fails on the first entry, the download otherwise. -/
def commandExecGetDecision (collate : ServerChunksCollate) : Option GetDecision :=
  if collate.num_files = 0 then some .fileNotFound
  else
    match collate.chunks.get? 0 with
    | none => none
    | some flags => if !checkComplete flags then some .fileIncomplete else some .proceed

/-! ## Encoding of chunk reports (`netutils.hpp`, `netutils.cpp`) -/

def CHUNK_INFO_STRUCT_SIZE : Nat := MAX_CHAR_BUFF + NUM_SERVER * INT_SIZE

/-- The call `std::copy(src.begin(), src.end(), buffer.begin() + offset)`; `none` when
the copy would run past the end of `buffer`. -/
def copyInto (buffer : List Nat) (offset : Nat) (src : List Nat) : Option (List Nat) :=
  if offset + src.length ≤ buffer.length then
    some (buffer.take offset ++ src ++ buffer.drop (offset + src.length))
  else none

/-- The call `buffer.resize(n)` of a `std::vector<unsigned char>`. -/
def vectorResize (buffer : List Nat) (n : Nat) : List Nat :=
  buffer.take n ++ List.replicate (n - buffer.length) 0

/-- Model of `NetUtils::encodeChunkInfoToBuffer(buffer, chunkInfo)`: the file name is
copied with `strncpy` into the first `MAX_CHAR_BUFF` bytes, the `CHUNKS_PER_SERVER`
ids follow as encoded integers. -/
def encodeChunkInfoToBuffer (littleEndian : Bool) (buffer : List Nat) (chunkInfo : ChunkInfo) :
    Option (List Nat) :=
  if MAX_CHAR_BUFF ≤ buffer.length then
    (List.range CHUNKS_PER_SERVER).foldlM
      (fun (buf : List Nat) i =>
        let intBuffer :=
          encodeIntToUchar littleEndian (List.replicate INT_SIZE 0) (chunkInfo.chunkAt i)
        copyInto buf (MAX_CHAR_BUFF + i * INT_SIZE) intBuffer)
      (strncpy buffer chunkInfo.file_name MAX_CHAR_BUFF)
  else none

/-- Model of `NetUtils::encodeServerChunksInfoToBuffer(buffer, serverChunksInfo)`; `none`
for a negative count (the `resize` fails), for a count whose buffer size
`INT_SIZE + chunks * CHUNK_INFO_STRUCT_SIZE` does not fit the `int` it is computed in,
and for `chunk_info[i]` outside the vector. -/
def encodeServerChunksInfoToBuffer (littleEndian : Bool) (buffer : List Nat)
    (serverChunksInfo : ServerChunksInfo) : Option (List Nat) :=
  if serverChunksInfo.chunks < 0 then none
  else if (INT_SIZE : Int) + serverChunksInfo.chunks * (CHUNK_INFO_STRUCT_SIZE : Int) ≥ 2 ^ 31 then
    none
  else
    let resized :=
      vectorResize buffer (INT_SIZE + serverChunksInfo.chunks.toNat * CHUNK_INFO_STRUCT_SIZE)
    (List.range serverChunksInfo.chunks.toNat).foldlM
      (fun (buf : List Nat) i =>
        match serverChunksInfo.chunk_info.get? i with
        | none => none
        | some chunkInfo =>
          match encodeChunkInfoToBuffer littleEndian
              (List.replicate CHUNK_INFO_STRUCT_SIZE 0) chunkInfo with
          | none => none
          | some chunkBuffer => copyInto buf (INT_SIZE + i * CHUNK_INFO_STRUCT_SIZE) chunkBuffer)
      (encodeIntToUchar littleEndian resized serverChunksInfo.chunks)

/-! ## Directory index of a server (`utils.cpp`, `dfsutils.cpp`) -/

/-- Model of `std::string::rfind(ch)`: the index of the last occurrence, `none` for `npos`. -/
def rfind : List Nat → Nat → Option Nat
  | [], _ => none
  | b :: bs, ch =>
    match rfind bs ch with
    | some i => some (i + 1)
    | none => if b = ch then some 0 else none

/-- Model of `Utils::getFileNameFromPath(buffer)`: what follows the last `'/'`. -/
def getFileNameFromPath (buffer : List Nat) : List Nat :=
  match rfind buffer 47 with
  | none => []
  | some pos => if pos + 1 = buffer.length then [] else buffer.drop (pos + 1)

/-- C library `isdigit` on the characters `'0'..'9'`. -/
def isdigit (c : Nat) : Bool := decide (48 ≤ c ∧ c ≤ 57)

/-- Model of `std::stoi` on a non-empty string of decimal digits: the value, or `none`
for the `std::out_of_range` it throws above `INT_MAX`. -/
def stoi (digits : List Nat) : Option Int :=
  let value : Nat := digits.foldl (fun (acc : Nat) c => acc * 10 + (c - 48)) 0
  if value ≤ 2147483647 then some (value : Int) else none

/-- The part of the loop body that both passes of `Utils::getFilesInFolder` repeat for a
path of the `glob` result: `none` when the entry is skipped (`continue`), otherwise
`compareBaseName` and `chunkStr`. -/
def getFilesInFolder.parse (path : List Nat) : Option (List Nat × List Nat) :=
  let fileName := getFileNameFromPath path
  if fileName.length < 3 then none
  else
    match rfind fileName 46 with
    | none => none
    | some dotPos =>
      if dotPos < fileName.length - 1 then
        let baseName := fileName.take dotPos
        let chunkStr := fileName.drop (dotPos + 1)
        let isValidChunk := !chunkStr.isEmpty && chunkStr.all isdigit
        if !isValidChunk then none
        else
          let compareBaseName :=
            if !baseName.isEmpty ∧ baseName.head? = some 46 then baseName.drop 1 else baseName
          some (compareBaseName, chunkStr)
      else none

/-- The order of `std::string` keys in a `std::map`: lexicographic on the bytes. -/
def stringLess : List Nat → List Nat → Bool
  | [], [] => false
  | [], _ :: _ => true
  | _ :: _, [] => false
  | a :: as, b :: bs => if a < b then true else if b < a then false else stringLess as bs

/-- The statement `fileChunks[key].push_back(value)` on a
`std::map<std::string, std::vector<int>>`, kept as the list of its pairs in key order. -/
def mapPushBack : List (List Nat × List Int) → List Nat → Int → List (List Nat × List Int)
  | [], key, value => [(key, [value])]
  | (k, vs) :: rest, key, value =>
    if key = k then (k, vs ++ [value]) :: rest
    else if stringLess key k then (key, [value]) :: (k, vs) :: rest
    else (k, vs) :: mapPushBack rest key value

/-- First pass of `Utils::getFilesInFolder`: the number `validFiles`; `none` when
`std::stoi` throws. -/
def getFilesInFolder.countValid (checkFileName : List Nat) :
    List (List Nat) → Int → Option Int
  | [], validFiles => some validFiles
  | path :: paths, validFiles =>
    match getFilesInFolder.parse path with
    | none => getFilesInFolder.countValid checkFileName paths validFiles
    | some (compareBaseName, chunkStr) =>
      match stoi chunkStr with
      | none => none
      | some _ =>
        if checkFileName.isEmpty ∨ compareBaseName = checkFileName then
          getFilesInFolder.countValid checkFileName paths (validFiles + 1)
        else getFilesInFolder.countValid checkFileName paths validFiles

/-- Second pass of `Utils::getFilesInFolder`: the map `fileChunks`. -/
def getFilesInFolder.group (checkFileName : List Nat) :
    List (List Nat) → List (List Nat × List Int) → Option (List (List Nat × List Int))
  | [], fileChunks => some fileChunks
  | path :: paths, fileChunks =>
    match getFilesInFolder.parse path with
    | none => getFilesInFolder.group checkFileName paths fileChunks
    | some (compareBaseName, chunkStr) =>
      match stoi chunkStr with
      | none => none
      | some chunkNum =>
        if checkFileName.isEmpty ∨ compareBaseName = checkFileName then
          getFilesInFolder.group checkFileName paths
            (mapPushBack fileChunks compareBaseName chunkNum)
        else getFilesInFolder.group checkFileName paths fileChunks

/-- Last loop of `Utils::getFilesInFolder` over the pairs of `fileChunks`: a name with at
least two chunk numbers fills `chunk_info[idx]` with the first two; the loop stops
when `idx` reaches `serverChunks.chunks`. -/
def getFilesInFolder.collect (cap : Int) :
    List (List Nat × List Int) → Nat → List ChunkInfo → Nat × List ChunkInfo
  | [], idx, infos => (idx, infos)
  | (name, nums) :: rest, idx, infos =>
    if (idx : Int) ≥ cap then (idx, infos)
    else if nums.length ≥ 2 then
      getFilesInFolder.collect cap rest (idx + 1)
        (infos.set idx { file_name := name, chunks := (nums.getD 0 0, nums.getD 1 0) })
    else getFilesInFolder.collect cap rest idx infos

/-- The call `chunk_info.resize(n)`. -/
def resizeChunkInfo (infos : List ChunkInfo) (n : Nat) : List ChunkInfo :=
  infos.take n ++ List.replicate (n - infos.length) ChunkInfo.new

/-- Model of `Utils::getFilesInFolder(folder, serverChunks, checkFileName)`.  `paths` is
the result of `glob` on `folder/*` with `GLOB_PERIOD`, in its order.  The result is the
`bool` returned and the updated `serverChunks`; `none` when `std::stoi` throws, which
nothing catches. -/
def getFilesInFolder (paths : List (List Nat)) (serverChunks : ServerChunksInfo)
    (checkFileName : List Nat) : Option (Bool × ServerChunksInfo) :=
  match getFilesInFolder.countValid checkFileName paths 0 with
  | none => none
  | some validFiles =>
    let chunks : Int :=
      if !checkFileName.isEmpty then (if validFiles > 0 then 1 else 0) else validFiles / 2
    let infos := resizeChunkInfo serverChunks.chunk_info chunks.toNat
    match getFilesInFolder.group checkFileName paths [] with
    | none => none
    | some fileChunks =>
      let r := getFilesInFolder.collect chunks fileChunks 0 infos
      some (!fileChunks.isEmpty, { chunks := (r.1 : Int), chunk_info := resizeChunkInfo r.2 r.1 })

/-- The `hasData` flag that the LIST branch of `DfsUtils::dfsCommandExec` sends. -/
def listHasData (serverChunksInfo : ServerChunksInfo) : Int :=
  if serverChunksInfo.chunks > 0 then 1 else 0

/-! ## Vocabulary of the aggregation statements -/

/-- The names of a sequence of reports, each listed once, in the order of first report. -/
def firstReports : List (List Nat) → List (List Nat)
  | [] => []
  | name :: rest => name :: (firstReports rest).filter (fun other => decide (other ≠ name))

/-- Abstract aggregate of LIST: the reported basenames in order, and for a basename `n`
and `k` in 0..3 whether some server reported piece id `k + 1` for `n`. -/
structure Aggregate where
  names : List (List Nat)
  present : List Nat → Nat → Bool

/-- The aggregate before any report. -/
def Aggregate.empty : Aggregate := { names := [], present := fun _ _ => false }

/-- The aggregate after one more `ChunkInfo`. -/
def Aggregate.insert (a : Aggregate) (chunkInfo : ChunkInfo) : Aggregate :=
  { names := if chunkInfo.file_name ∈ a.names then a.names
             else a.names ++ [chunkInfo.file_name],
    present := fun name k =>
      a.present name k ||
        (decide (name = chunkInfo.file_name) &&
          (decide (chunkInfo.chunks.1 = (k : Int) + 1) ||
           decide (chunkInfo.chunks.2 = (k : Int) + 1))) }

/-- A name held in a zero-filled array of `MAX_CHAR_BUFF` chars. -/
def nameSlot (name : List Nat) : List Nat :=
  name ++ List.replicate (MAX_CHAR_BUFF - name.length) 0

/-- The four flags of a basename in an aggregate. -/
def Aggregate.row (a : Aggregate) (name : List Nat) : List Bool :=
  [a.present name 0, a.present name 1, a.present name 2, a.present name 3]

/-- The `ServerChunksCollate` that holds an aggregate. -/
def Aggregate.toCollate (a : Aggregate) : ServerChunksCollate :=
  { file_names := a.names.map nameSlot ++
      List.replicate (MAX_NUM_FILES - a.names.length) (List.replicate MAX_CHAR_BUFF 0),
    chunks := a.names.map a.row ++
      List.replicate (MAX_NUM_FILES - a.names.length) (List.replicate NUM_SERVER false),
    num_files := a.names.length }

/-- A `ChunkInfo` as servers report it: a name without zero byte, shorter than
`MAX_CHAR_BUFF`, and two piece ids in `1..4`. -/
def ChunkInfo.Reportable (chunkInfo : ChunkInfo) : Prop :=
  chunkInfo.file_name.length < MAX_CHAR_BUFF ∧ 0 ∉ chunkInfo.file_name ∧
    1 ≤ chunkInfo.chunks.1 ∧ chunkInfo.chunks.1 ≤ 4 ∧
    1 ≤ chunkInfo.chunks.2 ∧ chunkInfo.chunks.2 ≤ 4

/-- What the insertions keep true of an aggregate: names are distinct, free of zero
bytes and shorter than `MAX_CHAR_BUFF`, and flags are only set for listed names. -/
def Aggregate.Sound (a : Aggregate) : Prop :=
  a.names.Nodup ∧ (∀ n ∈ a.names, n.length < MAX_CHAR_BUFF ∧ 0 ∉ n) ∧
    (∀ n k, a.present n k = true → n ∈ a.names)

/-- Position of the first occurrence of `name` in `names` (their number when absent). -/
def nameIndex (name : List Nat) : List (List Nat) → Nat
  | [] => 0
  | n :: names => if n = name then 0 else nameIndex name names + 1

instance (chunkInfo : ChunkInfo) : Decidable chunkInfo.Reportable := by
  unfold ChunkInfo.Reportable
  infer_instance

/-- Two reports of the aggregation scenario: a server holding pieces 1, 2 of "a", and a
server holding pieces 3, 4 of "b" and pieces 2, 3 of "a". -/
def twoReports : List ServerChunksInfo :=
  [{ chunks := 1, chunk_info := [{ file_name := [97], chunks := (1, 2) }] },
   { chunks := 2, chunk_info := [{ file_name := [98], chunks := (3, 4) },
                                 { file_name := [97], chunks := (2, 3) }] }]

/-! ## Paths of the client commands (`utils.hpp`, `utils.cpp`) -/

/-- Model of `struct FileAttribute`; every field holds the bytes of a `std::string`. -/
structure FileAttribute where
  remote_file_name : List Nat
  remote_file_folder : List Nat
  local_file_name : List Nat
  local_file_folder : List Nat
  deriving DecidableEq, Repr

/-- The default constructor `FileAttribute()`: four empty strings. -/
def FileAttribute.new : FileAttribute :=
  { remote_file_name := [], remote_file_folder := [], local_file_name := [],
    local_file_folder := [] }

def ROOT_FOLDER_STR : Nat := 47
def EXTRACT_LOCAL : Int := 0
def EXTRACT_REMOTE : Int := 1

/-- Model of `Utils::extractFileNameAndFolder(buffer, fileAttr, flag)`;
`buffer.find(ROOT_FOLDER_STR) != npos` is membership of `'/'` in the bytes. -/
def extractFileNameAndFolder (buffer : List Nat) (fileAttr : FileAttribute) (flag : Int) :
    FileAttribute :=
  let ptr := getFileNameFromPath buffer
  if flag = EXTRACT_LOCAL then
    if !ptr.isEmpty then
      { fileAttr with
        local_file_name := ptr,
        local_file_folder := buffer.take (buffer.length - ptr.length) }
    else if ROOT_FOLDER_STR ∈ buffer then { fileAttr with local_file_folder := buffer }
    else { fileAttr with local_file_name := buffer }
  else if flag = EXTRACT_REMOTE then
    if !ptr.isEmpty then
      { fileAttr with
        remote_file_name := ptr,
        remote_file_folder := buffer.take (buffer.length - ptr.length) }
    else if ROOT_FOLDER_STR ∈ buffer then { fileAttr with remote_file_folder := buffer }
    else { fileAttr with remote_file_name := buffer }
  else fileAttr

/-- The split that the piece-service loop of a server sends for piece id `k`: the
content of its piece file, or an empty split with that id when it has no such file. -/
def servedSplit (host : DfsHost) (k : Int) : Split :=
  readIntoSplitFromFile (host.dir k) { Split.new with id := k }

/-- The body of the loop over the servers of `DfcUtils::fetchRemoteSplits`, as in
`fetchRemoteSplits`: an unconnected server is skipped, a connected one is asked for its
`CHUNKS_PER_SERVER` pieces. -/
def fetchRemoteSplits.server (littleEndian : Bool) (connFds : List (Option DfsHost)) (mod : Nat)
    (splits : List (Option Split)) (i : Nat) : Except NetError (List (Option Split)) :=
  match connFds.get? i with
  | none => Except.error NetError.outOfBounds
  | some none => Except.ok splits
  | some (some host) =>
    (List.range CHUNKS_PER_SERVER).foldlM
      (fetchRemoteSplits.step littleEndian host mod i) splits
/-- A server of the download scenario holding piece 1 (one byte) and piece 2 (two bytes). -/
def hostWithPieces12 : DfsHost :=
  { littleEndian := true,
    dir := fun id => if id = 1 then some [5] else if id = 2 then some [7, 7] else none }

/-- A server of the download scenario that holds no piece file at all. -/
def hostWithoutPieces : DfsHost := { littleEndian := true, dir := fun _ => none }

/-! ## Decoding of chunk reports (`netutils.cpp`) -/

/-- The vector `std::vector<unsigned char>(buffer.begin() + first, buffer.begin() + last)`;
`none` when the range leaves the buffer or its bounds do not fit an `int`. -/
def vectorRange (buffer : List Nat) (first last : Nat) : Option (List Nat) :=
  if last ≤ buffer.length ∧ last < 2 ^ 31 then some ((buffer.take last).drop first) else none

/-- Model of `NetUtils::decodeChunkInfoFromBuffer(buffer, chunkInfo)`: the file name is the
C string at the start of the buffer (`none` when the buffer holds no zero byte to end
it), the `CHUNKS_PER_SERVER` ids are decoded from the bytes after the name field. -/
def decodeChunkInfoFromBuffer (littleEndian : Bool) (buffer : List Nat) (chunkInfo : ChunkInfo) :
    Option ChunkInfo :=
  if 0 ∈ buffer then
    (List.range CHUNKS_PER_SERVER).foldlM
      (fun (info : ChunkInfo) i =>
        match vectorRange buffer (MAX_CHAR_BUFF + i * INT_SIZE)
            (MAX_CHAR_BUFF + (i + 1) * INT_SIZE) with
        | none => none
        | some intBuffer =>
          match decodeIntFromUchar littleEndian intBuffer with
          | none => none
          | some n =>
            some { info with chunks := if i = 0 then (n, info.chunks.2) else (info.chunks.1, n) })
      { chunkInfo with file_name := cString buffer }
  else none

/-- Model of `NetUtils::decodeServerChunksInfoFromBuffer(buffer, serverChunksInfo)`; `none`
for a buffer of fewer than four bytes, a negative count (the `resize` fails) and a
chunk range outside the buffer. -/
def decodeServerChunksInfoFromBuffer (littleEndian : Bool) (buffer : List Nat)
    (serverChunksInfo : ServerChunksInfo) : Option ServerChunksInfo :=
  match decodeIntFromUchar littleEndian buffer with
  | none => none
  | some chunks =>
    if chunks < 0 then none
    else
      (List.range chunks.toNat).foldlM
        (fun (info : ServerChunksInfo) i =>
          match vectorRange buffer (INT_SIZE + i * CHUNK_INFO_STRUCT_SIZE)
              (INT_SIZE + (i + 1) * CHUNK_INFO_STRUCT_SIZE), info.chunk_info.get? i with
          | some chunkBuffer, some chunkInfo =>
            match decodeChunkInfoFromBuffer littleEndian chunkBuffer chunkInfo with
            | none => none
            | some decoded => some { info with chunk_info := info.chunk_info.set i decoded }
          | _, _ => none)
        { chunks := chunks,
          chunk_info := resizeChunkInfo serverChunksInfo.chunk_info chunks.toNat }

/-- The `CHUNK_INFO_STRUCT_SIZE` bytes of one encoded `ChunkInfo`: the name in its
zero-filled field of `MAX_CHAR_BUFF` bytes, the two encoded ids, and the bytes of the
chunk buffer that nothing writes. -/
def chunkInfoBytes (littleEndian : Bool) (chunkInfo : ChunkInfo) : List Nat :=
  nameSlot chunkInfo.file_name ++ (encodeIntBytes littleEndian chunkInfo.chunks.1 ++
    (encodeIntBytes littleEndian chunkInfo.chunks.2 ++
      List.replicate (CHUNK_INFO_STRUCT_SIZE - MAX_CHAR_BUFF - CHUNKS_PER_SERVER * INT_SIZE) 0))

/-- A `ChunkInfo` that fits the codec: a name without zero byte of at most 99 bytes and
two ids that are values of `int`. -/
def ChunkInfo.Encodable (chunkInfo : ChunkInfo) : Prop :=
  chunkInfo.file_name.length ≤ MAX_CHAR_BUFF - 1 ∧ 0 ∉ chunkInfo.file_name ∧
    -2 ^ 31 ≤ chunkInfo.chunks.1 ∧ chunkInfo.chunks.1 < 2 ^ 31 ∧
    -2 ^ 31 ≤ chunkInfo.chunks.2 ∧ chunkInfo.chunks.2 < 2 ^ 31

instance (chunkInfo : ChunkInfo) : Decidable chunkInfo.Encodable := by
  unfold ChunkInfo.Encodable
  infer_instance

/-- A record with 18 512 791 entries named "a": its buffer would need
`4 + 116 * 18512791 = 2147483760` bytes, more than `INT_MAX`. -/
def oversizedReport : ServerChunksInfo :=
  { chunks := 18512791,
    chunk_info := List.replicate 18512791 { file_name := [97], chunks := (1, 2) } }

/-- The report of a server that holds pieces 3, 4 of "b" and pieces 2, 3 of "a". -/
def reportOfTwoFiles : ServerChunksInfo :=
  { chunks := 2, chunk_info := [{ file_name := [98], chunks := (3, 4) },
                                { file_name := [97], chunks := (2, 3) }] }

/-! ## Command envelope (`netutils.hpp`, `dfcutils.cpp`, `dfsutils.cpp`) -/

/-- Model of `struct User`. -/
structure User where
  username : List Nat
  password : List Nat
  deriving DecidableEq, Repr

def LIST_FLAG : Int := 0
def GET_FLAG : Int := 1
def PUT_FLAG : Int := 2
def MKDIR_FLAG : Int := 3
def AUTH_FLAG : Int := 4

def GENERIC_TEMPLATE : String := "FLAG %d %[^\n]s"
def GET_TEMPLATE : String := "FLAG %d USERNAME %s PASSWORD %s FOLDER %s FILENAME %s\n"
def PUT_TEMPLATE : String := "FLAG %d USERNAME %s PASSWORD %s FOLDER %s FILENAME %s\n"
def LIST_TEMPLATE : String := "FLAG %d USERNAME %s PASSWORD %s FOLDER %s FILENAME %s\n"
def MKDIR_TEMPLATE : String := "FLAG %d USERNAME %s PASSWORD %s FOLDER %s FILENAME %s\n"

/-- C library `isspace` in the "C" locale: space, `\t`, `\n`, `\v`, `\f`, `\r`. -/
def isspace (c : Nat) : Bool := decide (c = 32 ∨ (9 ≤ c ∧ c ≤ 13))

/-- A directive of a `printf`/`scanf` format string, as far as the templates use them. -/
inductive FormatItem where
  | space
  | char (c : Nat)
  | int
  | str
  | scanset (excluded : Nat)
  deriving DecidableEq, Repr

/-- The directives of a format string: `%d`, `%s`, `%[^c]`, white space, and ordinary
characters. -/
def parseFormat : List Char → List FormatItem
  | [] => []
  | '%' :: 'd' :: rest => FormatItem.int :: parseFormat rest
  | '%' :: 's' :: rest => FormatItem.str :: parseFormat rest
  | '%' :: '[' :: '^' :: c :: ']' :: rest => FormatItem.scanset c.toNat :: parseFormat rest
  | c :: rest =>
    (if isspace c.toNat then FormatItem.space else FormatItem.char c.toNat) :: parseFormat rest

/-- An argument of `snprintf`, or a value stored by `sscanf`. -/
inductive FormatValue where
  | int (n : Int)
  | str (s : List Nat)
  deriving DecidableEq, Repr

/-- The decimal digits that `%d` prints for an `int`. -/
def printInt (n : Int) : List Nat := (toString n).toList.map Char.toNat

/-- The directives of a `printf` format string: `%d`, `%s`, and the characters that are
printed as they are, white space included. -/
def formatChars : List Char → List FormatItem
  | [] => []
  | '%' :: 'd' :: rest => FormatItem.int :: formatChars rest
  | '%' :: 's' :: rest => FormatItem.str :: formatChars rest
  | c :: rest => FormatItem.char c.toNat :: formatChars rest

/-- The characters `printf` produces for the directives and arguments: `%d` prints the
decimal number, `%s` the C string of the argument; `none` when an argument is missing or
of the wrong kind. -/
def formatOutput : List FormatItem → List FormatValue → Option (List Nat)
  | [], _ => some []
  | FormatItem.int :: items, FormatValue.int n :: args =>
    (formatOutput items args).map (fun out => printInt n ++ out)
  | FormatItem.str :: items, FormatValue.str s :: args =>
    (formatOutput items args).map (fun out => cString s ++ out)
  | FormatItem.char c :: items, args => (formatOutput items args).map (fun out => c :: out)
  | _, _ => none

/-- C library `snprintf(buffer, size, format, args...)` for the templates: the C string
left in `buffer`, at most `size - 1` characters. -/
def snprintf (size : Nat) (format : String) (args : List FormatValue) : Option (List Nat) :=
  (formatOutput (formatChars format.toList) args).map (fun out => out.take (size - 1))

/-- The conversion `%d` of `sscanf` on the input left: white space is skipped, then an
optional sign and at least one digit are read.  `none` when no number is there;
`some none` when the number does not fit an `int`. -/
def scanInt (input : List Nat) : Option (Option Int × List Nat) :=
  let input := input.dropWhile isspace
  let (negative, input) :=
    match input with
    | 45 :: rest => (true, rest)
    | 43 :: rest => (false, rest)
    | _ => (false, input)
  let digits := input.takeWhile isdigit
  if digits.isEmpty then none
  else
    let value : Nat := digits.foldl (fun (acc : Nat) c => acc * 10 + (c - 48)) 0
    let n : Int := if negative then -(value : Int) else (value : Int)
    some (if -2 ^ 31 ≤ n ∧ n < 2 ^ 31 then some n else none, input.dropWhile isdigit)

/-- C library `sscanf` on the C string `input` for the directives of a template: the
values stored, in order, up to the first directive that fails.  `none` when a number
does not fit an `int`. -/
def sscanfItems : List FormatItem → List Nat → Option (List FormatValue)
  | [], _ => some []
  | FormatItem.space :: items, input => sscanfItems items (input.dropWhile isspace)
  | FormatItem.char c :: items, input =>
    match input with
    | b :: rest => if b = c then sscanfItems items rest else some []
    | [] => some []
  | FormatItem.int :: items, input =>
    match scanInt input with
    | none => some []
    | some (none, _) => none
    | some (some n, rest) => (sscanfItems items rest).map (fun vs => FormatValue.int n :: vs)
  | FormatItem.str :: items, input =>
    let input := input.dropWhile isspace
    let token := input.takeWhile (fun b => !isspace b)
    if token.isEmpty then some []
    else
      (sscanfItems items (input.dropWhile (fun b => !isspace b))).map
        (fun vs => FormatValue.str token :: vs)
  | FormatItem.scanset excluded :: items, input =>
    let token := input.takeWhile (fun b => b ≠ excluded)
    if token.isEmpty then some []
    else
      (sscanfItems items (input.dropWhile (fun b => b ≠ excluded))).map
        (fun vs => FormatValue.str token :: vs)

/-- C library `sscanf(input, format, ...)`; `input` holds the bytes of a `std::string`, of
which `c_str()` is read up to the first zero byte. -/
def sscanf (input : List Nat) (format : String) : Option (List FormatValue) :=
  sscanfItems (parseFormat format.toList) (cString input)
/-- Model of `struct DfsConfig`: `users` is the array of `MAX_USERS` pointers, `none` for a
null pointer. -/
structure DfsConfig where
  server_name : List Nat
  users : List (Option User)
  user_count : Int
  deriving DecidableEq, Repr

/-- Model of `struct DfsRecvCommand`. -/
structure DfsRecvCommand where
  flag : Int
  user : User
  folder : List Nat
  file_name : List Nat
  deriving DecidableEq, Repr

/-- The default constructor `DfsRecvCommand()`. -/
def DfsRecvCommand.new : DfsRecvCommand :=
  { flag := 0, user := { username := [], password := [] }, folder := [], file_name := [] }

/-- The loop of `DfsUtils::authDfsUser` from index `i`, for `fuel` more entries; `none` when
`conf.users[i]` is outside the array. -/
def authDfsUser.loop (user : User) (conf : DfsConfig) : Nat → Nat → Option Bool
  | 0, _ => some false
  | fuel + 1, i =>
    match conf.users.get? i with
    | none => none
    | some entry =>
      if entry = some user then some true else authDfsUser.loop user conf fuel (i + 1)

/-- Model of `DfsUtils::authDfsUser(user, conf)`. -/
def authDfsUser (user : User) (conf : DfsConfig) : Option Bool :=
  authDfsUser.loop user conf conf.user_count.toNat 0

/-- Model of `DfsUtils::dfsCommandDecodeAndAuth(buffer, format, recvCmd, conf)`: the `bool`
returned and the updated `recvCmd`.  `none` when `sscanf` stores fewer than the five
values (a `char` array is then read uninitialised) or a token does not fit its array of
`MAX_CHAR_BUFF` chars. -/
def dfsCommandDecodeAndAuth (buffer : List Nat) (format : String) (recvCmd : DfsRecvCommand)
    (conf : DfsConfig) : Option (Bool × DfsRecvCommand) :=
  match sscanf buffer format with
  | some [FormatValue.int flag, FormatValue.str username, FormatValue.str password,
      FormatValue.str folder, FormatValue.str fileName] =>
    if username.length < MAX_CHAR_BUFF ∧ password.length < MAX_CHAR_BUFF ∧
        folder.length < MAX_CHAR_BUFF ∧ fileName.length < MAX_CHAR_BUFF then
      let recvCmd1 : DfsRecvCommand :=
        { recvCmd with
          flag := flag,
          user := { username := username, password := password },
          folder := if folder = asciiBytes "NULL" then [] else folder,
          file_name := if fileName = asciiBytes "NULL" then [] else fileName }
      (authDfsUser recvCmd1.user conf).map (fun authFlag => (authFlag, recvCmd1))
    else none
  | _ => none

/-- What the client's file system answers to `commandBuilder`: `Utils::checkDirectoryExists`,
`Utils::checkFileExists`, and whether `mkdir` fails with an error other than `EEXIST`. -/
structure LocalFiles where
  checkDirectoryExists : List Nat → Bool
  checkFileExists : List Nat → List Nat → Bool
  mkdirFails : List Nat → Bool

/-- Model of `DfcUtils::commandBuilder(buffer, format, fileAttr, user, flag)`: the `bool`
returned and the new value of `buffer`. -/
def commandBuilder (files : LocalFiles) (buffer : List Nat) (format : String)
    (fileAttr : FileAttribute) (user : User) (flag : Int) : Option (Bool × List Nat) :=
  let fileFolder := fileAttr.remote_file_folder
  let fileName := fileAttr.remote_file_name
  let prepared : Option (List Nat × List Nat) :=
    if flag = LIST_FLAG then
      some (if !fileFolder.isEmpty then fileFolder else asciiBytes "/",
            if !fileName.isEmpty then fileName else asciiBytes "NULL")
    else if flag = PUT_FLAG then
      let fileFolder := if !fileFolder.isEmpty then fileFolder else asciiBytes "/"
      if fileName.isEmpty then none
      else if fileAttr.local_file_folder.length > 1 ∧
          !files.checkDirectoryExists fileAttr.local_file_folder then none
      else if !files.checkFileExists fileAttr.local_file_folder fileAttr.local_file_name then none
      else some (fileFolder, fileName)
    else if flag = GET_FLAG then
      let fileFolder := if !fileFolder.isEmpty then fileFolder else asciiBytes "/"
      if fileName.isEmpty then none
      else if !fileAttr.local_file_folder.isEmpty ∧
          !files.checkDirectoryExists fileAttr.local_file_folder ∧
          files.mkdirFails fileAttr.local_file_folder then none
      else some (fileFolder, fileName)
    else if flag = MKDIR_FLAG then
      some (if !fileAttr.remote_file_folder.isEmpty then fileAttr.remote_file_folder
            else asciiBytes "/", fileName)
    else some (fileFolder, fileName)
  match prepared with
  | none => some (false, buffer)
  | some (fileFolder, fileName) =>
    (snprintf 512 format
      [FormatValue.int flag, FormatValue.str user.username, FormatValue.str user.password,
       FormatValue.str fileFolder, FormatValue.str fileName]).map (fun text => (true, text))

def AUTH_FAILED_ERROR : String := "Invalid Username/Password. Please try again"
def FOLDER_EXISTS_ERROR : String := "Requested folder already exists on server"
def FOLDER_NOT_FOUND_ERROR : String := "Requested folder does not exists on server"

/-- Model of `NetUtils::recvIntValueSocket(socket, value)`: the value and the bytes left. -/
def recvIntValueSocket (littleEndian : Bool) (sock : List Nat) :
    Except NetError (Int × List Nat) :=
  match recvFromSocket sock INT_SIZE with
  | .error e => .error e
  | .ok (payload, rest) =>
    match decodeIntFromUchar littleEndian payload with
    | none => .error .outOfBounds
    | some value => .ok (value, rest)

/-- What `DfsUtils::dfsCommandAccept` does on a connection: the bytes it sends itself, the
arguments of its call of `dfsCommandExec` (`none` when it does not call it), and the
bytes of the socket it leaves unread. -/
structure AcceptOutcome where
  reply : List Nat
  executed : Option (DfsRecvCommand × Int)
  rest : List Nat
  deriving DecidableEq, Repr

/-- Model of `DfsUtils::dfsCommandAccept(socket, conf)`; `sock` is what the client sends.
`.error` stands for the ways the function does not return normally: a short read, a
negative command size given to `resize`, and a variable or array read uninitialised
after a failed `sscanf`. -/
def dfsCommandAccept (littleEndian : Bool) (sock : List Nat) (conf : DfsConfig) :
    Except NetError AcceptOutcome :=
  match recvIntValueSocket littleEndian sock with
  | .error e => .error e
  | .ok (commandSize, sock1) =>
    if commandSize < 0 then .error (.runtimeError "std::length_error")
    else
      match recvFromSocket sock1 commandSize.toNat with
      | .error e => .error e
      | .ok (buffer, rest) =>
        let scanned : Option Int :=
          match sscanf buffer GENERIC_TEMPLATE with
          | some [FormatValue.int tempFlag] => some tempFlag
          | some [FormatValue.int tempFlag, FormatValue.str line] =>
            if line.length ≤ MAX_SEG_SIZE then some tempFlag else none
          | _ => none
        match scanned with
        | none => .error .outOfBounds
        | some flag =>
          let recvCmd : DfsRecvCommand := { DfsRecvCommand.new with flag := flag }
          let decoded : Option (Bool × DfsRecvCommand) :=
            if flag = LIST_FLAG then dfsCommandDecodeAndAuth buffer LIST_TEMPLATE recvCmd conf
            else if flag = GET_FLAG then dfsCommandDecodeAndAuth buffer GET_TEMPLATE recvCmd conf
            else if flag = PUT_FLAG then dfsCommandDecodeAndAuth buffer PUT_TEMPLATE recvCmd conf
            else if flag = MKDIR_FLAG then
              dfsCommandDecodeAndAuth buffer MKDIR_TEMPLATE recvCmd conf
            else some (false, recvCmd)
          match decoded with
          | none => .error .outOfBounds
          | some (authFlag, recvCmd1) =>
            if !authFlag then
              .ok { reply := sendIntValueSocket littleEndian (-1) ++
                      sendErrorHelper littleEndian AUTH_FAILED_ERROR,
                    executed := none, rest := rest }
            else
              .ok { reply := sendIntValueSocket littleEndian 0,
                    executed := some (recvCmd1, flag), rest := rest }
/-- A token of an envelope: not empty, shorter than `MAX_CHAR_BUFF` bytes, without white
space and without zero byte. -/
def IsToken (t : List Nat) : Prop :=
  t ≠ [] ∧ t.length < MAX_CHAR_BUFF ∧ ∀ b ∈ t, isspace b = false ∧ b ≠ 0

instance (t : List Nat) : Decidable (IsToken t) := by
  unfold IsToken
  infer_instance

/-- The text `"FLAG <flag> USERNAME <u> PASSWORD <p> FOLDER <folder> FILENAME <file>\n"`. -/
def envelopeText (flag : Int) (u p folder file : List Nat) : List Nat :=
  asciiBytes "FLAG " ++ (printInt flag ++ (asciiBytes " USERNAME " ++ (u ++
    (asciiBytes " PASSWORD " ++ (p ++ (asciiBytes " FOLDER " ++ (folder ++
      (asciiBytes " FILENAME " ++ (file ++ [10])))))))))
/-- The template `templateStr` that `DfcUtils::commandHandler` passes to `commandBuilder`
for a command flag (the empty string for any other flag). -/
def commandHandler.templateStr (flag : Int) : String :=
  if flag = LIST_FLAG then LIST_TEMPLATE
  else if flag = GET_FLAG then GET_TEMPLATE
  else if flag = PUT_FLAG then PUT_TEMPLATE
  else if flag = MKDIR_FLAG then MKDIR_TEMPLATE
  else ""
/-- A client file system in which every local check of `commandBuilder` passes. -/
def permissiveFiles : LocalFiles :=
  { checkDirectoryExists := fun _ => true, checkFileExists := fun _ _ => true,
    mkdirFails := fun _ => false }

/-- A server configuration with the single user "alice" / "pw". -/
def confAlice : DfsConfig :=
  { server_name := asciiBytes "DFS1",
    users := some { username := asciiBytes "alice", password := asciiBytes "pw" } ::
      List.replicate 9 none,
    user_count := 1 }

/-! ## Replies of the server to LIST and MKDIR (`dfsutils.cpp`) -/

/-- The three sends of the LIST branch of `DfsUtils::dfsCommandExec` that carry the file
information `serverChunksInfo`: the `hasData` flag, `sizeOfPayload`, and the payload (the
encoded record, or zeros when there is no data).  `none` when `sizeOfPayload` does not
fit the `int` it is computed in, or the encoder fails. -/
def dfsCommandExecList.fileInfo (littleEndian : Bool) (serverChunksInfo : ServerChunksInfo) :
    Option (List Nat) :=
  let hasData := listHasData serverChunksInfo
  let sizeOfPayload : Int :=
    (INT_SIZE : Int) + serverChunksInfo.chunks * (CHUNK_INFO_STRUCT_SIZE : Int)
  if sizeOfPayload < 0 ∨ sizeOfPayload ≥ 2 ^ 31 then none
  else
    let payload : Option (List Nat) :=
      if hasData ≠ 0 then
        encodeServerChunksInfoToBuffer littleEndian (List.replicate sizeOfPayload.toNat 0)
          serverChunksInfo
      else some (List.replicate sizeOfPayload.toNat 0)
    payload.map (fun uCharBuffer =>
      sendIntValueSocket littleEndian hasData ++
        (sendIntValueSocket littleEndian sizeOfPayload ++ uCharBuffer))

/-- The LIST branch of `DfsUtils::dfsCommandExec`: everything the server sends.
`folderPathFlag` tells whether the folder exists, `paths` is the `glob` result for it,
`folderPayload` the payload of `Utils::getFoldersInFolder`.  `none` when `std::stoi`
throws in `getFilesInFolder` or the file information cannot be sent. -/
def dfsCommandExecList (littleEndian : Bool) (folderPathFlag : Bool) (paths : List (List Nat))
    (folderPayload : List Nat) : Option (List Nat) :=
  if !folderPathFlag then
    some (sendIntValueSocket littleEndian (-1) ++
      sendErrorHelper littleEndian FOLDER_NOT_FOUND_ERROR)
  else
    match getFilesInFolder paths ServerChunksInfo.new [] with
    | none => none
    | some (_, serverChunksInfo) =>
      (dfsCommandExecList.fileInfo littleEndian serverChunksInfo).map (fun sent =>
        sent ++ (sendIntValueSocket littleEndian (folderPayload.length : Int) ++
          (if folderPayload.length > 0 then folderPayload else [])))

/-- The MKDIR branch of `DfsUtils::dfsCommandExec`: the bytes sent, whether
`createDfsDirectory(folderPath)` is called, and the `bool` returned.  `folderPathFlag`
tells whether the target directory already exists. -/
def dfsCommandExecMkdir (littleEndian : Bool) (folderPathFlag : Bool) :
    List Nat × Bool × Bool :=
  if folderPathFlag then
    (sendIntValueSocket littleEndian (-1) ++ sendErrorHelper littleEndian FOLDER_EXISTS_ERROR,
      false, false)
  else (sendIntValueSocket littleEndian 1, true, true)

/-! ## Command execution of the client (`dfcutils.cpp`, `netutils.cpp`) -/

/-- Model of `NetUtils::fetchAndPrintError(socket)`: the line written to standard output
and the bytes left on the socket.  The payload vector has `payloadSize + 1` bytes and
`recvFromSocket` fills the whole vector, so `payloadSize + 1` bytes are read. -/
def fetchAndPrintError (littleEndian : Bool) (sock : List Nat) :
    Except NetError (List Nat × List Nat) :=
  match recvIntValueSocket littleEndian sock with
  | .error e => .error e
  | .ok (payloadSize, sock1) =>
    if payloadSize < 0 ∨ payloadSize + 1 ≥ 2 ^ 31 then .error .outOfBounds
    else
      match recvFromSocket sock1 (payloadSize + 1).toNat with
      | .error e => .error e
      | .ok (payload, sock2) =>
        .ok (asciiBytes "<<< Error Message: " ++
          (cString (payload.set payloadSize.toNat 0) ++ [10]), sock2)

/-- The connections of the client and its standard output: `connFds[i]` is `none` for
`-1`, and otherwise the bytes that server `i` sends and the client has not read yet. -/
structure ClientState where
  connFds : List (Option (List Nat))
  stdout : List Nat
  deriving DecidableEq, Repr

/-- The body of the status loop of `DfcUtils::commandExec` for server `i`: the status is
read, and for `-1` the error is fetched and printed and `errorFlag` is set. -/
def commandExec.readStatus (littleEndian : Bool) (st : Bool × ClientState) (i : Nat) :
    Except NetError (Bool × ClientState) :=
  match st.2.connFds.get? i with
  | none => .error .outOfBounds
  | some none => .ok st
  | some (some sock) =>
    match recvIntValueSocket littleEndian sock with
    | .error e => .error e
    | .ok (c, sock1) =>
      if c = -1 then
        match fetchAndPrintError littleEndian sock1 with
        | .error e => .error e
        | .ok (line, sock2) =>
          .ok (true, { connFds := st.2.connFds.set i (some sock2),
                       stdout := st.2.stdout ++ line })
      else .ok (st.1, { st.2 with connFds := st.2.connFds.set i (some sock1) })

/-- The body of the loop of `DfcUtils::fetchRemoteFileInfo` for server `i`, reading from
`sock`: the new aggregate, the new `mod` and the bytes left.  A payload size above
`MAX_SEG_SIZE` is read and dropped; a negative one makes the vector constructor throw. -/
def fetchRemoteFileInfo.server (littleEndian : Bool) (i : Nat) (sock : List Nat)
    (collate : ServerChunksCollate) (mod : Int) :
    Except NetError (ServerChunksCollate × Int × List Nat) :=
  match recvIntValueSocket littleEndian sock with
  | .error e => .error e
  | .ok (hasData, sock1) =>
    match recvIntValueSocket littleEndian sock1 with
    | .error e => .error e
    | .ok (payloadSize, sock2) =>
      if payloadSize < 0 then .error (.runtimeError "std::length_error")
      else if payloadSize > (MAX_SEG_SIZE : Int) then
        match recvFromSocket sock2 payloadSize.toNat with
        | .error e => .error e
        | .ok (_, sock3) => .ok (collate, mod, sock3)
      else
        match recvFromSocket sock2 payloadSize.toNat with
        | .error e => .error e
        | .ok (payload, sock3) =>
          match decodeServerChunksInfoFromBuffer littleEndian payload ServerChunksInfo.new with
          | none => .error .outOfBounds
          | some serverChunksInfo =>
            if hasData > 0 then
              match insertToServerChunksCollate collate serverChunksInfo,
                    fetchRemoteFileInfo.deriveMod mod i serverChunksInfo with
              | some collate1, some mod1 => .ok (collate1, mod1, sock3)
              | _, _ => .error .outOfBounds
            else .ok (collate, mod, sock3)

/-- Model of `DfcUtils::fetchRemoteFileInfo(connFds, connCount, serverChunksCollate)`: the
`mod` returned, the aggregate, and the connections after the reads. -/
def fetchRemoteFileInfo (littleEndian : Bool) (connFds : List (Option (List Nat)))
    (connCount : Nat) (collate : ServerChunksCollate) :
    Except NetError (Int × ServerChunksCollate × List (Option (List Nat))) :=
  (List.range connCount).foldlM
    (fun (st : Int × ServerChunksCollate × List (Option (List Nat))) i =>
      match st.2.2.get? i with
      | none => Except.error NetError.outOfBounds
      | some none => Except.ok st
      | some (some sock) =>
        match fetchRemoteFileInfo.server littleEndian i sock st.2.1 st.1 with
        | .error e => .error e
        | .ok (collate1, mod1, sock1) => .ok (mod1, collate1, st.2.2.set i (some sock1)))
    (-1, collate, connFds)
/-- A listing of 18 512 791 basenames "0", "1", ..., each with pieces 1 and 2: its payload
would need `4 + 116 * 18512791 = 2147483760` bytes, more than `INT_MAX`. -/
def oversizedListing : ServerChunksInfo :=
  { chunks := 18512791,
    chunk_info := (List.range 18512791).map
      (fun n => { file_name := asciiBytes (toString n), chunks := (1, 2) }) }

/-- The listing of a server with five basenames "a" .. "e", each with pieces 1 and 2. -/
def listingOfFive : ServerChunksInfo :=
  { chunks := 5,
    chunk_info := [97, 98, 99, 100, 101].map (fun c => { file_name := [c], chunks := (1, 2) }) }

def RESET_SIG : Nat := 78
def PROCEED_SIG : Nat := 89

/-- The statement `uniqueFolders.insert(line)` on a `std::set<std::string>`, kept as the
list of its elements in order. -/
def setInsert : List (List Nat) → List Nat → List (List Nat)
  | [], line => [line]
  | x :: rest, line =>
    if line = x then x :: rest
    else if stringLess line x then line :: x :: rest
    else x :: setInsert rest line

/-- The body of the loop of `DfcUtils::fetchRemoteDirInfo` for one connected server: the
folder payload is read when its size is in `1..MAX_SEG_SIZE`, split at `'\n'`, and its
non-empty lines are inserted into the set; an invalid size is skipped without reading. -/
def fetchRemoteDirInfo.server (littleEndian : Bool) (sock : List Nat)
    (uniqueFolders : List (List Nat)) : Except NetError (List (List Nat) × List Nat) :=
  match recvIntValueSocket littleEndian sock with
  | .error e => .error e
  | .ok (payloadSize, sock1) =>
    if payloadSize < 0 ∨ payloadSize > (MAX_SEG_SIZE : Int) then .ok (uniqueFolders, sock1)
    else if payloadSize > 0 then
      match recvFromSocket sock1 payloadSize.toNat with
      | .error e => .error e
      | .ok (payload, sock2) =>
        .ok (((payload.splitOn 10).filter (fun line => !line.isEmpty)).foldl setInsert
          uniqueFolders, sock2)
    else .ok (uniqueFolders, sock1)

/-- Model of `DfcUtils::fetchRemoteDirInfo(connFds, connCount)`: the lines written to
standard output (the folders, without duplicates, in order) and the connections after
the reads. -/
def fetchRemoteDirInfo (littleEndian : Bool) (connFds : List (Option (List Nat)))
    (connCount : Nat) : Except NetError (List Nat × List (Option (List Nat))) :=
  match (List.range connCount).foldlM
      (fun (st : List (List Nat) × List (Option (List Nat))) i =>
        match st.2.get? i with
        | none => Except.error NetError.outOfBounds
        | some none => Except.ok st
        | some (some sock) =>
          match fetchRemoteDirInfo.server littleEndian sock st.1 with
          | .error e => .error e
          | .ok (uniqueFolders, sock1) => .ok (uniqueFolders, st.2.set i (some sock1)))
      ([], connFds) with
  | .error e => .error e
  | .ok (uniqueFolders, fds) => .ok (uniqueFolders.flatMap (fun folder => folder ++ [10]), fds)

/-- What `DfcUtils::commandExec` has done when it returns: the lines it wrote to standard
output (those of `fetchAndPrintError`, `getOutputListCommand`, `fetchRemoteDirInfo` and
its own `<<<` lines; the `DEBUG` lines of the transfer functions are left out), the
aggregate built by `fetchRemoteFileInfo` (`none` when it was not called), the decision of
the GET branch, the byte given to `sendSignal`, the `mod` given to `fetchRemoteSplits`,
and the connections with what is left unread on them. -/
structure ExecOutcome where
  stdout : List Nat
  collate : Option ServerChunksCollate
  decision : Option GetDecision
  signal : Option Nat
  mod : Option Int
  connFds : List (Option (List Nat))
  deriving DecidableEq, Repr

/-- The loop of the PUT branch of `DfcUtils::commandExec` that awaits the response of
every connected server: `putSuccess` and the connections after the reads. -/
def commandExec.awaitPut (littleEndian : Bool) (st : Bool × List (Option (List Nat))) (i : Nat) :
    Except NetError (Bool × List (Option (List Nat))) :=
  match st.2.get? i with
  | none => .error .outOfBounds
  | some none => .ok st
  | some (some sock) =>
    match recvIntValueSocket littleEndian sock with
    | .error e => .error e
    | .ok (response, sock1) =>
      .ok (if response ≠ 1 then false else st.1, st.2.set i (some sock1))

/-- Model of `DfcUtils::commandExec(connFds, bufferToSend, connCount, attr, flag, conf)`
as far as it reads from the servers and writes to standard output.  `connFds[i]` is
`none` for `-1` and otherwise what server `i` sends after it received the command;
`fallbackMod` is the value `getMd5SumHashMod("/" + remote_file_name)` of the GET branch.
The bytes sent by PUT are `commandExecPut`, and the download that follows `PROCEED_SIG`
in GET is `fetchRemoteSplits`: the outcome of GET is taken at the signal. -/
def commandExec (littleEndian : Bool) (connFds : List (Option (List Nat))) (connCount : Nat)
    (flag : Int) (fallbackMod : Int) : Except NetError ExecOutcome :=
  match (List.range connCount).foldlM (commandExec.readStatus littleEndian)
      (false, { connFds := connFds, stdout := [] }) with
  | .error e => .error e
  | .ok (errorFlag, st) =>
    if errorFlag then
      .ok { stdout := st.stdout, collate := none, decision := none, signal := none, mod := none,
            connFds := st.connFds }
    else if flag = LIST_FLAG then
      match fetchRemoteFileInfo littleEndian st.connFds connCount ServerChunksCollate.new with
      | .error e => .error e
      | .ok (_, collate, fds1) =>
        match getOutputListCommand collate with
        | none => .error .outOfBounds
        | some listing =>
          match fetchRemoteDirInfo littleEndian fds1 connCount with
          | .error e => .error e
          | .ok (folders, fds2) =>
            .ok { stdout := st.stdout ++ (listing ++ folders), collate := some collate,
                  decision := none, signal := some RESET_SIG, mod := none, connFds := fds2 }
    else if flag = GET_FLAG then
      match fetchRemoteFileInfo littleEndian st.connFds connCount ServerChunksCollate.new with
      | .error e => .error e
      | .ok (mod, collate, fds1) =>
        match commandExecGetDecision collate with
        | none => .error .outOfBounds
        | some GetDecision.fileNotFound =>
          .ok { stdout := st.stdout ++ asciiBytes "<<< File not found on any server\n",
                collate := some collate, decision := some GetDecision.fileNotFound,
                signal := some RESET_SIG, mod := none, connFds := fds1 }
        | some GetDecision.fileIncomplete =>
          .ok { stdout := st.stdout ++ asciiBytes "<<< File is incomplete\n",
                collate := some collate, decision := some GetDecision.fileIncomplete,
                signal := some RESET_SIG, mod := none, connFds := fds1 }
        | some GetDecision.proceed =>
          .ok { stdout := st.stdout, collate := some collate,
                decision := some GetDecision.proceed, signal := some PROCEED_SIG,
                mod := some (if mod < 0 then fallbackMod else mod),
                connFds := fds1 }
    else if flag = PUT_FLAG then
      match (List.range connCount).foldlM (commandExec.awaitPut littleEndian)
          (true, st.connFds) with
      | .error e => .error e
      | .ok (putSuccess, fds1) =>
        .ok { stdout := st.stdout ++
                (if putSuccess then asciiBytes "<<< File uploaded successfully!\n"
                 else asciiBytes "<<< File upload failed!\n"),
              collate := none, decision := none, signal := none, mod := none, connFds := fds1 }
    else
      .ok { stdout := st.stdout, collate := none, decision := none, signal := none, mod := none,
            connFds := st.connFds }
/-- Server `i` answers the command with status `-1`: it is connected and the first
integer it sends decodes to `-1` on the client. -/
def AnswersFailure (littleEndian : Bool) (connFds : List (Option (List Nat))) (i : Nat) : Prop :=
  ∃ sock rest, connFds.get? i = some (some sock) ∧
    recvIntValueSocket littleEndian sock = .ok (-1, rest)

/-- What a server sends to the client for a LIST of a folder that holds `.a.1`, `.a.2` and
the sub-folder `docs`: the status 0 of `dfsCommandAccept`, then the LIST branch. -/
def replyListOfA (littleEndian : Bool) : List Nat :=
  sendIntValueSocket littleEndian 0 ++
    ((dfsCommandExecList littleEndian true
      (["d/.", "d/..", "d/.a.1", "d/.a.2"].map asciiBytes) (asciiBytes "docs/\n")).getD [])

/-- What a server sends to the client when authentication fails: status `-1` and the
`AUTH_FAILED` error frame; then it closes the connection. -/
def replyAuthFailed (littleEndian : Bool) : List Nat :=
  sendIntValueSocket littleEndian (-1) ++ sendErrorHelper littleEndian AUTH_FAILED_ERROR

/-- What a server sends to the client for an authenticated MKDIR of a folder that exists:
the status 0 of `dfsCommandAccept`, then the status `-1` and the `FOLDER_EXISTS` frame of
the MKDIR branch. -/
def replyMkdirExists (littleEndian : Bool) : List Nat :=
  sendIntValueSocket littleEndian 0 ++ (dfsCommandExecMkdir littleEndian true).1

/-! ## Vocabulary of the statements -/

/-- The folder of a server that holds no piece of the file. -/
def emptyDir : PieceDir := fun _ => none

/-- A piece as PUT transfers it: id in `1..4`, `content_length` equal to the size of
the content, at most `MAX_SEG_SIZE` bytes. -/
def Split.Transferable (sp : Split) : Prop :=
  sp.content_length = sp.content.length ∧ sp.content.length ≤ MAX_SEG_SIZE ∧
    1 ≤ sp.id ∧ sp.id ≤ 4

/-- What PUT delivers to server `s`: `stream`, the bytes sent to it, is exactly two piece
frames whose ids are the two distinct entries `filePiecesMapping[mod][s]`, and the PUT
branch of the server, started on an empty folder, reads both frames and nothing else,
answers `1`, and ends with `out`, holding exactly the two piece files with those ids. -/
def DeliversTwoFrames (littleEndian : Bool) (mod s : Nat) (stream : List Nat)
    (out : PutOutcome) : Prop :=
  ∃ p q : Split,
    stream = writeSplitToSocketAsStream littleEndian p ++
      writeSplitToSocketAsStream littleEndian q ∧
    p.id ≠ q.id ∧
    filePiecesMapping mod s 0 = some p.id ∧ filePiecesMapping mod s 1 = some q.id ∧
    dfsCommandExecPut littleEndian stream emptyDir = .ok out ∧
    out.result = true ∧ out.rest = [] ∧ out.reply = sendIntValueSocket littleEndian 1 ∧
    ∀ id : Int, (out.dir id).isSome ↔ (id = p.id ∨ id = q.id)

/-- The 41-byte file of the upload/download scenario: pieces of 10, 10, 10 and 11 bytes. -/
def file41 : List Nat :=
  [3, 10, 17, 24, 31, 38, 45, 52, 59, 66,
   73, 80, 87, 94, 101, 108, 115, 122, 129, 136,
   143, 150, 157, 164, 171, 178, 185, 192, 199, 206,
   213, 220, 227, 234, 241, 248, 255, 6, 13, 20, 27]

/-- The bytes of the password "pwd". -/
def passwordPwd : List Nat := [112, 119, 100]

/-! ## Integer codec: auxiliary facts -/

theorem and_ff_eq_mod (x : Nat) : x &&& 0xFF = x % 256 := by
  have h := Nat.and_pow_two_sub_one_eq_mod x 8
  simpa using h

theorem or_bytes_eq_add (a b c d : Nat) (hb : b < 256) (hc : c < 256) (hd : d < 256) :
    (a <<< 24) ||| (b <<< 16) ||| (c <<< 8) ||| d = a * 2 ^ 24 + b * 2 ^ 16 + c * 2 ^ 8 + d := by
  simp only [Nat.shiftLeft_eq]
  have hb16 : b * 2 ^ 16 < 2 ^ 24 := by omega
  have hc8 : c * 2 ^ 8 < 2 ^ 16 := by omega
  have hd0 : d < 2 ^ 8 := by omega
  have h1 : a * 2 ^ 24 ||| b * 2 ^ 16 = a * 2 ^ 24 + b * 2 ^ 16 := by
    have h := Nat.mul_add_lt_is_or hb16 a
    rw [Nat.mul_comm (2 ^ 24) a] at h
    exact h.symm
  have h2 : (a * 2 ^ 24 + b * 2 ^ 16) ||| c * 2 ^ 8 = a * 2 ^ 24 + b * 2 ^ 16 + c * 2 ^ 8 := by
    have h := Nat.mul_add_lt_is_or hc8 (a * 2 ^ 8 + b)
    have e : 2 ^ 16 * (a * 2 ^ 8 + b) = a * 2 ^ 24 + b * 2 ^ 16 := by ring
    rw [e] at h
    exact h.symm
  have h3 : (a * 2 ^ 24 + b * 2 ^ 16 + c * 2 ^ 8) ||| d
      = a * 2 ^ 24 + b * 2 ^ 16 + c * 2 ^ 8 + d := by
    have h := Nat.mul_add_lt_is_or hd0 (a * 2 ^ 16 + b * 2 ^ 8 + c)
    have e : 2 ^ 8 * (a * 2 ^ 16 + b * 2 ^ 8 + c) = a * 2 ^ 24 + b * 2 ^ 16 + c * 2 ^ 8 := by ring
    rw [e] at h
    exact h.symm
  rw [h1, h2, h3]

theorem bswap32_lt (x : Nat) : bswap32 x < 2 ^ 32 := by
  unfold bswap32; omega

theorem bswap32_bytes (a b c d : Nat) (ha : a < 256) (hb : b < 256) (hc : c < 256)
    (hd : d < 256) :
    bswap32 (a * 2 ^ 24 + b * 2 ^ 16 + c * 2 ^ 8 + d) = d * 2 ^ 24 + c * 2 ^ 16 + b * 2 ^ 8 + a := by
  unfold bswap32
  have h0 : (a * 2 ^ 24 + b * 2 ^ 16 + c * 2 ^ 8 + d) % 256 = d := by omega
  have h1 : (a * 2 ^ 24 + b * 2 ^ 16 + c * 2 ^ 8 + d) / 2 ^ 8 % 256 = c := by omega
  have h2 : (a * 2 ^ 24 + b * 2 ^ 16 + c * 2 ^ 8 + d) / 2 ^ 16 % 256 = b := by omega
  have h3 : (a * 2 ^ 24 + b * 2 ^ 16 + c * 2 ^ 8 + d) / 2 ^ 24 % 256 = a := by omega
  rw [h0, h1, h2, h3]

theorem bswap32_bswap32 (x : Nat) (hx : x < 2 ^ 32) : bswap32 (bswap32 x) = x := by
  obtain ⟨a, b, c, d, ha, hb, hc, hd, rfl⟩ : ∃ a b c d, a < 256 ∧ b < 256 ∧ c < 256 ∧ d < 256 ∧
      x = a * 2 ^ 24 + b * 2 ^ 16 + c * 2 ^ 8 + d :=
    ⟨x / 2 ^ 24 % 256, x / 2 ^ 16 % 256, x / 2 ^ 8 % 256, x % 256,
      by omega, by omega, by omega, by omega, by omega⟩
  rw [bswap32_bytes a b c d ha hb hc hd, bswap32_bytes d c b a hd hc hb ha]

theorem htonl_lt (le : Bool) (x : Nat) (hx : x < 2 ^ 32) : htonl le x < 2 ^ 32 := by
  unfold htonl
  split
  · exact bswap32_lt x
  · exact hx

theorem ntohl_htonl (le : Bool) (x : Nat) (hx : x < 2 ^ 32) : ntohl le (htonl le x) = x := by
  unfold ntohl htonl
  cases le
  · simp
  · simp [bswap32_bswap32 x hx]

theorem toUint32_lt (n : Int) : toUint32 n < 2 ^ 32 := by
  unfold toUint32; omega

theorem toInt32_toUint32 (n : Int) (h1 : -2 ^ 31 ≤ n) (h2 : n < 2 ^ 31) :
    toInt32 (toUint32 n) = n := by
  unfold toInt32 toUint32
  split <;> omega

theorem decode_word_bytes (le : Bool) (x : Nat) (hx : x < 2 ^ 32) (rest : List Nat) :
    decodeIntFromUchar le
      (((x >>> 24) &&& 0xFF) :: ((x >>> 16) &&& 0xFF) :: ((x >>> 8) &&& 0xFF) :: (x &&& 0xFF) :: rest)
      = some (toInt32 (ntohl le x)) := by
  simp only [decodeIntFromUchar, and_ff_eq_mod, Nat.shiftRight_eq_div_pow]
  rw [or_bytes_eq_add _ _ _ _ (by omega) (by omega) (by omega)]
  congr 3
  omega

theorem decode_encodeIntBytes (le : Bool) (n : Int) (h1 : -2 ^ 31 ≤ n) (h2 : n < 2 ^ 31)
    (rest : List Nat) :
    decodeIntFromUchar le (encodeIntBytes le n ++ rest) = some n := by
  unfold encodeIntBytes
  simp only [List.cons_append, List.nil_append]
  rw [decode_word_bytes le _ (htonl_lt le _ (toUint32_lt n)), ntohl_htonl le _ (toUint32_lt n),
    toInt32_toUint32 n h1 h2]

theorem encodeIntBytes_length (le : Bool) (n : Int) : (encodeIntBytes le n).length = 4 := rfl

/-! ## Settled claims -/

/-- C2. Any three servers hold the whole file: for every `mod` and every server `s`,
each piece id 1..4 (written `k + 1` for `k` in 0..3) is one of the two ids
`filePiecesMapping[mod][t]` of some server `t` other than `s`. -/
theorem any_three_servers_hold_every_piece :
    ∀ mod s k : Fin 4, ∃ t : Fin 4, t ≠ s ∧
      ∃ slot : Fin 2, filePiecesMapping mod t slot = some ((k.val : Int) + 1) := by
  decide

/-- C3. Twofold replication: for every `mod`, every table entry is a piece id in 1..4,
every piece id 1..4 is held by some server, and the servers whose pair contains a
given piece id are exactly two. -/
theorem every_piece_on_exactly_two_servers :
    ∀ mod : Fin 4,
      (∀ s : Fin 4, ∀ slot : Fin 2, ∃ k : Fin 4,
        filePiecesMapping mod s slot = some ((k.val : Int) + 1)) ∧
      (∀ k : Fin 4, ∃ s : Fin 4, ∃ slot : Fin 2,
        filePiecesMapping mod s slot = some ((k.val : Int) + 1)) ∧
      (∀ k : Fin 4,
        ((List.finRange 4).filter (fun s : Fin 4 =>
          decide (filePiecesMapping mod s 0 = some ((k.val : Int) + 1) ∨
                  filePiecesMapping mod s 1 = some ((k.val : Int) + 1)))).length = 2) := by
  decide

/-- C8. Integer codec round trip: for every `int` `n` in `[-2^31, 2^31)`, on a host of
either byte order, `decodeIntFromUchar` applied to the buffer written by
`encodeIntToUchar` returns `n`, whatever the buffer held before. -/
theorem decodeInt_encodeInt_roundtrip (littleEndian : Bool) (buffer : List Nat) (n : Int)
    (hlo : -2 ^ 31 ≤ n) (hhi : n < 2 ^ 31) :
    decodeIntFromUchar littleEndian (encodeIntToUchar littleEndian buffer n) = some n := by
  unfold encodeIntToUchar
  exact decode_encodeIntBytes littleEndian n hlo hhi _

/-- C8, instance: the failure status `-1` survives the codec on a little-endian host. -/
theorem decodeInt_encodeInt_roundtrip_witness :
    (-2 ^ 31 ≤ (-1 : Int) ∧ (-1 : Int) < 2 ^ 31) ∧
      decodeIntFromUchar true (encodeIntToUchar true [0, 0, 0, 0] (-1)) = some (-1) :=
  ⟨by decide, decodeInt_encodeInt_roundtrip true [0, 0, 0, 0] (-1) (by decide) (by decide)⟩

/-- C9. On a little-endian host the bytes that `encodeIntToUchar` writes and
`sendIntValueSocket` sends for `n = 1` are `01 00 00 00`, least significant byte
first, and not the big-endian bytes `(n >> 24) & 0xFF, ..., n & 0xFF = 00 00 00 01`
(which a big-endian host does send). -/
theorem sendInt_little_endian_host_not_big_endian :
    sendIntValueSocket true 1 = [1, 0, 0, 0] ∧
      encodeIntToUchar true [0, 0, 0, 0] 1 = [1, 0, 0, 0] ∧
      sendIntValueSocket true 1 ≠
        [(1 >>> 24) &&& 0xFF, (1 >>> 16) &&& 0xFF, (1 >>> 8) &&& 0xFF, 1 &&& 0xFF] ∧
      sendIntValueSocket false 1 = [0, 0, 0, 1] := by
  decide

/-! ## Hash reduction -/

theorem foldl_range_getD (f : Nat → Nat → Nat) (d : List Nat) (a n : Nat) (hn : n ≤ d.length) :
    (List.range n).foldl (fun acc i => f acc (d.getD i 0)) a = (d.take n).foldl f a := by
  induction n with
  | zero => simp
  | succ m ih =>
    have hm : m < d.length := by omega
    rw [List.range_succ, List.foldl_append, ih (by omega), List.take_succ, List.foldl_append]
    simp [List.getElem?_eq_getElem hm]

/-- C10. Hash reduction: for every 16-byte digest `d` the loop of `getMd5SumHashMod`
is the iteration `acc <- (acc*16 + d[i]) mod 4` over the sixteen bytes from `acc = 0`
and its value is in `{0,1,2,3}`; the value `getMd5SumHashMod` returns for a readable
file depends on the digest alone; and for the MD5 digest of "hello",
`5d41402abc4b2a76b9719d911017c592`, the value is 2. -/
theorem md5_hash_reduction (d : List Nat) (hd : d.length = 16) :
    md5DigestMod d = d.foldl (fun acc b => (acc * 16 + b) % 4) 0 ∧
      md5DigestMod d < 4 ∧
      (∀ (md5 md5' : List Nat → List Nat) (f f' : List Nat), md5 f = d → md5' f' = d →
        getMd5SumHashMod md5 (some f) = (md5DigestMod d : Int) ∧
        getMd5SumHashMod md5 (some f) = getMd5SumHashMod md5' (some f')) ∧
      md5DigestMod helloDigest = 2 := by
  refine ⟨?_, ?_, ?_, by decide⟩
  · unfold md5DigestMod MD5_DIGEST_LENGTH NUM_SERVER
    rw [foldl_range_getD (fun acc b => (acc * 16 + b) % 4) d 0 16 (by omega)]
    rw [← hd, List.take_length]
  · unfold md5DigestMod MD5_DIGEST_LENGTH NUM_SERVER
    rw [List.range_succ, List.foldl_append]
    simp only [List.foldl_cons, List.foldl_nil]
    exact Nat.mod_lt _ (by decide)
  · intro md5 md5' f f' h h'
    simp [getMd5SumHashMod, h, h']

/-- C10, instance: the digest of "hello" has sixteen bytes, and its reduction is the
iteration of the specification and lies below 4. -/
theorem md5_hash_reduction_witness :
    helloDigest.length = 16 ∧
      md5DigestMod helloDigest = helloDigest.foldl (fun acc b => (acc * 16 + b) % 4) 0 ∧
      md5DigestMod helloDigest < 4 :=
  ⟨by decide, (md5_hash_reduction helloDigest (by decide)).1,
    (md5_hash_reduction helloDigest (by decide)).2.1⟩

/-! ## Splitting and combining -/

theorem IfStream.read_ok (data : List Nat) (pos n : Nat) (h : pos + n ≤ data.length) :
    IfStream.read { data := data, pos := pos, fail := false } (List.replicate n 0) n
      = ((data.drop pos).take n, { data := data, pos := pos + n, fail := false }) := by
  unfold IfStream.read
  have h1 : n ≤ data.length - pos := by omega
  simp [h1]

theorem set_four (l : List (Option Split)) (h : l.length = 4) (a b c d : Option Split) :
    (((l.set 0 a).set 1 b).set 2 c).set 3 d = [a, b, c, d] := by
  match l, h with
  | [_, _, _, _], _ => rfl

/-- The four splits that `splitFileToPieces` produces from the bytes `B`. -/
theorem splitFileToPieces_eq (filePath : String) (B : List Nat) (fileSplit : FileSplit)
    (h : fileSplit.splits.length = 4) :
    splitFileToPieces filePath (some B) fileSplit =
      (true, { file_name := filePath, split_count := 4,
               splits := [
                 some { id := 1, content := B.take (B.length / 4),
                        content_length := B.length / 4 },
                 some { id := 2, content := (B.drop (B.length / 4)).take (B.length / 4),
                        content_length := B.length / 4 },
                 some { id := 3, content := (B.drop (2 * (B.length / 4))).take (B.length / 4),
                        content_length := B.length / 4 },
                 some { id := 4, content := B.drop (3 * (B.length / 4)),
                        content_length := B.length / 4 + B.length % 4 }] }) := by
  unfold splitFileToPieces
  have r4 : List.range 4 = [0, 1, 2, 3] := by decide
  simp only [r4, List.foldl_cons, List.foldl_nil, splitFileToPieces.step]
  simp only [ne_eq, Nat.reduceSub, Nat.reduceEqDiff, not_false_eq_true, if_true, not_true_eq_false,
    if_false, OfNat.zero_ne_ofNat, OfNat.one_ne_ofNat]
  rw [IfStream.read_ok B 0 _ (by omega)]
  simp only [Nat.zero_add]
  rw [IfStream.read_ok B _ _ (by omega)]
  simp only
  rw [IfStream.read_ok B _ _ (by omega)]
  simp only
  rw [IfStream.read_ok B _ _ (by omega)]
  simp only [set_four _ h, List.drop_zero]
  have e2 : B.length / 4 + B.length / 4 = 2 * (B.length / 4) := by omega
  have e3 : 2 * (B.length / 4) + B.length / 4 = 3 * (B.length / 4) := by omega
  have e4 : (B.drop (3 * (B.length / 4))).take (B.length / 4 + B.length % 4)
      = B.drop (3 * (B.length / 4)) := by
    apply List.take_of_length_le
    simp; omega
  simp [e2, e3, e4]

theorem combine_four (p1 p2 p3 p4 : Split) (name : String)
    (h1 : p1.content_length = p1.content.length) (h2 : p2.content_length = p2.content.length)
    (h3 : p3.content_length = p3.content.length) (h4 : p4.content_length = p4.content.length) :
    combineFileFromPieces true
      { file_name := name, splits := [some p1, some p2, some p3, some p4], split_count := 4 }
      = some (true, p1.content ++ p2.content ++ p3.content ++ p4.content) := by
  unfold combineFileFromPieces
  have r4 : List.range 4 = [0, 1, 2, 3] := by decide
  simp [r4, h1, h2, h3, h4]

theorem take_drop_four (B : List Nat) (q : Nat) :
    B.take q ++ (B.drop q).take q ++ (B.drop (2 * q)).take q ++ B.drop (3 * q) = B := by
  have e2 : 2 * q = q + q := by omega
  have e3 : 3 * q = q + q + q := by omega
  rw [e2, e3, ← List.take_add, ← List.take_add, List.take_append_drop]

/-- C5. Split/combine round trip: for every byte sequence `B` (empty or of any length),
`combineFileFromPieces` run on the splits that `splitFileToPieces` produces from `B`
writes exactly `B`, the concatenation in index order of the four contents. -/
theorem combine_split_roundtrip (filePath : String) (B : List Nat) (fileSplit : FileSplit)
    (h : fileSplit.splits.length = NUM_SERVER) :
    combineFileFromPieces true (splitFileToPieces filePath (some B) fileSplit).2
        = some (true, B) ∧
      (((splitFileToPieces filePath (some B) fileSplit).2.splits.filterMap id).map
        Split.content).flatten = B := by
  rw [splitFileToPieces_eq filePath B fileSplit h]
  constructor
  · rw [combine_four _ _ _ _ _ (by simp; omega) (by simp; omega) (by simp; omega)
      (by simp; omega)]
    simp only [take_drop_four]
  · have e := take_drop_four B (B.length / 4)
    simpa using e

/-- C5, instance: a 5-byte file (length not divisible by 4) split into a fresh `FileSplit`. -/
theorem combine_split_roundtrip_witness :
    FileSplit.new.splits.length = NUM_SERVER ∧
      combineFileFromPieces true
        (splitFileToPieces "f" (some [104, 101, 108, 108, 111]) FileSplit.new).2
        = some (true, [104, 101, 108, 108, 111]) :=
  ⟨by decide, (combine_split_roundtrip "f" [104, 101, 108, 108, 111] FileSplit.new (by decide)).1⟩

/-- C6. Piece boundaries: for a file `B` of `S` bytes `splitFileToPieces` succeeds and
produces four splits with ids 1, 2, 3, 4 in that order; the split at index `i < 3`
(id `i + 1`) has length `S / 4` and holds the bytes `[i * (S/4), (i+1) * (S/4))`, and
the split with id 4 has length `S / 4 + S % 4` and holds all remaining bytes. -/
theorem split_piece_boundaries (filePath : String) (B : List Nat) (fileSplit : FileSplit)
    (h : fileSplit.splits.length = NUM_SERVER) :
    (splitFileToPieces filePath (some B) fileSplit).1 = true ∧
      (splitFileToPieces filePath (some B) fileSplit).2.split_count = 4 ∧
      (splitFileToPieces filePath (some B) fileSplit).2.splits.map (Option.map Split.id)
        = [some 1, some 2, some 3, some 4] ∧
      (∀ i, i < 3 → ∃ p : Split,
        (splitFileToPieces filePath (some B) fileSplit).2.splits.get? i = some (some p) ∧
        p.content_length = B.length / 4 ∧ p.content.length = B.length / 4 ∧
        p.content = (B.drop (i * (B.length / 4))).take (B.length / 4)) ∧
      (∃ p : Split,
        (splitFileToPieces filePath (some B) fileSplit).2.splits.get? 3 = some (some p) ∧
        p.content_length = B.length / 4 + B.length % 4 ∧
        p.content.length = B.length / 4 + B.length % 4 ∧
        p.content = B.drop (3 * (B.length / 4))) := by
  rw [splitFileToPieces_eq filePath B fileSplit h]
  refine ⟨rfl, rfl, rfl, ?_, ?_⟩
  · intro i hi
    have hcases : i = 0 ∨ i = 1 ∨ i = 2 := by omega
    rcases hcases with rfl | rfl | rfl
    · exact ⟨_, rfl, rfl, by simp; omega, by simp⟩
    · exact ⟨_, rfl, rfl, by simp; omega, by simp⟩
    · exact ⟨_, rfl, rfl, by simp; omega, by simp⟩
  · exact ⟨_, rfl, rfl, by simp; omega, rfl⟩

/-- C6, instance: a 5-byte file gives splits of 1, 1, 1 and 2 bytes. -/
theorem split_piece_boundaries_witness :
    FileSplit.new.splits.length = NUM_SERVER ∧
      (splitFileToPieces "f" (some [104, 101, 108, 108, 111]) FileSplit.new).2.splits.map
        (Option.map Split.id) = [some 1, some 2, some 3, some 4] :=
  ⟨by decide,
    (split_piece_boundaries "f" [104, 101, 108, 108, 111] FileSplit.new (by decide)).2.2.1⟩

/-! ## Per-piece cipher -/

theorem xorContent_length (key content : List Nat) :
    (xorContent key content).length = content.length := by
  simp [xorContent]

theorem getElem?_xorContent (key content : List Nat) (j : Nat) :
    (xorContent key content)[j]? =
      content[j]?.map (fun c => (c ^^^ key.getD (j % key.length) 0) % 256) := by
  simp only [xorContent, List.getElem?_map, List.getElem?_enum]
  cases content[j]? <;> rfl

theorem getD_lt_of_forall (key : List Nat) (hk : ∀ b ∈ key, b < 256) (i : Nat) :
    key.getD i 0 < 256 := by
  rw [List.getD_eq_getElem?_getD]
  cases h : key[i]? with
  | none => simp
  | some b =>
    simp only [Option.getD_some]
    exact hk b (List.getElem?_mem h)

theorem xor_byte_lt (c x : Nat) (hc : c < 256) (hx : x < 256) : c ^^^ x < 256 := by
  have h8 : (256 : Nat) = 2 ^ 8 := by decide
  rw [h8] at hc hx ⊢
  exact Nat.xor_lt_two_pow hc hx

theorem xor_byte_twice (c x : Nat) (hc : c < 256) (hx : x < 256) :
    ((c ^^^ x) % 256 ^^^ x) % 256 = c := by
  rw [Nat.mod_eq_of_lt (xor_byte_lt c x hc hx), Nat.xor_cancel_right, Nat.mod_eq_of_lt hc]

theorem xorContent_lt (key content : List Nat) : ∀ b ∈ xorContent key content, b < 256 := by
  intro b hb
  simp only [xorContent, List.mem_map] at hb
  obtain ⟨jc, _, rfl⟩ := hb
  exact Nat.mod_lt _ (by decide)

theorem xorContent_xorContent (key content : List Nat) (hk : ∀ b ∈ key, b < 256)
    (hc : ∀ b ∈ content, b < 256) : xorContent key (xorContent key content) = content := by
  apply List.ext_getElem?
  intro j
  rw [getElem?_xorContent, getElem?_xorContent]
  cases h : content[j]? with
  | none => rfl
  | some c =>
    simp only [Option.map_some']
    rw [xor_byte_twice c _ (hc c (List.getElem?_mem h)) (getD_lt_of_forall key hk _)]

theorem getElem?_encryptDecrypt (fs : FileSplit) (key : List Nat) (i : Nat) :
    (encryptDecryptFileSplit fs key).splits[i]? =
      fs.splits[i]?.map (fun o =>
        if i < fs.split_count then
          o.map (fun split => { split with content := xorContent key split.content })
        else o) := by
  simp only [encryptDecryptFileSplit, List.getElem?_map, List.getElem?_enum]
  cases fs.splits[i]? <;> rfl

/-- C7. The per-piece cipher is an involution: for every `FileSplit` whose contents are
bytes and every key of at least one byte, applying `encryptDecryptFileSplit` twice
with the same key gives back the `FileSplit`; one application keeps the id and the
lengths of every split among the first `split_count` and replaces its byte `j` by
that byte XOR `key[j mod |key|]`. -/
theorem cipher_involution (fs : FileSplit) (key : List Nat) (hlen : 1 ≤ key.length)
    (hk : ∀ b ∈ key, b < 256)
    (hc : ∀ sp : Split, some sp ∈ fs.splits → ∀ b ∈ sp.content, b < 256) :
    encryptDecryptFileSplit (encryptDecryptFileSplit fs key) key = fs ∧
      (∀ (i : Nat) (sp : Split), i < fs.split_count → fs.splits.get? i = some (some sp) →
        ∃ sp1 : Split, (encryptDecryptFileSplit fs key).splits.get? i = some (some sp1) ∧
          sp1.id = sp.id ∧ sp1.content_length = sp.content_length ∧
          sp1.content.length = sp.content.length ∧
          ∀ j, j < sp.content.length →
            sp1.content.get? j =
              (sp.content.get? j).map (fun c => c ^^^ key.getD (j % key.length) 0)) := by
  constructor
  · have hs : (encryptDecryptFileSplit (encryptDecryptFileSplit fs key) key).splits = fs.splits := by
      apply List.ext_getElem?
      intro i
      rw [getElem?_encryptDecrypt, getElem?_encryptDecrypt]
      cases h : fs.splits[i]? with
      | none => rfl
      | some o =>
        simp only [Option.map_some']
        have hcount : (encryptDecryptFileSplit fs key).split_count = fs.split_count := rfl
        rw [hcount]
        by_cases hi : i < fs.split_count
        · simp only [hi, if_true]
          cases o with
          | none => rfl
          | some sp =>
            simp only [Option.map_some']
            rw [xorContent_xorContent key sp.content hk (hc sp (List.getElem?_mem h))]
        · simp only [hi, if_false]
    cases fs with
    | mk name splits count =>
      simp only [encryptDecryptFileSplit] at hs ⊢
      simp only [FileSplit.mk.injEq, true_and, and_true]
      exact hs
  · intro i sp hi hget
    rw [List.get?_eq_getElem?] at hget
    refine ⟨{ sp with content := xorContent key sp.content }, ?_, rfl, rfl,
      xorContent_length key sp.content, ?_⟩
    · rw [List.get?_eq_getElem?, getElem?_encryptDecrypt, hget]
      simp [hi]
    · intro j hj
      simp only [List.get?_eq_getElem?]
      rw [getElem?_xorContent]
      cases h : sp.content[j]? with
      | none => rfl
      | some c =>
        simp only [Option.map_some']
        have hcb : c < 256 := hc sp (List.getElem?_mem hget) c (List.getElem?_mem h)
        rw [Nat.mod_eq_of_lt (xor_byte_lt c _ hcb (getD_lt_of_forall key hk _))]

/-- C7, instance: a `FileSplit` with one two-byte split and the two-byte key "pw". -/
theorem cipher_involution_witness :
    (1 ≤ [112, 119].length ∧ (∀ b ∈ [112, 119], b < 256)) ∧
      encryptDecryptFileSplit (encryptDecryptFileSplit
        { file_name := "f", split_count := 4,
          splits := [some { id := 1, content := [200, 7], content_length := 2 }, none, none, none] }
        [112, 119]) [112, 119] =
        { file_name := "f", split_count := 4,
          splits := [some { id := 1, content := [200, 7], content_length := 2 }, none, none, none] } :=
  ⟨⟨by decide, by decide⟩,
    (cipher_involution
      { file_name := "f", split_count := 4,
        splits := [some { id := 1, content := [200, 7], content_length := 2 }, none, none, none] }
      [112, 119] (by decide) (by decide) (by
        intro sp hsp b hb
        simp only [List.mem_cons, Option.some.injEq, List.mem_singleton, or_self, or_false,
          List.not_mem_nil, reduceCtorEq] at hsp
        subst hsp
        simp only [List.mem_cons, List.mem_singleton, List.not_mem_nil, or_false] at hb
        rcases hb with rfl | rfl <;> decide)).1⟩

/-! ## Piece frames -/

theorem encodeIntToUchar_fresh (le : Bool) (n : Int) :
    encodeIntToUchar le (List.replicate INT_SIZE 0) n = encodeIntBytes le n := by
  simp [encodeIntToUchar, INT_SIZE]

theorem sendIntValueSocket_eq (le : Bool) (n : Int) :
    sendIntValueSocket le n = encodeIntBytes le n := encodeIntToUchar_fresh le n

theorem toInt32_small (n : Nat) (h : n < 2 ^ 31) : toInt32 n = (n : Int) := by
  unfold toInt32
  have e : n % 2 ^ 32 = n := Nat.mod_eq_of_lt (by omega)
  rw [e, if_pos h]

theorem writeSplitToSocketAsStream_eq (le : Bool) (sp : Split) :
    writeSplitToSocketAsStream le sp =
      0 :: (encodeIntBytes le sp.id ++ (encodeIntBytes le (toInt32 sp.content_length) ++
        (if sp.content_length > 0 then sp.content else []))) := by
  simp [writeSplitToSocketAsStream, encodeIntToUchar_fresh, INITIAL_WRITE_FLAG]

/-- Parsing a well-formed frame: flag 0, two encoded integers, `len` content bytes. -/
theorem frame_parse (le : Bool) (wid wlen : List Nat) (id len : Int) (content rest : List Nat)
    (old : Split) (hwid : wid.length = 4) (hwlen : wlen.length = 4)
    (hid : decodeIntFromUchar le wid = some id) (hlen : decodeIntFromUchar le wlen = some len)
    (h0 : 0 ≤ len) (h512 : len ≤ 512) (hc : content.length = len.toNat) :
    writeSplitFromSocketAsStream le (0 :: (wid ++ (wlen ++ (content ++ rest)))) old =
      .ok ({ id := id, content := content, content_length := len.toNat }, rest) := by
  match wid, hwid, wlen, hwlen with
  | [a0, a1, a2, a3], _, [b0, b1, b2, b3], _ =>
    have hrecv : recvFromSocket (0 :: ([a0, a1, a2, a3] ++ ([b0, b1, b2, b3] ++ (content ++ rest)))) 9
        = .ok ([0, a0, a1, a2, a3, b0, b1, b2, b3], content ++ rest) := by
      simp [recvFromSocket]
    unfold writeSplitFromSocketAsStream
    rw [hrecv]
    have hd1 : (([0, a0, a1, a2, a3, b0, b1, b2, b3] : List Nat).drop 1).take 4 = [a0, a1, a2, a3] := rfl
    have hd5 : (([0, a0, a1, a2, a3, b0, b1, b2, b3] : List Nat).drop 5).take 4 = [b0, b1, b2, b3] := rfl
    simp only [hd1, hd5, hid, hlen]
    have hflag : ([0, a0, a1, a2, a3, b0, b1, b2, b3] : List Nat).getD 0 0 = INITIAL_WRITE_FLAG := rfl
    have hnot : ¬ (len < 0 ∨ len > (MAX_SEG_SIZE : Int)) := by
      simp only [MAX_SEG_SIZE]; push_cast; omega
    simp only [hflag, ne_eq, not_true_eq_false, if_false, hnot]
    by_cases hpos : len > 0
    · have hr2 : recvFromSocket (content ++ rest) len.toNat = .ok (content, rest) := by
        simp [recvFromSocket, ← hc]
      simp only [hpos, if_true, hr2]
    · have hz : len = 0 := by omega
      subst hz
      have hnil : content = [] := by
        apply List.eq_nil_of_length_eq_zero
        simpa using hc
      subst hnil
      simp

theorem frame_roundtrip (le : Bool) (sp : Split) (rest : List Nat) (old : Split)
    (hlen : sp.content_length = sp.content.length) (h512 : sp.content.length ≤ 512)
    (hid1 : -2 ^ 31 ≤ sp.id) (hid2 : sp.id < 2 ^ 31) :
    writeSplitFromSocketAsStream le (writeSplitToSocketAsStream le sp ++ rest) old =
      .ok (sp, rest) := by
  have hcontent : (if sp.content_length > 0 then sp.content else []) = sp.content := by
    by_cases h : sp.content_length > 0
    · simp [h]
    · have hz : sp.content.length = 0 := by omega
      simp [h, List.eq_nil_of_length_eq_zero hz]
  rw [writeSplitToSocketAsStream_eq, hcontent]
  have hsmall : toInt32 sp.content_length = (sp.content_length : Int) :=
    toInt32_small _ (by omega)
  have hdl : decodeIntFromUchar le (encodeIntBytes le (toInt32 sp.content_length))
      = some (sp.content_length : Int) := by
    have h := decode_encodeIntBytes le (toInt32 sp.content_length)
      (by rw [hsmall]; omega) (by rw [hsmall]; omega) []
    rw [List.append_nil, hsmall] at h
    rw [hsmall]
    exact h
  have hdi : decodeIntFromUchar le (encodeIntBytes le sp.id) = some sp.id := by
    have h := decode_encodeIntBytes le sp.id hid1 hid2 []
    rw [List.append_nil] at h
    exact h
  have h := frame_parse le (encodeIntBytes le sp.id) (encodeIntBytes le (toInt32 sp.content_length))
    sp.id (sp.content_length : Int) sp.content rest old rfl rfl hdi hdl (by omega) (by omega)
    (by simp [hlen])
  simp only [List.cons_append, List.append_assoc]
  rw [h]
  simp

/-- The server's PUT branch on two well-formed frames stores both pieces and answers 1. -/
theorem dfsCommandExecPut_two_frames (le : Bool) (p q : Split) (dir : PieceDir)
    (hp : p.content_length = p.content.length) (hp512 : p.content.length ≤ 512)
    (hp1 : -2 ^ 31 ≤ p.id) (hp2 : p.id < 2 ^ 31)
    (hq : q.content_length = q.content.length) (hq512 : q.content.length ≤ 512)
    (hq1 : -2 ^ 31 ≤ q.id) (hq2 : q.id < 2 ^ 31) :
    dfsCommandExecPut le (writeSplitToSocketAsStream le p ++ writeSplitToSocketAsStream le q) dir =
      .ok { dir := Function.update (Function.update dir p.id (some p.content)) q.id (some q.content),
            reply := sendIntValueSocket le 1, result := true, rest := [] } := by
  unfold dfsCommandExecPut
  rw [frame_roundtrip le p _ _ hp hp512 hp1 hp2]
  simp only
  have h2 := frame_roundtrip le q [] Split.new hq hq512 hq1 hq2
  rw [List.append_nil] at h2
  rw [h2]
  simp [writeSplitToFile, hp, hq]

/-- One round of the server's piece-service loop answers the frame of the stored piece. -/
theorem dfsServePiece_eq (le : Bool) (dir : PieceDir) (id : Int)
    (h1 : -2 ^ 31 ≤ id) (h2 : id < 2 ^ 31) :
    dfsServePiece le dir (sendIntValueSocket le id) =
      .ok (writeSplitToSocketAsStream le
        (readIntoSplitFromFile (dir id) { id := id, content := [], content_length := 0 })) := by
  unfold dfsServePiece
  have hr : recvFromSocket (sendIntValueSocket le id) INT_SIZE
      = .ok (encodeIntBytes le id, []) := by
    rw [sendIntValueSocket_eq]
    simp [recvFromSocket, INT_SIZE, encodeIntBytes]
  rw [hr]
  have hdi : decodeIntFromUchar le (encodeIntBytes le id) = some id := by
    have h := decode_encodeIntBytes le id h1 h2 []
    rw [List.append_nil] at h
    exact h
  simp only [hdi, Split.new]

/-- One step of the download loop: the piece stored on the server for the requested id
lands in `splits[id - 1]`. -/
theorem fetchRemoteSplits_step_eq (le : Bool) (host : DfsHost) (mod i j : Nat)
    (splits : List (Option Split)) (id : Int) (old : Split) (c : List Nat)
    (hM : filePiecesMapping mod i j = some id) (hid : 1 ≤ id ∧ id ≤ 4)
    (hold : splitsAt splits (id - 1) = some (some old))
    (hle : host.littleEndian = le) (hdir : host.dir id = some c) (hc : c.length ≤ 512) :
    fetchRemoteSplits.step le host mod i splits j =
      .ok (splits.set (id - 1).toNat
        (some { id := id, content := c, content_length := c.length })) := by
  unfold fetchRemoteSplits.step
  simp only [hM, hold, hle]
  rw [dfsServePiece_eq le host.dir id (by omega) (by omega), hdir]
  simp only [readIntoSplitFromFile]
  have h := frame_roundtrip le { id := id, content := c, content_length := c.length } [] old rfl hc
    (by simp; omega) (by simp; omega)
  rw [List.append_nil] at h
  simp only [h]
  simp [hid.1, hid.2]

/-! ## Upload and download of four pieces -/

theorem sendFileSplits_eq (le : Bool) (fs : FileSplit) (mod s : Nat) (pa pb : Split)
    (hMa : filePiecesMapping mod s 0 = some pa.id) (hMb : filePiecesMapping mod s 1 = some pb.id)
    (hsa : splitsAt fs.splits (pa.id - 1) = some (some pa))
    (hsb : splitsAt fs.splits (pb.id - 1) = some (some pb)) :
    sendFileSplits le fs mod s =
      some (writeSplitToSocketAsStream le pa ++ writeSplitToSocketAsStream le pb) := by
  unfold sendFileSplits
  have r2 : List.range CHUNKS_PER_SERVER = [0, 1] := by decide
  rw [r2]
  simp [hMa, hMb, hsa, hsb]

/-- The server state left by a PUT of the pieces `pa` and `pb` into an empty folder. -/
theorem put_delivers (le : Bool) (mod s : Nat) (pa pb : Split)
    (hMa : filePiecesMapping mod s 0 = some pa.id) (hMb : filePiecesMapping mod s 1 = some pb.id)
    (hne : pa.id ≠ pb.id) (ha : pa.Transferable) (hb : pb.Transferable) :
    DeliversTwoFrames le mod s
      (writeSplitToSocketAsStream le pa ++ writeSplitToSocketAsStream le pb)
      { dir := Function.update (Function.update emptyDir pa.id (some pa.content)) pb.id
          (some pb.content),
        reply := sendIntValueSocket le 1, result := true, rest := [] } := by
  obtain ⟨ha1, ha2, ha3, ha4⟩ := ha
  obtain ⟨hb1, hb2, hb3, hb4⟩ := hb
  simp only [MAX_SEG_SIZE] at ha2 hb2
  refine ⟨pa, pb, rfl, hne, hMa, hMb, ?_, rfl, rfl, rfl, ?_⟩
  · exact dfsCommandExecPut_two_frames le pa pb emptyDir ha1 ha2 (by omega) (by omega)
      hb1 hb2 (by omega) (by omega)
  · intro id
    simp only [Function.update_apply, emptyDir]
    by_cases h1 : id = pb.id
    · simp [h1]
    · by_cases h2 : id = pa.id
      · subst h2
        simp [hne]
      · simp [h1, h2]

theorem splitsAt_allSome (splits : List (Option Split)) (id : Int)
    (hs : ∃ s0 s1 s2 s3 : Split, splits = [some s0, some s1, some s2, some s3])
    (h1 : 1 ≤ id) (h4 : id ≤ 4) : ∃ old : Split, splitsAt splits (id - 1) = some (some old) := by
  obtain ⟨s0, s1, s2, s3, rfl⟩ := hs
  have hcases : id = 1 ∨ id = 2 ∨ id = 3 ∨ id = 4 := by omega
  rcases hcases with rfl | rfl | rfl | rfl
  · exact ⟨s0, rfl⟩
  · exact ⟨s1, rfl⟩
  · exact ⟨s2, rfl⟩
  · exact ⟨s3, rfl⟩

theorem set_allSome (splits : List (Option Split)) (id : Int) (sp : Split)
    (hs : ∃ s0 s1 s2 s3 : Split, splits = [some s0, some s1, some s2, some s3])
    (h1 : 1 ≤ id) (h4 : id ≤ 4) :
    ∃ s0 s1 s2 s3 : Split,
      splits.set (id - 1).toNat (some sp) = [some s0, some s1, some s2, some s3] := by
  obtain ⟨s0, s1, s2, s3, rfl⟩ := hs
  have hcases : id = 1 ∨ id = 2 ∨ id = 3 ∨ id = 4 := by omega
  rcases hcases with rfl | rfl | rfl | rfl
  · exact ⟨sp, s1, s2, s3, rfl⟩
  · exact ⟨s0, sp, s2, s3, rfl⟩
  · exact ⟨s0, s1, sp, s3, rfl⟩
  · exact ⟨s0, s1, s2, sp, rfl⟩

/-- Both requests of the download loop to one server that stores `pa` and `pb`. -/
theorem fetch_round (le : Bool) (host : DfsHost) (mod i : Nat) (splits : List (Option Split))
    (pa pb : Split)
    (hMa : filePiecesMapping mod i 0 = some pa.id) (hMb : filePiecesMapping mod i 1 = some pb.id)
    (ha : pa.Transferable) (hb : pb.Transferable)
    (hs : ∃ s0 s1 s2 s3 : Split, splits = [some s0, some s1, some s2, some s3])
    (hle : host.littleEndian = le)
    (hda : host.dir pa.id = some pa.content) (hdb : host.dir pb.id = some pb.content) :
    (List.range CHUNKS_PER_SERVER).foldlM (fetchRemoteSplits.step le host mod i) splits =
      .ok ((splits.set (pa.id - 1).toNat (some pa)).set (pb.id - 1).toNat (some pb)) := by
  obtain ⟨ha1, ha2, ha3, ha4⟩ := ha
  obtain ⟨hb1, hb2, hb3, hb4⟩ := hb
  simp only [MAX_SEG_SIZE] at ha2 hb2
  have r2 : List.range CHUNKS_PER_SERVER = [0, 1] := by decide
  obtain ⟨olda, holda⟩ := splitsAt_allSome splits pa.id hs ha3 ha4
  obtain ⟨oldb, holdb⟩ := splitsAt_allSome _ pb.id (set_allSome splits pa.id pa hs ha3 ha4) hb3 hb4
  have e1 := fetchRemoteSplits_step_eq le host mod i 0 splits pa.id olda pa.content hMa
    ⟨ha3, ha4⟩ holda hle hda ha2
  have pa_eta : ({ id := pa.id, content := pa.content, content_length := pa.content.length } : Split)
      = pa := by
    cases pa; simp_all
  have pb_eta : ({ id := pb.id, content := pb.content, content_length := pb.content.length } : Split)
      = pb := by
    cases pb; simp_all
  rw [pa_eta] at e1
  have e2 := fetchRemoteSplits_step_eq le host mod i 1 _ pb.id oldb pb.content hMb
    ⟨hb3, hb4⟩ holdb hle hdb hb2
  rw [pb_eta] at e2
  rw [r2, List.foldlM_cons, e1]
  simp only [bind, Except.bind]
  rw [List.foldlM_cons, e2]
  rfl

theorem fetch_init (fs0 : FileSplit) (hfs : fs0.splits.length = 4) :
    (List.range 4).foldl (fun sp i => sp.set i (some Split.new)) fs0.splits =
      [some Split.new, some Split.new, some Split.new, some Split.new] := by
  have r4 : List.range 4 = [0, 1, 2, 3] := by decide
  rw [r4]
  simp only [List.foldl_cons, List.foldl_nil]
  exact set_four _ hfs _ _ _ _

/-- The download loop over four connected servers, server `s` storing `a_s` and `b_s`. -/
theorem fetch_four (le : Bool) (mod : Nat) (fs0 : FileSplit) (hfs : fs0.splits.length = 4)
    (a0 b0 a1 b1 a2 b2 a3 b3 : Split) (h0 h1 h2 h3 : DfsHost)
    (hM0a : filePiecesMapping mod 0 0 = some a0.id) (hM0b : filePiecesMapping mod 0 1 = some b0.id)
    (hM1a : filePiecesMapping mod 1 0 = some a1.id) (hM1b : filePiecesMapping mod 1 1 = some b1.id)
    (hM2a : filePiecesMapping mod 2 0 = some a2.id) (hM2b : filePiecesMapping mod 2 1 = some b2.id)
    (hM3a : filePiecesMapping mod 3 0 = some a3.id) (hM3b : filePiecesMapping mod 3 1 = some b3.id)
    (ta0 : a0.Transferable) (tb0 : b0.Transferable) (ta1 : a1.Transferable)
    (tb1 : b1.Transferable) (ta2 : a2.Transferable) (tb2 : b2.Transferable)
    (ta3 : a3.Transferable) (tb3 : b3.Transferable)
    (hle0 : h0.littleEndian = le) (hle1 : h1.littleEndian = le)
    (hle2 : h2.littleEndian = le) (hle3 : h3.littleEndian = le)
    (hd0a : h0.dir a0.id = some a0.content) (hd0b : h0.dir b0.id = some b0.content)
    (hd1a : h1.dir a1.id = some a1.content) (hd1b : h1.dir b1.id = some b1.content)
    (hd2a : h2.dir a2.id = some a2.content) (hd2b : h2.dir b2.id = some b2.content)
    (hd3a : h3.dir a3.id = some a3.content) (hd3b : h3.dir b3.id = some b3.content) :
    fetchRemoteSplits le [some h0, some h1, some h2, some h3] 4 fs0 mod =
      .ok { fs0 with
        split_count := 4,
        splits :=
          ((((((([some Split.new, some Split.new, some Split.new, some Split.new].set
            (a0.id - 1).toNat (some a0)).set (b0.id - 1).toNat (some b0)).set
            (a1.id - 1).toNat (some a1)).set (b1.id - 1).toNat (some b1)).set
            (a2.id - 1).toNat (some a2)).set (b2.id - 1).toNat (some b2)).set
            (a3.id - 1).toNat (some a3)).set (b3.id - 1).toNat (some b3) } := by
  unfold fetchRemoteSplits
  rw [fetch_init fs0 hfs]
  have r4 : List.range 4 = [0, 1, 2, 3] := by decide
  have s0 : ∃ s0 s1 s2 s3 : Split, [some Split.new, some Split.new, some Split.new, some Split.new]
      = [some s0, some s1, some s2, some s3] := ⟨_, _, _, _, rfl⟩
  have s1 := set_allSome _ b0.id b0 (set_allSome _ a0.id a0 s0 ta0.2.2.1 ta0.2.2.2)
    tb0.2.2.1 tb0.2.2.2
  have s2 := set_allSome _ b1.id b1 (set_allSome _ a1.id a1 s1 ta1.2.2.1 ta1.2.2.2)
    tb1.2.2.1 tb1.2.2.2
  have s3 := set_allSome _ b2.id b2 (set_allSome _ a2.id a2 s2 ta2.2.2.1 ta2.2.2.2)
    tb2.2.2.1 tb2.2.2.2
  have e0 := fetch_round le h0 mod 0 _ a0 b0 hM0a hM0b ta0 tb0 s0 hle0 hd0a hd0b
  have e1 := fetch_round le h1 mod 1 _ a1 b1 hM1a hM1b ta1 tb1 s1 hle1 hd1a hd1b
  have e2 := fetch_round le h2 mod 2 _ a2 b2 hM2a hM2b ta2 tb2 s2 hle2 hd2a hd2b
  have e3 := fetch_round le h3 mod 3 _ a3 b3 hM3a hM3b ta3 tb3 s3 hle3 hd3a hd3b
  rw [r4]
  simp only [List.foldlM_cons, List.foldlM_nil, List.get?_cons_zero, List.get?_cons_succ, e0, e1,
    e2, e3, bind, Except.bind, pure, Except.pure]

theorem update_pair_left (dir : PieceDir) (a b : Int) (x y : Option (List Nat)) (h : a ≠ b) :
    Function.update (Function.update dir a x) b y a = x := by
  simp [Function.update_apply, h]

theorem update_pair_right (dir : PieceDir) (a b : Int) (x y : Option (List Nat)) :
    Function.update (Function.update dir a x) b y b = y := by
  simp [Function.update_apply]

/-- PUT then download of four transferable pieces with ids 1..4, for one placement row:
every server is sent two frames and stores them, and the download loop gets the four
pieces back. -/
theorem put_get_pieces (le : Bool) (mod : Nat) (hmod : mod < 4) (name : String)
    (P1 P2 P3 P4 : Split) (hid1 : P1.id = 1) (hid2 : P2.id = 2) (hid3 : P3.id = 3)
    (hid4 : P4.id = 4) (t1 : P1.Transferable) (t2 : P2.Transferable) (t3 : P3.Transferable)
    (t4 : P4.Transferable) (fs : FileSplit)
    (hfs : fs = { file_name := name, split_count := 4,
                  splits := [some P1, some P2, some P3, some P4] }) :
    ∃ (st0 st1 st2 st3 : List Nat) (out0 out1 out2 out3 : PutOutcome),
      [sendFileSplits le fs mod 0, sendFileSplits le fs mod 1, sendFileSplits le fs mod 2,
        sendFileSplits le fs mod 3] = [some st0, some st1, some st2, some st3] ∧
      DeliversTwoFrames le mod 0 st0 out0 ∧ DeliversTwoFrames le mod 1 st1 out1 ∧
      DeliversTwoFrames le mod 2 st2 out2 ∧ DeliversTwoFrames le mod 3 st3 out3 ∧
      fetchRemoteSplits le
        [some { littleEndian := le, dir := out0.dir }, some { littleEndian := le, dir := out1.dir },
         some { littleEndian := le, dir := out2.dir }, some { littleEndian := le, dir := out3.dir }]
        4 FileSplit.new mod =
        .ok { file_name := "", split_count := 4,
              splits := [some P1, some P2, some P3, some P4] } := by
  subst hfs
  have n12 : P1.id ≠ P2.id := by rw [hid1, hid2]; decide
  have n23 : P2.id ≠ P3.id := by rw [hid2, hid3]; decide
  have n34 : P3.id ≠ P4.id := by rw [hid3, hid4]; decide
  have n41 : P4.id ≠ P1.id := by rw [hid4, hid1]; decide
  have hcases : mod = 0 ∨ mod = 1 ∨ mod = 2 ∨ mod = 3 := by omega
  rcases hcases with rfl | rfl | rfl | rfl
  · refine ⟨_, _, _, _, _, _, _, _, ?_,
      put_delivers le 0 0 P1 P2 (by rw [hid1]; rfl) (by rw [hid2]; rfl) n12 t1 t2,
      put_delivers le 0 1 P2 P3 (by rw [hid2]; rfl) (by rw [hid3]; rfl) n23 t2 t3,
      put_delivers le 0 2 P3 P4 (by rw [hid3]; rfl) (by rw [hid4]; rfl) n34 t3 t4,
      put_delivers le 0 3 P4 P1 (by rw [hid4]; rfl) (by rw [hid1]; rfl) n41 t4 t1, ?_⟩
    · rw [sendFileSplits_eq le _ 0 0 P1 P2 (by rw [hid1]; rfl) (by rw [hid2]; rfl)
          (by rw [hid1]; rfl) (by rw [hid2]; rfl),
        sendFileSplits_eq le _ 0 1 P2 P3 (by rw [hid2]; rfl) (by rw [hid3]; rfl)
          (by rw [hid2]; rfl) (by rw [hid3]; rfl),
        sendFileSplits_eq le _ 0 2 P3 P4 (by rw [hid3]; rfl) (by rw [hid4]; rfl)
          (by rw [hid3]; rfl) (by rw [hid4]; rfl),
        sendFileSplits_eq le _ 0 3 P4 P1 (by rw [hid4]; rfl) (by rw [hid1]; rfl)
          (by rw [hid4]; rfl) (by rw [hid1]; rfl)]
    · rw [fetch_four le 0 FileSplit.new rfl P1 P2 P2 P3 P3 P4 P4 P1 _ _ _ _
        (by rw [hid1]; rfl) (by rw [hid2]; rfl) (by rw [hid2]; rfl) (by rw [hid3]; rfl) (by rw [hid3]; rfl) (by rw [hid4]; rfl) (by rw [hid4]; rfl) (by rw [hid1]; rfl)
        t1 t2 t2 t3 t3 t4 t4 t1 rfl rfl rfl rfl
        (update_pair_left _ _ _ _ _ n12) (update_pair_right _ _ _ _ _)
        (update_pair_left _ _ _ _ _ n23) (update_pair_right _ _ _ _ _)
        (update_pair_left _ _ _ _ _ n34) (update_pair_right _ _ _ _ _)
        (update_pair_left _ _ _ _ _ n41) (update_pair_right _ _ _ _ _)]
      simp only [hid1, hid2, hid3, hid4]
      rfl
  · refine ⟨_, _, _, _, _, _, _, _, ?_,
      put_delivers le 1 0 P4 P1 (by rw [hid4]; rfl) (by rw [hid1]; rfl) n41 t4 t1,
      put_delivers le 1 1 P1 P2 (by rw [hid1]; rfl) (by rw [hid2]; rfl) n12 t1 t2,
      put_delivers le 1 2 P2 P3 (by rw [hid2]; rfl) (by rw [hid3]; rfl) n23 t2 t3,
      put_delivers le 1 3 P3 P4 (by rw [hid3]; rfl) (by rw [hid4]; rfl) n34 t3 t4, ?_⟩
    · rw [sendFileSplits_eq le _ 1 0 P4 P1 (by rw [hid4]; rfl) (by rw [hid1]; rfl)
          (by rw [hid4]; rfl) (by rw [hid1]; rfl),
        sendFileSplits_eq le _ 1 1 P1 P2 (by rw [hid1]; rfl) (by rw [hid2]; rfl)
          (by rw [hid1]; rfl) (by rw [hid2]; rfl),
        sendFileSplits_eq le _ 1 2 P2 P3 (by rw [hid2]; rfl) (by rw [hid3]; rfl)
          (by rw [hid2]; rfl) (by rw [hid3]; rfl),
        sendFileSplits_eq le _ 1 3 P3 P4 (by rw [hid3]; rfl) (by rw [hid4]; rfl)
          (by rw [hid3]; rfl) (by rw [hid4]; rfl)]
    · rw [fetch_four le 1 FileSplit.new rfl P4 P1 P1 P2 P2 P3 P3 P4 _ _ _ _
        (by rw [hid4]; rfl) (by rw [hid1]; rfl) (by rw [hid1]; rfl) (by rw [hid2]; rfl) (by rw [hid2]; rfl) (by rw [hid3]; rfl) (by rw [hid3]; rfl) (by rw [hid4]; rfl)
        t4 t1 t1 t2 t2 t3 t3 t4 rfl rfl rfl rfl
        (update_pair_left _ _ _ _ _ n41) (update_pair_right _ _ _ _ _)
        (update_pair_left _ _ _ _ _ n12) (update_pair_right _ _ _ _ _)
        (update_pair_left _ _ _ _ _ n23) (update_pair_right _ _ _ _ _)
        (update_pair_left _ _ _ _ _ n34) (update_pair_right _ _ _ _ _)]
      simp only [hid1, hid2, hid3, hid4]
      rfl
  · refine ⟨_, _, _, _, _, _, _, _, ?_,
      put_delivers le 2 0 P3 P4 (by rw [hid3]; rfl) (by rw [hid4]; rfl) n34 t3 t4,
      put_delivers le 2 1 P4 P1 (by rw [hid4]; rfl) (by rw [hid1]; rfl) n41 t4 t1,
      put_delivers le 2 2 P1 P2 (by rw [hid1]; rfl) (by rw [hid2]; rfl) n12 t1 t2,
      put_delivers le 2 3 P2 P3 (by rw [hid2]; rfl) (by rw [hid3]; rfl) n23 t2 t3, ?_⟩
    · rw [sendFileSplits_eq le _ 2 0 P3 P4 (by rw [hid3]; rfl) (by rw [hid4]; rfl)
          (by rw [hid3]; rfl) (by rw [hid4]; rfl),
        sendFileSplits_eq le _ 2 1 P4 P1 (by rw [hid4]; rfl) (by rw [hid1]; rfl)
          (by rw [hid4]; rfl) (by rw [hid1]; rfl),
        sendFileSplits_eq le _ 2 2 P1 P2 (by rw [hid1]; rfl) (by rw [hid2]; rfl)
          (by rw [hid1]; rfl) (by rw [hid2]; rfl),
        sendFileSplits_eq le _ 2 3 P2 P3 (by rw [hid2]; rfl) (by rw [hid3]; rfl)
          (by rw [hid2]; rfl) (by rw [hid3]; rfl)]
    · rw [fetch_four le 2 FileSplit.new rfl P3 P4 P4 P1 P1 P2 P2 P3 _ _ _ _
        (by rw [hid3]; rfl) (by rw [hid4]; rfl) (by rw [hid4]; rfl) (by rw [hid1]; rfl) (by rw [hid1]; rfl) (by rw [hid2]; rfl) (by rw [hid2]; rfl) (by rw [hid3]; rfl)
        t3 t4 t4 t1 t1 t2 t2 t3 rfl rfl rfl rfl
        (update_pair_left _ _ _ _ _ n34) (update_pair_right _ _ _ _ _)
        (update_pair_left _ _ _ _ _ n41) (update_pair_right _ _ _ _ _)
        (update_pair_left _ _ _ _ _ n12) (update_pair_right _ _ _ _ _)
        (update_pair_left _ _ _ _ _ n23) (update_pair_right _ _ _ _ _)]
      simp only [hid1, hid2, hid3, hid4]
      rfl
  · refine ⟨_, _, _, _, _, _, _, _, ?_,
      put_delivers le 3 0 P2 P3 (by rw [hid2]; rfl) (by rw [hid3]; rfl) n23 t2 t3,
      put_delivers le 3 1 P3 P4 (by rw [hid3]; rfl) (by rw [hid4]; rfl) n34 t3 t4,
      put_delivers le 3 2 P4 P1 (by rw [hid4]; rfl) (by rw [hid1]; rfl) n41 t4 t1,
      put_delivers le 3 3 P1 P2 (by rw [hid1]; rfl) (by rw [hid2]; rfl) n12 t1 t2, ?_⟩
    · rw [sendFileSplits_eq le _ 3 0 P2 P3 (by rw [hid2]; rfl) (by rw [hid3]; rfl)
          (by rw [hid2]; rfl) (by rw [hid3]; rfl),
        sendFileSplits_eq le _ 3 1 P3 P4 (by rw [hid3]; rfl) (by rw [hid4]; rfl)
          (by rw [hid3]; rfl) (by rw [hid4]; rfl),
        sendFileSplits_eq le _ 3 2 P4 P1 (by rw [hid4]; rfl) (by rw [hid1]; rfl)
          (by rw [hid4]; rfl) (by rw [hid1]; rfl),
        sendFileSplits_eq le _ 3 3 P1 P2 (by rw [hid1]; rfl) (by rw [hid2]; rfl)
          (by rw [hid1]; rfl) (by rw [hid2]; rfl)]
    · rw [fetch_four le 3 FileSplit.new rfl P2 P3 P3 P4 P4 P1 P1 P2 _ _ _ _
        (by rw [hid2]; rfl) (by rw [hid3]; rfl) (by rw [hid3]; rfl) (by rw [hid4]; rfl) (by rw [hid4]; rfl) (by rw [hid1]; rfl) (by rw [hid1]; rfl) (by rw [hid2]; rfl)
        t2 t3 t3 t4 t4 t1 t1 t2 rfl rfl rfl rfl
        (update_pair_left _ _ _ _ _ n23) (update_pair_right _ _ _ _ _)
        (update_pair_left _ _ _ _ _ n34) (update_pair_right _ _ _ _ _)
        (update_pair_left _ _ _ _ _ n41) (update_pair_right _ _ _ _ _)
        (update_pair_left _ _ _ _ _ n12) (update_pair_right _ _ _ _ _)]
      simp only [hid1, hid2, hid3, hid4]
      rfl

theorem encrypt_four (name : String) (key : List Nat) (p1 p2 p3 p4 : Split) :
    encryptDecryptFileSplit
      { file_name := name, split_count := 4, splits := [some p1, some p2, some p3, some p4] } key =
      { file_name := name, split_count := 4,
        splits := [some { p1 with content := xorContent key p1.content },
                   some { p2 with content := xorContent key p2.content },
                   some { p3 with content := xorContent key p3.content },
                   some { p4 with content := xorContent key p4.content }] } := by
  simp [encryptDecryptFileSplit, List.enum, List.enumFrom]

theorem bytes_take (B : List Nat) (hB : ∀ b ∈ B, b < 256) (n : Nat) :
    ∀ b ∈ B.take n, b < 256 :=
  fun b hb => hB b (List.mem_of_mem_take hb)

theorem bytes_drop (B : List Nat) (hB : ∀ b ∈ B, b < 256) (n : Nat) :
    ∀ b ∈ B.drop n, b < 256 :=
  fun b hb => hB b (List.mem_of_mem_drop hb)

theorem transferable_mk (i : Int) (c : List Nat) (n : Nat) (hn : n = c.length)
    (hc : c.length ≤ 512) (h1 : 1 ≤ i) (h4 : i ≤ 4) :
    Split.Transferable { id := i, content := c, content_length := n } :=
  ⟨hn, hc, h1, h4⟩

/-- C1. PUT followed by GET returns the original file: for every byte sequence `B`
whose four pieces have at most 512 bytes each, every password of at least one byte and
every `mod` in 0..3, with the client and the four connected servers on hosts of one
byte order, PUT (split, cipher, `sendFileSplits` to servers 0..3) delivers to each
server exactly two piece frames with distinct ids, which the server stores, and a
following GET with the same `mod` (`fetchRemoteSplits`, cipher, `combineFileFromPieces`)
writes exactly the bytes of `B`. -/
theorem put_then_get_returns_file (littleEndian : Bool) (B key : List Nat) (mod : Nat)
    (hB : ∀ b ∈ B, b < 256) (hkey : ∀ b ∈ key, b < 256) (hklen : 1 ≤ key.length)
    (hmod : mod < 4) (hsize : B.length / 4 + B.length % 4 ≤ MAX_SEG_SIZE) :
    ∃ (st0 st1 st2 st3 : List Nat) (out0 out1 out2 out3 : PutOutcome),
      commandExecPut littleEndian B key mod 4 (fun _ => true)
        = some [some st0, some st1, some st2, some st3] ∧
      DeliversTwoFrames littleEndian mod 0 st0 out0 ∧
      DeliversTwoFrames littleEndian mod 1 st1 out1 ∧
      DeliversTwoFrames littleEndian mod 2 st2 out2 ∧
      DeliversTwoFrames littleEndian mod 3 st3 out3 ∧
      commandExecGet littleEndian
        [some { littleEndian := littleEndian, dir := out0.dir },
         some { littleEndian := littleEndian, dir := out1.dir },
         some { littleEndian := littleEndian, dir := out2.dir },
         some { littleEndian := littleEndian, dir := out3.dir }] 4 key mod
        = .ok (some (true, B)) := by
  simp only [MAX_SEG_SIZE] at hsize
  have hq : B.length / 4 ≤ 512 := by omega
  have hsplit := splitFileToPieces_eq "" B FileSplit.new rfl
  have hfs : encryptDecryptFileSplit (splitFileToPieces "" (some B) FileSplit.new).2 key =
      { file_name := "", split_count := 4,
        splits := [
          some { id := 1, content := xorContent key (B.take (B.length / 4)),
                 content_length := B.length / 4 },
          some { id := 2, content := xorContent key ((B.drop (B.length / 4)).take (B.length / 4)),
                 content_length := B.length / 4 },
          some { id := 3,
                 content := xorContent key ((B.drop (2 * (B.length / 4))).take (B.length / 4)),
                 content_length := B.length / 4 },
          some { id := 4, content := xorContent key (B.drop (3 * (B.length / 4))),
                 content_length := B.length / 4 + B.length % 4 }] } := by
    rw [hsplit, encrypt_four]
  obtain ⟨st0, st1, st2, st3, out0, out1, out2, out3, hsend, d0, d1, d2, d3, hfetch⟩ :=
    put_get_pieces littleEndian mod hmod "" _ _ _ _ rfl rfl rfl rfl
      (transferable_mk 1 (xorContent key (B.take (B.length / 4))) (B.length / 4)
        (by simp [xorContent_length]; omega) (by simp [xorContent_length]; omega)
        (by decide) (by decide))
      (transferable_mk 2 (xorContent key ((B.drop (B.length / 4)).take (B.length / 4)))
        (B.length / 4)
        (by simp [xorContent_length]; omega) (by simp [xorContent_length]; omega)
        (by decide) (by decide))
      (transferable_mk 3 (xorContent key ((B.drop (2 * (B.length / 4))).take (B.length / 4)))
        (B.length / 4)
        (by simp [xorContent_length]; omega) (by simp [xorContent_length]; omega)
        (by decide) (by decide))
      (transferable_mk 4 (xorContent key (B.drop (3 * (B.length / 4))))
        (B.length / 4 + B.length % 4)
        (by simp [xorContent_length]; omega) (by simp [xorContent_length]; omega)
        (by decide) (by decide))
      _ hfs
  refine ⟨st0, st1, st2, st3, out0, out1, out2, out3, ?_, d0, d1, d2, d3, ?_⟩
  · simp only [List.cons.injEq, and_true] at hsend
    obtain ⟨e0, e1, e2, e3⟩ := hsend
    unfold commandExecPut
    have r4 : List.range 4 = [0, 1, 2, 3] := by decide
    rw [r4]
    simp only [List.mapM_cons, List.mapM_nil, if_true, e0, e1, e2, e3]
    rfl
  · unfold commandExecGet
    rw [hfetch]
    simp only
    rw [encrypt_four]
    simp only
    rw [xorContent_xorContent key _ hkey (bytes_take B hB _),
      xorContent_xorContent key _ hkey (bytes_take _ (bytes_drop B hB _) _),
      xorContent_xorContent key _ hkey (bytes_take _ (bytes_drop B hB _) _),
      xorContent_xorContent key _ hkey (bytes_drop B hB _)]
    rw [combine_four _ _ _ _ _ (by simp; omega) (by simp; omega) (by simp; omega)
      (by simp; omega)]
    simp only [take_drop_four]

/-- C1, instance: the 41-byte file with the password "pwd", placement row 1, on
little-endian hosts. -/
theorem put_then_get_returns_file_witness :
    ((∀ b ∈ file41, b < 256) ∧ (∀ b ∈ passwordPwd, b < 256) ∧ 1 ≤ passwordPwd.length ∧
      1 < 4 ∧ file41.length / 4 + file41.length % 4 ≤ MAX_SEG_SIZE) ∧
    ∃ (st0 st1 st2 st3 : List Nat) (out0 out1 out2 out3 : PutOutcome),
      commandExecPut true file41 passwordPwd 1 4 (fun _ => true)
        = some [some st0, some st1, some st2, some st3] ∧
      DeliversTwoFrames true 1 0 st0 out0 ∧ DeliversTwoFrames true 1 1 st1 out1 ∧
      DeliversTwoFrames true 1 2 st2 out2 ∧ DeliversTwoFrames true 1 3 st3 out3 ∧
      commandExecGet true
        [some { littleEndian := true, dir := out0.dir },
         some { littleEndian := true, dir := out1.dir },
         some { littleEndian := true, dir := out2.dir },
         some { littleEndian := true, dir := out3.dir }] 4 passwordPwd 1
        = .ok (some (true, file41)) :=
  ⟨⟨by decide, by decide, by decide, by decide, by decide⟩,
    put_then_get_returns_file true file41 passwordPwd 1 (by decide) (by decide) (by decide)
      (by decide) (by decide)⟩

theorem encrypt_split_eq (B key : List Nat) :
    encryptDecryptFileSplit (splitFileToPieces "" (some B) FileSplit.new).2 key =
      { file_name := "", split_count := 4,
        splits := [
          some { id := 1, content := xorContent key (B.take (B.length / 4)),
                 content_length := B.length / 4 },
          some { id := 2, content := xorContent key ((B.drop (B.length / 4)).take (B.length / 4)),
                 content_length := B.length / 4 },
          some { id := 3,
                 content := xorContent key ((B.drop (2 * (B.length / 4))).take (B.length / 4)),
                 content_length := B.length / 4 },
          some { id := 4, content := xorContent key (B.drop (3 * (B.length / 4))),
                 content_length := B.length / 4 + B.length % 4 }] } := by
  rw [splitFileToPieces_eq "" B FileSplit.new rfl, encrypt_four]

/-- C4. Dispersal follows the table: for every `mod` and server `s` in 0..3, the bytes
that `sendFileSplits` writes to server `s` during PUT are the frame of the piece with
id `filePiecesMapping[mod][s][0]` followed by the frame of the piece with id
`filePiecesMapping[mod][s][1]`, where slot 0 is `((s - mod) mod 4) + 1` and slot 1 is
`((s - mod + 1) mod 4) + 1`; for `mod = 1` servers 0, 1, 2, 3 get 4,1 / 1,2 / 2,3 / 3,4. -/
theorem sendFileSplits_follows_table (littleEndian : Bool) (B key : List Nat) (mod s : Nat)
    (hmod : mod < 4) (hs : s < 4) :
    (∃ p0 p1 : Split,
      filePiecesMapping mod s 0 = some p0.id ∧ filePiecesMapping mod s 1 = some p1.id ∧
      p0.id = ((s : Int) - (mod : Int)) % 4 + 1 ∧ p1.id = ((s : Int) - (mod : Int) + 1) % 4 + 1 ∧
      some p0 ∈ (encryptDecryptFileSplit
        (splitFileToPieces "" (some B) FileSplit.new).2 key).splits ∧
      some p1 ∈ (encryptDecryptFileSplit
        (splitFileToPieces "" (some B) FileSplit.new).2 key).splits ∧
      sendFileSplits littleEndian
        (encryptDecryptFileSplit (splitFileToPieces "" (some B) FileSplit.new).2 key) mod s =
        some (writeSplitToSocketAsStream littleEndian p0 ++
          writeSplitToSocketAsStream littleEndian p1)) ∧
    [[filePiecesMapping 1 0 0, filePiecesMapping 1 0 1],
     [filePiecesMapping 1 1 0, filePiecesMapping 1 1 1],
     [filePiecesMapping 1 2 0, filePiecesMapping 1 2 1],
     [filePiecesMapping 1 3 0, filePiecesMapping 1 3 1]] =
      [[some 4, some 1], [some 1, some 2], [some 2, some 3], [some 3, some 4]] := by
  refine ⟨?_, by decide⟩
  rw [encrypt_split_eq]
  have hm : mod = 0 ∨ mod = 1 ∨ mod = 2 ∨ mod = 3 := by omega
  have hs4 : s = 0 ∨ s = 1 ∨ s = 2 ∨ s = 3 := by omega
  rcases hm with rfl | rfl | rfl | rfl <;> rcases hs4 with rfl | rfl | rfl | rfl
  · exact ⟨{ id := 1, content := xorContent key (B.take (B.length / 4)), content_length := B.length / 4 },
      { id := 2, content := xorContent key ((B.drop (B.length / 4)).take (B.length / 4)), content_length := B.length / 4 },
      rfl, rfl, rfl, rfl, by simp, by simp, sendFileSplits_eq _ _ 0 0 _ _ rfl rfl rfl rfl⟩
  · exact ⟨{ id := 2, content := xorContent key ((B.drop (B.length / 4)).take (B.length / 4)), content_length := B.length / 4 },
      { id := 3, content := xorContent key ((B.drop (2 * (B.length / 4))).take (B.length / 4)), content_length := B.length / 4 },
      rfl, rfl, rfl, rfl, by simp, by simp, sendFileSplits_eq _ _ 0 1 _ _ rfl rfl rfl rfl⟩
  · exact ⟨{ id := 3, content := xorContent key ((B.drop (2 * (B.length / 4))).take (B.length / 4)), content_length := B.length / 4 },
      { id := 4, content := xorContent key (B.drop (3 * (B.length / 4))), content_length := B.length / 4 + B.length % 4 },
      rfl, rfl, rfl, rfl, by simp, by simp, sendFileSplits_eq _ _ 0 2 _ _ rfl rfl rfl rfl⟩
  · exact ⟨{ id := 4, content := xorContent key (B.drop (3 * (B.length / 4))), content_length := B.length / 4 + B.length % 4 },
      { id := 1, content := xorContent key (B.take (B.length / 4)), content_length := B.length / 4 },
      rfl, rfl, rfl, rfl, by simp, by simp, sendFileSplits_eq _ _ 0 3 _ _ rfl rfl rfl rfl⟩
  · exact ⟨{ id := 4, content := xorContent key (B.drop (3 * (B.length / 4))), content_length := B.length / 4 + B.length % 4 },
      { id := 1, content := xorContent key (B.take (B.length / 4)), content_length := B.length / 4 },
      rfl, rfl, rfl, rfl, by simp, by simp, sendFileSplits_eq _ _ 1 0 _ _ rfl rfl rfl rfl⟩
  · exact ⟨{ id := 1, content := xorContent key (B.take (B.length / 4)), content_length := B.length / 4 },
      { id := 2, content := xorContent key ((B.drop (B.length / 4)).take (B.length / 4)), content_length := B.length / 4 },
      rfl, rfl, rfl, rfl, by simp, by simp, sendFileSplits_eq _ _ 1 1 _ _ rfl rfl rfl rfl⟩
  · exact ⟨{ id := 2, content := xorContent key ((B.drop (B.length / 4)).take (B.length / 4)), content_length := B.length / 4 },
      { id := 3, content := xorContent key ((B.drop (2 * (B.length / 4))).take (B.length / 4)), content_length := B.length / 4 },
      rfl, rfl, rfl, rfl, by simp, by simp, sendFileSplits_eq _ _ 1 2 _ _ rfl rfl rfl rfl⟩
  · exact ⟨{ id := 3, content := xorContent key ((B.drop (2 * (B.length / 4))).take (B.length / 4)), content_length := B.length / 4 },
      { id := 4, content := xorContent key (B.drop (3 * (B.length / 4))), content_length := B.length / 4 + B.length % 4 },
      rfl, rfl, rfl, rfl, by simp, by simp, sendFileSplits_eq _ _ 1 3 _ _ rfl rfl rfl rfl⟩
  · exact ⟨{ id := 3, content := xorContent key ((B.drop (2 * (B.length / 4))).take (B.length / 4)), content_length := B.length / 4 },
      { id := 4, content := xorContent key (B.drop (3 * (B.length / 4))), content_length := B.length / 4 + B.length % 4 },
      rfl, rfl, rfl, rfl, by simp, by simp, sendFileSplits_eq _ _ 2 0 _ _ rfl rfl rfl rfl⟩
  · exact ⟨{ id := 4, content := xorContent key (B.drop (3 * (B.length / 4))), content_length := B.length / 4 + B.length % 4 },
      { id := 1, content := xorContent key (B.take (B.length / 4)), content_length := B.length / 4 },
      rfl, rfl, rfl, rfl, by simp, by simp, sendFileSplits_eq _ _ 2 1 _ _ rfl rfl rfl rfl⟩
  · exact ⟨{ id := 1, content := xorContent key (B.take (B.length / 4)), content_length := B.length / 4 },
      { id := 2, content := xorContent key ((B.drop (B.length / 4)).take (B.length / 4)), content_length := B.length / 4 },
      rfl, rfl, rfl, rfl, by simp, by simp, sendFileSplits_eq _ _ 2 2 _ _ rfl rfl rfl rfl⟩
  · exact ⟨{ id := 2, content := xorContent key ((B.drop (B.length / 4)).take (B.length / 4)), content_length := B.length / 4 },
      { id := 3, content := xorContent key ((B.drop (2 * (B.length / 4))).take (B.length / 4)), content_length := B.length / 4 },
      rfl, rfl, rfl, rfl, by simp, by simp, sendFileSplits_eq _ _ 2 3 _ _ rfl rfl rfl rfl⟩
  · exact ⟨{ id := 2, content := xorContent key ((B.drop (B.length / 4)).take (B.length / 4)), content_length := B.length / 4 },
      { id := 3, content := xorContent key ((B.drop (2 * (B.length / 4))).take (B.length / 4)), content_length := B.length / 4 },
      rfl, rfl, rfl, rfl, by simp, by simp, sendFileSplits_eq _ _ 3 0 _ _ rfl rfl rfl rfl⟩
  · exact ⟨{ id := 3, content := xorContent key ((B.drop (2 * (B.length / 4))).take (B.length / 4)), content_length := B.length / 4 },
      { id := 4, content := xorContent key (B.drop (3 * (B.length / 4))), content_length := B.length / 4 + B.length % 4 },
      rfl, rfl, rfl, rfl, by simp, by simp, sendFileSplits_eq _ _ 3 1 _ _ rfl rfl rfl rfl⟩
  · exact ⟨{ id := 4, content := xorContent key (B.drop (3 * (B.length / 4))), content_length := B.length / 4 + B.length % 4 },
      { id := 1, content := xorContent key (B.take (B.length / 4)), content_length := B.length / 4 },
      rfl, rfl, rfl, rfl, by simp, by simp, sendFileSplits_eq _ _ 3 2 _ _ rfl rfl rfl rfl⟩
  · exact ⟨{ id := 1, content := xorContent key (B.take (B.length / 4)), content_length := B.length / 4 },
      { id := 2, content := xorContent key ((B.drop (B.length / 4)).take (B.length / 4)), content_length := B.length / 4 },
      rfl, rfl, rfl, rfl, by simp, by simp, sendFileSplits_eq _ _ 3 3 _ _ rfl rfl rfl rfl⟩

/-- C4, instance: placement row 1, server 0, the 41-byte file and the password "pwd". -/
theorem sendFileSplits_follows_table_witness :
    (1 < 4 ∧ 0 < 4) ∧
    ((∃ p0 p1 : Split,
      filePiecesMapping 1 0 0 = some p0.id ∧ filePiecesMapping 1 0 1 = some p1.id ∧
      p0.id = (((0 : Nat) : Int) - ((1 : Nat) : Int)) % 4 + 1 ∧ p1.id = (((0 : Nat) : Int) - ((1 : Nat) : Int) + 1) % 4 + 1 ∧
      some p0 ∈ (encryptDecryptFileSplit
        (splitFileToPieces "" (some file41) FileSplit.new).2 passwordPwd).splits ∧
      some p1 ∈ (encryptDecryptFileSplit
        (splitFileToPieces "" (some file41) FileSplit.new).2 passwordPwd).splits ∧
      sendFileSplits true
        (encryptDecryptFileSplit (splitFileToPieces "" (some file41) FileSplit.new).2 passwordPwd) 1 0 =
        some (writeSplitToSocketAsStream true p0 ++
          writeSplitToSocketAsStream true p1)) ∧
    [[filePiecesMapping 1 0 0, filePiecesMapping 1 0 1],
     [filePiecesMapping 1 1 0, filePiecesMapping 1 1 1],
     [filePiecesMapping 1 2 0, filePiecesMapping 1 2 1],
     [filePiecesMapping 1 3 0, filePiecesMapping 1 3 1]] =
      [[some 4, some 1], [some 1, some 2], [some 2, some 3], [some 3, some 4]]) :=
  ⟨⟨by decide, by decide⟩,
    sendFileSplits_follows_table true file41 passwordPwd 1 0 (by decide) (by decide)⟩

/-! ## Mod recovery and completeness -/

/-- C11. GET recovers the upload's `mod` from one server's report: for every `m` and
server `s` in 0..3, when the first `ChunkInfo` reported by server `s` carries the two
ids of `filePiecesMapping[m][s]`, in either order, the matching loop of
`fetchRemoteFileInfo` (entered with `mod = -1`) returns `m`; and within column `s` two
rows whose pairs are equal as unordered sets are the same row. -/
theorem mod_recovered_from_one_report :
    (∀ (m s : Fin 4) (count : Int) (name : List Nat) (rest : List ChunkInfo),
      ∃ a b : Int, filePiecesMapping m s 0 = some a ∧ filePiecesMapping m s 1 = some b ∧
        fetchRemoteFileInfo.matchLoop s a b 4 0 = some ((m.val : Nat) : Int) ∧
        fetchRemoteFileInfo.matchLoop s b a 4 0 = some ((m.val : Nat) : Int) ∧
        fetchRemoteFileInfo.deriveMod (-1) s
          { chunks := count, chunk_info := { file_name := name, chunks := (a, b) } :: rest }
          = some ((m.val : Nat) : Int) ∧
        fetchRemoteFileInfo.deriveMod (-1) s
          { chunks := count, chunk_info := { file_name := name, chunks := (b, a) } :: rest }
          = some ((m.val : Nat) : Int)) ∧
    (∀ m m1 s : Fin 4, m = m1 ∨
      ¬ ((filePiecesMapping m s 0 = filePiecesMapping m1 s 0 ∧
          filePiecesMapping m s 1 = filePiecesMapping m1 s 1) ∨
         (filePiecesMapping m s 0 = filePiecesMapping m1 s 1 ∧
          filePiecesMapping m s 1 = filePiecesMapping m1 s 0))) := by
  refine ⟨?_, by decide⟩
  intro m s count name rest
  fin_cases m <;> fin_cases s <;> exact ⟨_, _, rfl, rfl, rfl, rfl, rfl, rfl⟩

theorem checkComplete_four (a b c d : Bool) :
    checkComplete [a, b, c, d] = decide (2 ≤ [a, b, c, d].count true) := by
  cases a <;> cases b <;> cases c <;> cases d <;> rfl

/-- C13. Reference completeness threshold: `Utils::checkComplete` returns true if and
only if at least two of the four present-flags are true. -/
theorem checkComplete_iff_at_least_two (a b c d : Bool) :
    checkComplete [a, b, c, d] = true ↔ 2 ≤ [a, b, c, d].count true := by
  rw [checkComplete_four]
  simp

/-- C12, counterexample. With exactly two of the four flags true `checkComplete` returns
true, LIST prints the file "a" without " [INCOMPLETE]" and GET goes on to download:
fewer than three pieces are present and the file is reported complete. -/
theorem checkComplete_true_with_two_flags :
    [true, true, false, false].count true < 3 ∧
      checkComplete [true, true, false, false] = true ∧
      getOutputListCommand.line (asciiBytes "a") [true, true, false, false]
        = asciiBytes "a" ++ [10] ∧
      commandExecGetDecision
        { file_names := [asciiBytes "a"], chunks := [[true, true, false, false]], num_files := 1 }
        = some GetDecision.proceed := by
  decide

theorem getOutputListCommand_fold (fs : List (List Nat)) (rs : List (List Bool)) (n : Nat)
    (h1 : n ≤ fs.length) (h2 : n ≤ rs.length) (out0 : List Nat) :
    (List.range n).foldlM
      (fun (out : List Nat) i =>
        match fs.get? i, rs.get? i with
        | some fileName, some flags => some (out ++ getOutputListCommand.line fileName flags)
        | _, _ => none) out0
      = some (out0 ++ ((List.range n).map
          (fun i => getOutputListCommand.line (fs.getD i []) (rs.getD i []))).flatten) := by
  induction n with
  | zero => simp
  | succ m ih =>
    have hm1 : m < fs.length := by omega
    have hm2 : m < rs.length := by omega
    rw [List.range_succ, List.foldlM_append, ih (by omega) (by omega)]
    simp [List.getElem?_eq_getElem hm1, List.getElem?_eq_getElem hm2, List.getD_eq_getElem?_getD]

/-- C12, amended. `checkComplete` returns true if and only if at least two of the four
flags are true; `getOutputListCommand` prints, for each of the `num_files` files in
order, the name followed by " [INCOMPLETE]" exactly when fewer than two of its flags
are true; and GET prints "File is incomplete" exactly when fewer than two flags of the
first file are true. -/
theorem completeness_threshold_is_two_pieces
    (entries : List (List Nat × Bool × Bool × Bool × Bool))
    (spareNames : List (List Nat)) (spareFlags : List (List Bool))
    (a b c d : Bool) (rows : List (List Bool)) (names : List (List Nat)) (n : Nat) :
    (checkComplete [a, b, c, d] = true ↔ 2 ≤ [a, b, c, d].count true) ∧
    getOutputListCommand
      { file_names := entries.map (fun e => e.1) ++ spareNames,
        chunks := entries.map (fun e => [e.2.1, e.2.2.1, e.2.2.2.1, e.2.2.2.2]) ++ spareFlags,
        num_files := entries.length }
      = some ((entries.map (fun e =>
          cString e.1 ++
            (if [e.2.1, e.2.2.1, e.2.2.2.1, e.2.2.2.2].count true < 2
              then asciiBytes " [INCOMPLETE]" else []) ++ [10])).flatten) ∧
    (commandExecGetDecision
        { file_names := names, chunks := [a, b, c, d] :: rows, num_files := n + 1 }
        = some GetDecision.fileIncomplete ↔ [a, b, c, d].count true < 2) := by
  refine ⟨?_, ?_, ?_⟩
  · rw [checkComplete_four]
    simp
  · unfold getOutputListCommand
    simp only
    rw [getOutputListCommand_fold _ _ _ (by simp) (by simp)]
    simp only [List.nil_append, Option.some.injEq]
    congr 1
    apply List.ext_getElem
    · simp
    · intro i h1 h2
      simp only [List.length_map, List.length_range] at h1 h2
      simp only [List.getElem_map, List.getElem_range, List.getD_eq_getElem?_getD]
      rw [List.getElem?_append_left (by simpa using h2),
        List.getElem?_append_left (by simpa using h2)]
      simp only [List.getElem?_map, List.getElem?_eq_getElem h2, Option.map_some',
        Option.getD_some, getOutputListCommand.line, checkComplete_four]
      by_cases hc : 2 ≤ [entries[i].2.1, entries[i].2.2.1, entries[i].2.2.2.1,
          entries[i].2.2.2.2].count true
      · simp [hc, Nat.not_lt.mpr hc]
      · simp [hc, Nat.lt_of_not_le hc]
  · unfold commandExecGetDecision
    simp only [Nat.add_one_ne_zero, if_false, List.get?_cons_zero, checkComplete_four]
    by_cases hc : 2 ≤ [a, b, c, d].count true
    · simp [hc, Nat.not_lt.mpr hc]
    · simp [hc, Nat.lt_of_not_le hc]

/-! ## Piece frame round trip and the segment bound -/

theorem writeSplitToSocketAsStream_length (le : Bool) (sp : Split)
    (hlen : sp.content_length = sp.content.length) :
    (writeSplitToSocketAsStream le sp).length = 9 + sp.content.length := by
  rw [writeSplitToSocketAsStream_eq]
  by_cases h : sp.content_length > 0
  · simp [h, encodeIntBytes_length]; omega
  · have hz : sp.content.length = 0 := by omega
    simp [h, encodeIntBytes_length, hz]

/-- C18. Piece frame round trip: for every `Split` with `content_length = |content| <= 512`
(and an `int` id), `writeSplitToSocketAsStream` emits exactly `9 + |content|` bytes: the
flag byte 0, the 4-byte encoding of the id, the 4-byte encoding of the length, then the
content; and `writeSplitFromSocketAsStream`, on a host of the same byte order, reading
those bytes returns a `Split` with the same id, content and `content_length`, leaving
what follows the frame unread. -/
theorem piece_frame_roundtrip (littleEndian : Bool) (split old : Split) (rest : List Nat)
    (hlen : split.content_length = split.content.length)
    (h512 : split.content.length ≤ MAX_SEG_SIZE)
    (hid1 : -2 ^ 31 ≤ split.id) (hid2 : split.id < 2 ^ 31) :
    (writeSplitToSocketAsStream littleEndian split).length = 9 + split.content.length ∧
      writeSplitToSocketAsStream littleEndian split =
        [INITIAL_WRITE_FLAG] ++ encodeIntToUchar littleEndian [0, 0, 0, 0] split.id ++
          encodeIntToUchar littleEndian [0, 0, 0, 0] (split.content_length : Int) ++
          split.content ∧
      (encodeIntToUchar littleEndian [0, 0, 0, 0] split.id).length = 4 ∧
      (encodeIntToUchar littleEndian [0, 0, 0, 0] (split.content_length : Int)).length = 4 ∧
      writeSplitFromSocketAsStream littleEndian
        (writeSplitToSocketAsStream littleEndian split ++ rest) old = .ok (split, rest) := by
  simp only [MAX_SEG_SIZE] at h512
  refine ⟨writeSplitToSocketAsStream_length littleEndian split hlen, ?_, rfl, rfl,
    frame_roundtrip littleEndian split rest old hlen h512 hid1 hid2⟩
  have hcontent : (if split.content_length > 0 then split.content else []) = split.content := by
    by_cases h : split.content_length > 0
    · simp [h]
    · have hz : split.content.length = 0 := by omega
      simp [h, List.eq_nil_of_length_eq_zero hz]
  have hsmall : toInt32 split.content_length = (split.content_length : Int) :=
    toInt32_small _ (by omega)
  rw [writeSplitToSocketAsStream_eq, hcontent, hsmall]
  simp [encodeIntToUchar, INT_SIZE, INITIAL_WRITE_FLAG]

/-- C18, instance: the split with id 3 and the three bytes 7, 8, 9. -/
theorem piece_frame_roundtrip_witness :
    ((3 : Nat) = [7, 8, 9].length ∧ [7, 8, 9].length ≤ MAX_SEG_SIZE ∧
      (-2 ^ 31 : Int) ≤ 3 ∧ (3 : Int) < 2 ^ 31) ∧
    writeSplitFromSocketAsStream true
      (writeSplitToSocketAsStream true { id := 3, content := [7, 8, 9], content_length := 3 }
        ++ [1, 2])
      Split.new = .ok ({ id := 3, content := [7, 8, 9], content_length := 3 }, [1, 2]) :=
  ⟨by decide,
    (piece_frame_roundtrip true { id := 3, content := [7, 8, 9], content_length := 3 }
      Split.new [1, 2] (by decide) (by decide) (by decide) (by decide)).2.2.2.2⟩

theorem toInt32_range (u : Nat) : -2 ^ 31 ≤ toInt32 u ∧ toInt32 u < 2 ^ 31 := by
  unfold toInt32
  split <;> constructor <;> omega

theorem toInt32_of_ge (u : Nat) (h1 : 2 ^ 31 ≤ u) (h2 : u < 2 ^ 32) : toInt32 u < 0 := by
  unfold toInt32
  have e : u % 2 ^ 32 = u := Nat.mod_eq_of_lt h2
  rw [e, if_neg (by omega)]
  omega

/-- Parsing a frame whose length field is negative or above `MAX_SEG_SIZE`. -/
theorem frame_reject (le : Bool) (wid wlen : List Nat) (id len : Int) (tail : List Nat)
    (old : Split) (hwid : wid.length = 4) (hwlen : wlen.length = 4)
    (hid : decodeIntFromUchar le wid = some id) (hlen : decodeIntFromUchar le wlen = some len)
    (hbad : len < 0 ∨ len > 512) :
    writeSplitFromSocketAsStream le (0 :: (wid ++ (wlen ++ tail))) old =
      .error (.runtimeError "Invalid content length in split header") := by
  match wid, hwid, wlen, hwlen with
  | [a0, a1, a2, a3], _, [b0, b1, b2, b3], _ =>
    have hrecv : recvFromSocket (0 :: ([a0, a1, a2, a3] ++ ([b0, b1, b2, b3] ++ tail))) 9
        = .ok ([0, a0, a1, a2, a3, b0, b1, b2, b3], tail) := by
      simp [recvFromSocket]
    unfold writeSplitFromSocketAsStream
    rw [hrecv]
    have hd1 : (([0, a0, a1, a2, a3, b0, b1, b2, b3] : List Nat).drop 1).take 4 = [a0, a1, a2, a3] := rfl
    have hd5 : (([0, a0, a1, a2, a3, b0, b1, b2, b3] : List Nat).drop 5).take 4 = [b0, b1, b2, b3] := rfl
    simp only [hd1, hd5, hid, hlen]
    have hflag : ([0, a0, a1, a2, a3, b0, b1, b2, b3] : List Nat).getD 0 0 = INITIAL_WRITE_FLAG := rfl
    have hyes : len < 0 ∨ len > (MAX_SEG_SIZE : Int) := by
      simp only [MAX_SEG_SIZE]; push_cast; exact hbad
    simp only [hflag, ne_eq, not_true_eq_false, if_false, hyes, if_true]

theorem frame_of_long_split_rejected (le : Bool) (sp : Split) (rest : List Nat) (old : Split)
    (h512 : 512 < sp.content_length) (h32 : sp.content_length < 2 ^ 32)
    (hid1 : -2 ^ 31 ≤ sp.id) (hid2 : sp.id < 2 ^ 31) :
    writeSplitFromSocketAsStream le (writeSplitToSocketAsStream le sp ++ rest) old =
      .error (.runtimeError "Invalid content length in split header") := by
  rw [writeSplitToSocketAsStream_eq]
  have hdi : decodeIntFromUchar le (encodeIntBytes le sp.id) = some sp.id := by
    have h := decode_encodeIntBytes le sp.id hid1 hid2 []
    rw [List.append_nil] at h
    exact h
  have hdl : decodeIntFromUchar le (encodeIntBytes le (toInt32 sp.content_length))
      = some (toInt32 sp.content_length) := by
    have h := decode_encodeIntBytes le (toInt32 sp.content_length)
      (toInt32_range _).1 (toInt32_range _).2 []
    rw [List.append_nil] at h
    exact h
  have hbad : toInt32 sp.content_length < 0 ∨ toInt32 sp.content_length > 512 := by
    by_cases h : sp.content_length < 2 ^ 31
    · right
      rw [toInt32_small _ h]
      omega
    · left
      exact toInt32_of_ge _ (by omega) h32
  have h := frame_reject le (encodeIntBytes le sp.id)
    (encodeIntBytes le (toInt32 sp.content_length)) sp.id (toInt32 sp.content_length)
    ((if sp.content_length > 0 then sp.content else []) ++ rest) old rfl rfl hdi hdl hbad
  simp only [List.cons_append, List.append_assoc]
  exact h

/-- A frame whose length field wrapped to zero is read as an empty piece. -/
theorem frame_of_wrapped_split_accepted (le : Bool) (sp : Split) (old : Split)
    (hpos : sp.content_length > 0) (hwrap : toInt32 sp.content_length = 0)
    (hid1 : -2 ^ 31 ≤ sp.id) (hid2 : sp.id < 2 ^ 31) :
    writeSplitFromSocketAsStream le (writeSplitToSocketAsStream le sp) old =
      .ok ({ id := sp.id, content := [], content_length := 0 }, sp.content) := by
  rw [writeSplitToSocketAsStream_eq, hwrap, if_pos hpos]
  have hdi : decodeIntFromUchar le (encodeIntBytes le sp.id) = some sp.id := by
    have h := decode_encodeIntBytes le sp.id hid1 hid2 []
    rw [List.append_nil] at h
    exact h
  have hdl : decodeIntFromUchar le (encodeIntBytes le 0) = some 0 := by
    have h := decode_encodeIntBytes le 0 (by decide) (by decide) []
    rw [List.append_nil] at h
    exact h
  have h := frame_parse le (encodeIntBytes le sp.id) (encodeIntBytes le 0) sp.id 0 []
    sp.content old rfl rfl hdi hdl (by decide) (by decide) rfl
  simp only [List.nil_append] at h
  exact h

/-- C19, counterexample. For a file of `2^34` bytes (more than 2048) the fourth split has
`content_length = 2^32 > MAX_SEG_SIZE`, its length field wraps to 0 in the 4-byte header,
and `writeSplitFromSocketAsStream` does not raise "Invalid content length in split
header": it returns an empty piece with id 4 and leaves the content unread. -/
theorem piece_of_16GiB_file_not_rejected :
    2048 < (List.replicate (2 ^ 34) 0).length ∧
      (splitFileToPieces "" (some (List.replicate (2 ^ 34) 0)) FileSplit.new).2.splits.get? 3
        = some (some { id := 4, content := List.replicate (2 ^ 32) 0,
                       content_length := 2 ^ 32 }) ∧
      MAX_SEG_SIZE < 2 ^ 32 ∧
      writeSplitFromSocketAsStream true
        (writeSplitToSocketAsStream true
          { id := 4, content := List.replicate (2 ^ 32) 0, content_length := 2 ^ 32 })
        Split.new
        = .ok ({ id := 4, content := [], content_length := 0 }, List.replicate (2 ^ 32) 0) := by
  refine ⟨?_, ?_, by decide, ?_⟩
  · rw [List.length_replicate]
    decide
  · rw [splitFileToPieces_eq "" _ FileSplit.new rfl]
    simp only [List.length_replicate, List.drop_replicate]
    have e1 : 2 ^ 34 / 4 = 2 ^ 32 := by norm_num
    have e2 : 2 ^ 34 % 4 = 0 := by norm_num
    have e3 : 2 ^ 34 - 3 * 2 ^ 32 = 2 ^ 32 := by norm_num
    rw [e1, e2, e3]
    rfl
  · exact frame_of_wrapped_split_accepted true
      { id := 4, content := List.replicate (2 ^ 32) 0, content_length := 2 ^ 32 } Split.new
      (by decide) (by unfold toInt32; decide) (by decide) (by decide)

/-- C19, amended. Files over 2 KiB cannot round-trip: for every file of `S > 2048` bytes
whose fourth piece has fewer than `2^32` bytes (so that its length is not reduced modulo
`2^32` by the 4-byte length field), the fourth split produced by `splitFileToPieces`
has `content_length = S / 4 + S % 4 > MAX_SEG_SIZE = 512`, and
`writeSplitFromSocketAsStream` rejects the frame of that split with the error
"Invalid content length in split header". -/
theorem piece_over_segment_size_rejected (littleEndian : Bool) (filePath : String)
    (B : List Nat) (fileSplit : FileSplit) (old : Split) (rest : List Nat)
    (hfs : fileSplit.splits.length = NUM_SERVER) (hS : 2048 < B.length)
    (h32 : B.length / 4 + B.length % 4 < 2 ^ 32) :
    ∃ sp : Split,
      (splitFileToPieces filePath (some B) fileSplit).2.splits.get? 3 = some (some sp) ∧
      sp.id = 4 ∧ sp.content_length = B.length / 4 + B.length % 4 ∧
      MAX_SEG_SIZE < sp.content_length ∧
      writeSplitFromSocketAsStream littleEndian
        (writeSplitToSocketAsStream littleEndian sp ++ rest) old =
        .error (.runtimeError "Invalid content length in split header") := by
  rw [splitFileToPieces_eq filePath B fileSplit hfs]
  refine ⟨_, rfl, rfl, rfl, ?_, ?_⟩
  · simp only [MAX_SEG_SIZE]
    omega
  · exact frame_of_long_split_rejected littleEndian _ rest old (by simp only []; omega)
      h32 (by show (-2 ^ 31 : Int) ≤ 4; decide) (by show (4 : Int) < 2 ^ 31; decide)

/-- C19, instance: a file of 2049 zero bytes, whose fourth piece has 513 bytes. -/
theorem piece_over_segment_size_rejected_witness :
    (FileSplit.new.splits.length = NUM_SERVER ∧ 2048 < (List.replicate 2049 0).length ∧
      (List.replicate 2049 0).length / 4 + (List.replicate 2049 0).length % 4 < 2 ^ 32) ∧
    ∃ sp : Split,
      (splitFileToPieces "f" (some (List.replicate 2049 0)) FileSplit.new).2.splits.get? 3
        = some (some sp) ∧
      sp.id = 4 ∧
      sp.content_length =
        (List.replicate 2049 0).length / 4 + (List.replicate 2049 0).length % 4 ∧
      MAX_SEG_SIZE < sp.content_length ∧
      writeSplitFromSocketAsStream true (writeSplitToSocketAsStream true sp ++ []) Split.new =
        .error (.runtimeError "Invalid content length in split header") :=
  ⟨⟨by decide, by rw [List.length_replicate]; decide, by rw [List.length_replicate]; decide⟩,
    piece_over_segment_size_rejected true "f" (List.replicate 2049 0) FileSplit.new Split.new []
      (by decide) (by rw [List.length_replicate]; decide)
      (by rw [List.length_replicate]; decide)⟩

/-! ## Directory index and report encoding: evaluations -/

/-- C15. For the listing `.a.1`, `.a.2`, `.b.3` the LIST index is one `ChunkInfo` for "a"
with ids 1 and 2 and `hasData = 1`; but when the folder also holds an entry such as
`x.99999999999`, whose numeric suffix exceeds `INT_MAX`, `std::stoi` throws and
`getFilesInFolder` returns nothing, although "a" has two piece files. -/
theorem list_index_lost_on_long_numeric_suffix :
    getFilesInFolder (["d/.", "d/..", "d/.a.1", "d/.a.2", "d/.b.3"].map asciiBytes)
        ServerChunksInfo.new []
      = some (true, { chunks := 1,
                      chunk_info := [{ file_name := asciiBytes "a", chunks := (1, 2) }] }) ∧
    listHasData { chunks := 1,
                  chunk_info := [{ file_name := asciiBytes "a", chunks := (1, 2) }] } = 1 ∧
    getFilesInFolder
        (["d/.", "d/..", "d/.a.1", "d/.a.2", "d/x.99999999999"].map asciiBytes)
        ServerChunksInfo.new []
      = none := by
  decide

/-- C16. Entries that do not begin with `'.'` are counted: for a folder holding only
`a.1` and `a.2` the LIST index reports the basename "a" with ids 1 and 2, and an entry
`.a.7`, whose suffix is no piece id, is counted as a piece of "a" as well. -/
theorem non_hidden_entries_are_reported :
    getFilesInFolder (["d/.", "d/..", "d/a.1", "d/a.2"].map asciiBytes) ServerChunksInfo.new []
      = some (true, { chunks := 1,
                      chunk_info := [{ file_name := asciiBytes "a", chunks := (1, 2) }] }) ∧
    getFilesInFolder.parse (asciiBytes "d/a.1") = some (asciiBytes "a", asciiBytes "1") ∧
    getFilesInFolder.parse (asciiBytes "d/.a.1") = some (asciiBytes "a", asciiBytes "1") ∧
    getFilesInFolder (["d/.", "d/..", "d/.a.1", "d/.a.7"].map asciiBytes)
        ServerChunksInfo.new []
      = some (true, { chunks := 1,
                      chunk_info := [{ file_name := asciiBytes "a", chunks := (1, 7) }] }) := by
  decide

/-- C17. The GET index for "f" is lost when the folder holds an entry with a numeric
suffix above `INT_MAX` (`std::stoi` throws although `.f.1` and `.f.2` are stored), and
with the single piece file `.f.1` and the entry `f.2`, which is no piece file, it is a
`ChunkInfo` with ids 1 and 2 instead of count 0; for `.f.1`, `.f.2` alone it is the
`ChunkInfo` of "f" with ids 1 and 2. -/
theorem get_index_lost_or_counts_non_piece_entries :
    getFilesInFolder
        (["d/.", "d/..", "d/.f.1", "d/.f.2", "d/x.99999999999"].map asciiBytes)
        ServerChunksInfo.new (asciiBytes "f")
      = none ∧
    getFilesInFolder (["d/.", "d/..", "d/.f.1", "d/f.2"].map asciiBytes)
        ServerChunksInfo.new (asciiBytes "f")
      = some (true, { chunks := 1,
                      chunk_info := [{ file_name := asciiBytes "f", chunks := (1, 2) }] }) ∧
    getFilesInFolder (["d/.", "d/..", "d/.f.1", "d/.f.2"].map asciiBytes)
        ServerChunksInfo.new (asciiBytes "f")
      = some (true, { chunks := 1,
                      chunk_info := [{ file_name := asciiBytes "f", chunks := (1, 2) }] }) := by
  decide

set_option maxRecDepth 20000 in
/-- C20. The constant `CHUNK_INFO_STRUCT_SIZE` is `100 + NUM_SERVER * 4 = 116`, not 108: an
encoded `ChunkInfo` is the 100-byte name field, two 4-byte ids and eight more zero
bytes, and the buffer of a record with one entry has `4 + 116 = 120` bytes. -/
theorem chunk_info_struct_size_is_116 :
    CHUNK_INFO_STRUCT_SIZE = 116 ∧
    encodeChunkInfoToBuffer false (List.replicate CHUNK_INFO_STRUCT_SIZE 0)
        { file_name := asciiBytes "a", chunks := (1, 2) }
      = some (asciiBytes "a" ++ List.replicate 99 0 ++ [0, 0, 0, 1] ++ [0, 0, 0, 2] ++
          List.replicate 8 0) ∧
    (encodeServerChunksInfoToBuffer false []
        { chunks := 1, chunk_info := [{ file_name := asciiBytes "a", chunks := (1, 2) }] }).map
      List.length = some 120 ∧
    (encodeServerChunksInfoToBuffer false []
        { chunks := 2, chunk_info := [{ file_name := asciiBytes "a", chunks := (1, 2) },
                                      { file_name := asciiBytes "b", chunks := (3, 4) }] }).map
      List.length = some (4 + 116 * 2) := by
  decide

/-! ## Aggregation of the reports -/

theorem cString_nameSlot (n : List Nat) (hlen : n.length < MAX_CHAR_BUFF) (h0 : 0 ∉ n) :
    cString (nameSlot n) = n := by
  unfold cString nameSlot
  rw [List.takeWhile_append_of_pos]
  · obtain ⟨m, hm⟩ : ∃ m, MAX_CHAR_BUFF - n.length = m + 1 := ⟨MAX_CHAR_BUFF - n.length - 1, by omega⟩
    rw [hm, List.replicate_succ]
    simp
  · intro a ha
    simp only [ne_eq, decide_not, Bool.not_eq_true', decide_eq_false_iff_not]
    intro h
    exact h0 (h ▸ ha)

theorem cString_of_no_zero (n : List Nat) (h0 : 0 ∉ n) : cString n = n := by
  unfold cString
  rw [List.takeWhile_eq_self_iff]
  intro a ha
  simp only [ne_eq, decide_not, Bool.not_eq_true', decide_eq_false_iff_not]
  intro h
  exact h0 (h ▸ ha)

theorem strncpy_fresh_slot (n : List Nat) (hlen : n.length < MAX_CHAR_BUFF) (h0 : 0 ∉ n) :
    strncpy (List.replicate MAX_CHAR_BUFF 0) n (MAX_CHAR_BUFF - 1) = nameSlot n := by
  unfold strncpy nameSlot
  simp only [MAX_CHAR_BUFF] at hlen ⊢
  rw [cString_of_no_zero n h0, List.take_of_length_le (by omega)]
  simp only [List.drop_replicate, List.append_assoc, ← List.replicate_add]
  congr 2
  omega

theorem checkFileNameExist_loop_eq (name : List Nat) (rest : List (List Nat)) :
    ∀ (suf pre : List (List Nat)), (∀ n ∈ suf, n.length < MAX_CHAR_BUFF ∧ 0 ∉ n) →
      checkFileNameExist.loop ((pre ++ suf).map nameSlot ++ rest) name suf.length pre.length =
        some (if name ∈ suf then ((pre.length + nameIndex name suf : Nat) : Int) else -1) := by
  intro suf
  induction suf with
  | nil => intro pre _; simp [checkFileNameExist.loop]
  | cons n suf ih =>
    intro pre hv
    have hn := hv n (List.mem_cons_self _ _)
    have hget : ((pre ++ n :: suf).map nameSlot ++ rest).get? pre.length = some (nameSlot n) := by
      have e : (pre ++ n :: suf).map nameSlot ++ rest =
          pre.map nameSlot ++ (nameSlot n :: (suf.map nameSlot ++ rest)) := by simp
      rw [e, List.get?_eq_getElem?, List.getElem?_append_right (by simp)]
      simp
    simp only [List.length_cons, checkFileNameExist.loop, hget, cString_nameSlot n hn.1 hn.2]
    by_cases h : n = name
    · subst h
      simp [nameIndex]
    · have h2 := ih (pre ++ [n]) (fun m hm => hv m (List.mem_cons_of_mem _ hm))
      simp only [List.append_assoc, List.singleton_append, List.length_append, List.length_singleton]
        at h2
      rw [if_neg h, h2]
      have hne : name ≠ n := fun e => h e.symm
      by_cases hmem : name ∈ suf
      · simp only [hmem, if_true, List.mem_cons, hne, false_or, nameIndex, if_neg h]
        congr 2
        omega
      · simp [hmem, hne]

theorem nameIndex_lt (name : List Nat) (names : List (List Nat)) (h : name ∈ names) :
    nameIndex name names < names.length := by
  induction names with
  | nil => simp at h
  | cons n ns ih =>
    unfold nameIndex
    by_cases e : n = name
    · simp [e]
    · have hmem : name ∈ ns := by
        rcases List.mem_cons.mp h with h1 | h1
        · exact absurd h1.symm e
        · exact h1
      simp only [e, if_false, List.length_cons]
      exact Nat.succ_lt_succ (ih hmem)

theorem getElem?_nameIndex (name : List Nat) (names : List (List Nat)) (h : name ∈ names) :
    names[nameIndex name names]? = some name := by
  induction names with
  | nil => simp at h
  | cons n ns ih =>
    unfold nameIndex
    by_cases e : n = name
    · simp [e]
    · have hmem : name ∈ ns := by
        rcases List.mem_cons.mp h with h1 | h1
        · exact absurd h1.symm e
        · exact h1
      simp only [e, if_false, List.getElem?_cons_succ]
      exact ih hmem

theorem setFlags_fold (c : ServerChunksCollate) (j : Nat) (chunkInfo : ChunkInfo)
    (row : List Bool) (hget : c.chunks.get? j = some row) (hrow : row.length = 4)
    (h1 : 1 ≤ chunkInfo.chunks.1) (h2 : chunkInfo.chunks.1 ≤ 4)
    (h3 : 1 ≤ chunkInfo.chunks.2) (h4 : chunkInfo.chunks.2 ≤ 4) :
    (List.range CHUNKS_PER_SERVER).foldlM
      (fun (c : ServerChunksCollate) k =>
        match setChunkFlag c.chunks j (chunkInfo.chunkAt k) with
        | none => none
        | some chunks => some { c with chunks := chunks })
      c =
    some { c with chunks := (c.chunks.set j
      ((row.set (chunkInfo.chunks.1 - 1).toNat true).set (chunkInfo.chunks.2 - 1).toNat true)) } := by
  have r2 : List.range CHUNKS_PER_SERVER = [0, 1] := by decide
  have hj : j < c.chunks.length := by
    rw [List.get?_eq_getElem?] at hget
    exact (List.getElem?_eq_some_iff.mp hget).1
  have hget2 : (c.chunks.set j (row.set (chunkInfo.chunks.1 - 1).toNat true)).get? j
      = some (row.set (chunkInfo.chunks.1 - 1).toNat true) := by
    rw [List.get?_eq_getElem?, List.getElem?_set_self hj]
  have hb1 : 0 ≤ chunkInfo.chunks.1 - 1 ∧ (chunkInfo.chunks.1 - 1).toNat < row.length := by
    constructor <;> omega
  have hb2 : 0 ≤ chunkInfo.chunks.2 - 1 ∧
      (chunkInfo.chunks.2 - 1).toNat < (row.set (chunkInfo.chunks.1 - 1).toNat true).length := by
    rw [List.length_set]
    constructor <;> omega
  rw [r2]
  simp only [List.foldlM_cons, List.foldlM_nil, ChunkInfo.chunkAt, if_true, setChunkFlag, hget,
    hb1, and_self, Option.bind_eq_bind, Option.some_bind, hget2, hb2, one_ne_zero, if_false,
    List.set_set, Option.pure_def]

theorem row_insert_self (a : Aggregate) (chunkInfo : ChunkInfo)
    (h1 : 1 ≤ chunkInfo.chunks.1) (h2 : chunkInfo.chunks.1 ≤ 4)
    (h3 : 1 ≤ chunkInfo.chunks.2) (h4 : chunkInfo.chunks.2 ≤ 4) :
    ((a.row chunkInfo.file_name).set (chunkInfo.chunks.1 - 1).toNat true).set
        (chunkInfo.chunks.2 - 1).toNat true
      = (a.insert chunkInfo).row chunkInfo.file_name := by
  have c1 : chunkInfo.chunks.1 = 1 ∨ chunkInfo.chunks.1 = 2 ∨ chunkInfo.chunks.1 = 3 ∨
      chunkInfo.chunks.1 = 4 := by omega
  have c2 : chunkInfo.chunks.2 = 1 ∨ chunkInfo.chunks.2 = 2 ∨ chunkInfo.chunks.2 = 3 ∨
      chunkInfo.chunks.2 = 4 := by omega
  rcases c1 with e1 | e1 | e1 | e1 <;> rcases c2 with e2 | e2 | e2 | e2 <;>
    simp [Aggregate.row, Aggregate.insert, e1, e2]

theorem row_insert_other (a : Aggregate) (chunkInfo : ChunkInfo) (m : List Nat)
    (hm : m ≠ chunkInfo.file_name) : (a.insert chunkInfo).row m = a.row m := by
  simp [Aggregate.row, Aggregate.insert, hm]

theorem row_length (a : Aggregate) (m : List Nat) : (a.row m).length = 4 := rfl

theorem row_of_absent (a : Aggregate) (hs : a.Sound) (m : List Nat) (hm : m ∉ a.names) :
    a.row m = List.replicate NUM_SERVER false := by
  have hf : ∀ k, a.present m k = false := by
    intro k
    cases h : a.present m k with
    | false => rfl
    | true => exact absurd (hs.2.2 m k h) hm
  simp [Aggregate.row, hf, NUM_SERVER, List.replicate]

theorem map_row_insert (a : Aggregate) (chunkInfo : ChunkInfo) (names : List (List Nat))
    (h : chunkInfo.file_name ∉ names) :
    names.map (a.insert chunkInfo).row = names.map a.row := by
  apply List.map_congr_left
  intro m hm
  exact row_insert_other a chunkInfo m (fun e => h (e ▸ hm))

theorem map_row_set (a : Aggregate) (chunkInfo : ChunkInfo) (names : List (List Nat))
    (hnd : names.Nodup) (hmem : chunkInfo.file_name ∈ names) :
    (names.map a.row).set (nameIndex chunkInfo.file_name names)
        ((a.insert chunkInfo).row chunkInfo.file_name)
      = names.map (a.insert chunkInfo).row := by
  induction names with
  | nil => simp at hmem
  | cons n ns ih =>
    have hnd2 := List.nodup_cons.mp hnd
    unfold nameIndex
    by_cases e : n = chunkInfo.file_name
    · have hns : chunkInfo.file_name ∉ ns := e ▸ hnd2.1
      simp only [e, if_true, List.map_cons, List.set_cons_zero, map_row_insert a chunkInfo ns hns]
    · have hmem2 : chunkInfo.file_name ∈ ns := by
        rcases List.mem_cons.mp hmem with h1 | h1
        · exact absurd h1.symm e
        · exact h1
      simp only [e, if_false, List.map_cons, List.set_cons_succ, ih hnd2.2 hmem2,
        row_insert_other a chunkInfo n e]

theorem insert_names_of_mem (a : Aggregate) (chunkInfo : ChunkInfo)
    (h : chunkInfo.file_name ∈ a.names) : (a.insert chunkInfo).names = a.names := by
  simp [Aggregate.insert, h]

theorem insert_names_of_not_mem (a : Aggregate) (chunkInfo : ChunkInfo)
    (h : chunkInfo.file_name ∉ a.names) :
    (a.insert chunkInfo).names = a.names ++ [chunkInfo.file_name] := by
  simp [Aggregate.insert, h]

theorem checkFileNameExist_toCollate (a : Aggregate) (hs : a.Sound) (name : List Nat) :
    checkFileNameExist a.toCollate.file_names name a.toCollate.num_files =
      some (if name ∈ a.names then ((nameIndex name a.names : Nat) : Int) else -1) := by
  have h := checkFileNameExist_loop_eq name
    (List.replicate (MAX_NUM_FILES - a.names.length) (List.replicate MAX_CHAR_BUFF 0))
    a.names [] hs.2.1
  simp only [List.nil_append, List.length_nil, Nat.zero_add] at h
  exact h

/-- One insertion on the collate of a sound aggregate is the insertion on the aggregate. -/
theorem step_refines (a : Aggregate) (chunkInfo : ChunkInfo) (hs : a.Sound)
    (hr : chunkInfo.Reportable) (hroom : (a.insert chunkInfo).names.length ≤ MAX_NUM_FILES) :
    insertToServerChunksCollate.step a.toCollate chunkInfo =
      some (a.insert chunkInfo).toCollate := by
  obtain ⟨hlen, h0, h1, h2, h3, h4⟩ := hr
  unfold insertToServerChunksCollate.step
  rw [checkFileNameExist_toCollate a hs]
  by_cases hmem : chunkInfo.file_name ∈ a.names
  · have hidx := nameIndex_lt _ _ hmem
    have hnot : ¬ (((nameIndex chunkInfo.file_name a.names : Nat) : Int) < 0) := by omega
    simp only [hmem, if_true, hnot, if_false, Int.toNat_ofNat]
    have hget : a.toCollate.chunks.get? (nameIndex chunkInfo.file_name a.names)
        = some (a.row chunkInfo.file_name) := by
      simp only [Aggregate.toCollate, List.get?_eq_getElem?]
      rw [List.getElem?_append_left (by simpa using hidx), List.getElem?_map,
        getElem?_nameIndex _ _ hmem]
      rfl
    rw [setFlags_fold a.toCollate _ chunkInfo _ hget (row_length a _) h1 h2 h3 h4,
      row_insert_self a chunkInfo h1 h2 h3 h4]
    simp only [Aggregate.toCollate, insert_names_of_mem a chunkInfo hmem, Option.some.injEq,
      ServerChunksCollate.mk.injEq, true_and, and_true]
    rw [List.set_append_left _ _ (by simpa using hidx), map_row_set a chunkInfo a.names hs.1 hmem]
  · have hnames := insert_names_of_not_mem a chunkInfo hmem
    have hN : a.names.length < MAX_NUM_FILES := by
      rw [hnames] at hroom
      simp only [List.length_append, List.length_singleton] at hroom
      omega
    obtain ⟨r, hr⟩ : ∃ r, MAX_NUM_FILES - a.names.length = r + 1 :=
      ⟨MAX_NUM_FILES - a.names.length - 1, by omega⟩
    have hr2 : MAX_NUM_FILES - (a.names.length + 1) = r := by omega
    simp only [hmem, if_false, Int.reduceNeg, Int.reduceLT, if_true, Nat.add_sub_cancel]
    have hslot : a.toCollate.file_names.get? a.names.length
        = some (List.replicate MAX_CHAR_BUFF 0) := by
      simp only [Aggregate.toCollate, List.get?_eq_getElem?]
      rw [List.getElem?_append_right (by simp), hr]
      simp
    have hnum : a.toCollate.num_files = a.names.length := rfl
    simp only [hnum, hslot, strncpy_fresh_slot chunkInfo.file_name hlen h0]
    have hget : a.toCollate.chunks.get? a.names.length
        = some (List.replicate NUM_SERVER false) := by
      simp only [Aggregate.toCollate, List.get?_eq_getElem?]
      rw [List.getElem?_append_right (by simp), hr]
      simp
    rw [setFlags_fold
        { file_names := a.toCollate.file_names.set a.names.length (nameSlot chunkInfo.file_name),
          chunks := a.toCollate.chunks, num_files := a.names.length + 1 }
        _ chunkInfo _ hget (by simp [NUM_SERVER]) h1 h2 h3 h4,
      ← row_of_absent a hs chunkInfo.file_name hmem, row_insert_self a chunkInfo h1 h2 h3 h4]
    simp only [Aggregate.toCollate, hnames, hr, hr2, List.length_append, List.length_singleton,
      Option.some.injEq, ServerChunksCollate.mk.injEq, and_true, List.map_append, List.map_cons,
      List.map_nil, List.replicate_succ]
    constructor
    · rw [List.set_append_right _ _ (by simp)]
      simp
    · rw [List.set_append_right _ _ (by simp), map_row_insert a chunkInfo a.names hmem]
      simp

theorem insert_sound (a : Aggregate) (chunkInfo : ChunkInfo) (hs : a.Sound)
    (hr : chunkInfo.Reportable) : (a.insert chunkInfo).Sound := by
  obtain ⟨hnd, hval, hsup⟩ := hs
  by_cases hmem : chunkInfo.file_name ∈ a.names
  · refine ⟨?_, ?_, ?_⟩
    · rw [insert_names_of_mem a chunkInfo hmem]; exact hnd
    · rw [insert_names_of_mem a chunkInfo hmem]; exact hval
    · intro n k h
      rw [insert_names_of_mem a chunkInfo hmem]
      simp only [Aggregate.insert, Bool.or_eq_true, Bool.and_eq_true, decide_eq_true_eq] at h
      rcases h with h | ⟨h, _⟩
      · exact hsup n k h
      · exact h ▸ hmem
  · refine ⟨?_, ?_, ?_⟩
    · rw [insert_names_of_not_mem a chunkInfo hmem]
      exact List.nodup_append.mpr ⟨hnd, List.nodup_singleton _, by
        intro x hx hx2
        rw [List.mem_singleton] at hx2
        exact hmem (hx2 ▸ hx)⟩
    · rw [insert_names_of_not_mem a chunkInfo hmem]
      intro n hn
      rcases List.mem_append.mp hn with h | h
      · exact hval n h
      · rw [List.mem_singleton] at h
        exact h ▸ ⟨hr.1, hr.2.1⟩
    · intro n k h
      rw [insert_names_of_not_mem a chunkInfo hmem]
      simp only [Aggregate.insert, Bool.or_eq_true, Bool.and_eq_true, decide_eq_true_eq] at h
      rcases h with h | ⟨h, _⟩
      · exact List.mem_append_left _ (hsup n k h)
      · exact List.mem_append_right _ (by simp [h])

theorem insert_names_length_le (a : Aggregate) (chunkInfo : ChunkInfo) :
    a.names.length ≤ (a.insert chunkInfo).names.length := by
  by_cases hmem : chunkInfo.file_name ∈ a.names
  · rw [insert_names_of_mem a chunkInfo hmem]
  · rw [insert_names_of_not_mem a chunkInfo hmem]; simp

theorem foldl_insert_names_length_le (L : List ChunkInfo) :
    ∀ a : Aggregate, a.names.length ≤ (L.foldl Aggregate.insert a).names.length := by
  induction L with
  | nil => intro a; exact Nat.le_refl _
  | cons ci L ih =>
    intro a
    exact Nat.le_trans (insert_names_length_le a ci) (ih (a.insert ci))

/-- A run of insertions on the collate of a sound aggregate follows the aggregate. -/
theorem foldlM_step_refines (L : List ChunkInfo) :
    ∀ a : Aggregate, a.Sound → (∀ ci ∈ L, ci.Reportable) →
      (L.foldl Aggregate.insert a).names.length ≤ MAX_NUM_FILES →
      L.foldlM insertToServerChunksCollate.step a.toCollate =
        some (L.foldl Aggregate.insert a).toCollate := by
  induction L with
  | nil => intro a _ _ _; rfl
  | cons ci L ih =>
    intro a hs hr hroom
    have hci := hr ci (List.mem_cons_self _ _)
    have hroom1 : (a.insert ci).names.length ≤ MAX_NUM_FILES :=
      Nat.le_trans (foldl_insert_names_length_le L (a.insert ci)) hroom
    rw [List.foldlM_cons, step_refines a ci hs hci hroom1]
    exact ih (a.insert ci) (insert_sound a ci hs hci)
      (fun c hc => hr c (List.mem_cons_of_mem _ hc)) hroom

theorem foldlM_range_get (f : ServerChunksCollate → ChunkInfo → Option ServerChunksCollate)
    (l : List ChunkInfo) :
    ∀ (pre : List ChunkInfo) (c : ServerChunksCollate),
      (List.range' pre.length l.length).foldlM
        (fun (c : ServerChunksCollate) i =>
          match (pre ++ l).get? i with
          | none => none
          | some chunkInfo => f c chunkInfo) c
        = l.foldlM f c := by
  induction l with
  | nil => intro pre c; rfl
  | cons x l ih =>
    intro pre c
    have hget : (pre ++ x :: l).get? pre.length = some x := by
      rw [List.get?_eq_getElem?, List.getElem?_append_right (Nat.le_refl _)]
      simp
    simp only [List.length_cons, List.range'_succ, List.foldlM_cons, hget]
    cases hfx : f c x with
    | none => rfl
    | some c1 =>
      have h := ih (pre ++ [x]) c1
      simp only [List.length_append, List.length_singleton, List.append_assoc,
        List.singleton_append] at h
      simp only [Option.bind_eq_bind, Option.some_bind]
      exact h

theorem insertToServerChunksCollate_eq (c : ServerChunksCollate) (r : ServerChunksInfo)
    (h : r.chunks = (r.chunk_info.length : Int)) :
    insertToServerChunksCollate c r = r.chunk_info.foldlM insertToServerChunksCollate.step c := by
  unfold insertToServerChunksCollate
  rw [h, Int.toNat_ofNat, List.range_eq_range']
  have h2 := foldlM_range_get insertToServerChunksCollate.step r.chunk_info [] c
  simp only [List.length_nil, List.nil_append] at h2
  exact h2

theorem foldlM_reports (reports : List ServerChunksInfo)
    (h : ∀ r ∈ reports, r.chunks = (r.chunk_info.length : Int)) :
    ∀ c : ServerChunksCollate,
      reports.foldlM insertToServerChunksCollate c =
        (reports.flatMap (fun r => r.chunk_info)).foldlM insertToServerChunksCollate.step c := by
  induction reports with
  | nil => intro c; rfl
  | cons r rs ih =>
    intro c
    have hr := h r (List.mem_cons_self _ _)
    rw [List.foldlM_cons, insertToServerChunksCollate_eq c r hr, List.flatMap_cons,
      List.foldlM_append]
    cases hfx : r.chunk_info.foldlM insertToServerChunksCollate.step c with
    | none => rfl
    | some c1 =>
      simp only [Option.bind_eq_bind, Option.some_bind]
      exact ih (fun x hx => h x (List.mem_cons_of_mem _ hx)) c1

theorem mem_firstReports (l : List (List Nat)) (n : List Nat) : n ∈ firstReports l ↔ n ∈ l := by
  induction l with
  | nil => simp [firstReports]
  | cons m l ih =>
    simp only [firstReports, List.mem_cons, List.mem_filter, ih, ne_eq, decide_not,
      Bool.not_eq_true', decide_eq_false_iff_not]
    constructor
    · rintro (h | ⟨h, _⟩)
      · exact Or.inl h
      · exact Or.inr h
    · rintro (h | h)
      · exact Or.inl h
      · by_cases e : n = m
        · exact Or.inl e
        · exact Or.inr ⟨h, e⟩

theorem nodup_firstReports (l : List (List Nat)) : (firstReports l).Nodup := by
  induction l with
  | nil => simp [firstReports]
  | cons m l ih =>
    simp only [firstReports]
    refine List.nodup_cons.mpr ⟨?_, ih.filter _⟩
    simp [List.mem_filter]

theorem length_firstReports (l : List (List Nat)) :
    (firstReports l).length = l.toFinset.card := by
  rw [← List.toFinset_card_of_nodup (nodup_firstReports l)]
  congr 1
  ext n
  simp [mem_firstReports]

theorem foldl_insert_names (L : List ChunkInfo) :
    ∀ a : Aggregate, (L.foldl Aggregate.insert a).names =
      a.names ++ (firstReports (L.map (fun ci => ci.file_name))).filter
        (fun n => decide (n ∉ a.names)) := by
  induction L with
  | nil => intro a; simp [firstReports]
  | cons ci L ih =>
    intro a
    rw [List.foldl_cons, ih (a.insert ci)]
    simp only [List.map_cons, firstReports]
    by_cases hmem : ci.file_name ∈ a.names
    · rw [insert_names_of_mem a ci hmem]
      simp only [List.filter_cons, hmem, not_true_eq_false, decide_False, Bool.false_eq_true,
        if_false, List.filter_filter]
      congr 1
      apply List.filter_congr
      intro x _
      by_cases e : x = ci.file_name
      · simp [e, hmem]
      · simp [e]
    · rw [insert_names_of_not_mem a ci hmem]
      simp only [List.filter_cons, hmem, not_false_eq_true, decide_True, if_true,
        List.filter_filter, List.append_assoc, List.singleton_append]
      congr 2
      apply List.filter_congr
      intro x _
      by_cases e : x = ci.file_name
      · simp [e]
      · simp [e]

theorem foldl_insert_present (L : List ChunkInfo) :
    ∀ (a : Aggregate) (n : List Nat) (k : Nat),
      (L.foldl Aggregate.insert a).present n k =
        (a.present n k || L.any (fun ci =>
          decide (n = ci.file_name) &&
            (decide (ci.chunks.1 = (k : Int) + 1) || decide (ci.chunks.2 = (k : Int) + 1)))) := by
  induction L with
  | nil => intro a n k; simp
  | cons ci L ih =>
    intro a n k
    rw [List.foldl_cons, ih (a.insert ci) n k]
    simp only [Aggregate.insert, List.any_cons, Bool.or_assoc]

theorem foldl_insert_sound (L : List ChunkInfo) :
    ∀ a : Aggregate, a.Sound → (∀ ci ∈ L, ci.Reportable) →
      (L.foldl Aggregate.insert a).Sound := by
  induction L with
  | nil => intro a hs _; exact hs
  | cons ci L ih =>
    intro a hs hr
    exact ih (a.insert ci) (insert_sound a ci hs (hr ci (List.mem_cons_self _ _)))
      (fun c hc => hr c (List.mem_cons_of_mem _ hc))

theorem empty_sound : Aggregate.empty.Sound := by
  refine ⟨List.nodup_nil, ?_, ?_⟩
  · intro n hn; simp [Aggregate.empty] at hn
  · intro n k h; simp [Aggregate.empty] at h

theorem row_getD (a : Aggregate) (n : List Nat) (k : Nat) (hk : k < 4) :
    (a.row n).getD k false = a.present n k := by
  have hcases : k = 0 ∨ k = 1 ∨ k = 2 ∨ k = 3 := by omega
  rcases hcases with rfl | rfl | rfl | rfl <;> rfl

theorem toCollate_names (a : Aggregate) (hs : a.Sound) :
    (a.toCollate.file_names.take a.toCollate.num_files).map cString = a.names := by
  simp only [Aggregate.toCollate]
  rw [List.take_left' (by simp), List.map_map]
  conv_rhs => rw [← List.map_id a.names]
  apply List.map_congr_left
  intro n hn
  simp only [Function.comp_apply, id_eq]
  exact cString_nameSlot n (hs.2.1 n hn).1 (hs.2.1 n hn).2

/-- C14. Aggregation is the union of the reports: starting from an empty
`ServerChunksCollate`, inserting any sequence of `ServerChunksInfo` records whose count
is their number of entries (file names without zero byte and shorter than 100 bytes,
piece ids in 1..4, at most 100 distinct names) succeeds; the first `num_files` entries
then list each reported basename exactly once, in order of first report, and the flag
`chunks[j][k]` of entry `j` is true if and only if some inserted `ChunkInfo` with that
basename lists piece id `k + 1`. -/
theorem aggregation_is_union_of_reports (reports : List ServerChunksInfo)
    (hcount : ∀ r ∈ reports, r.chunks = (r.chunk_info.length : Int))
    (hvalid : ∀ r ∈ reports, ∀ ci ∈ r.chunk_info, ci.Reportable)
    (hdistinct : ((reports.flatMap (fun r => r.chunk_info)).map
      (fun ci => ci.file_name)).toFinset.card ≤ MAX_NUM_FILES) :
    ∃ c : ServerChunksCollate,
      reports.foldlM insertToServerChunksCollate ServerChunksCollate.new = some c ∧
      (c.file_names.take c.num_files).map cString =
        firstReports ((reports.flatMap (fun r => r.chunk_info)).map (fun ci => ci.file_name)) ∧
      ((c.file_names.take c.num_files).map cString).Nodup ∧
      (∀ n, n ∈ (c.file_names.take c.num_files).map cString ↔
        ∃ r ∈ reports, ∃ ci ∈ r.chunk_info, ci.file_name = n) ∧
      (∀ j k, j < c.num_files → k < 4 →
        ((c.chunks.getD j []).getD k false = true ↔
          ∃ r ∈ reports, ∃ ci ∈ r.chunk_info,
            ci.file_name = cString (c.file_names.getD j []) ∧
            (ci.chunks.1 = (k : Int) + 1 ∨ ci.chunks.2 = (k : Int) + 1))) := by
  have hall : ∀ ci ∈ reports.flatMap (fun r => r.chunk_info), ci.Reportable := by
    intro ci hci
    obtain ⟨r, hr, hci2⟩ := List.mem_flatMap.mp hci
    exact hvalid r hr ci hci2
  have hnames := foldl_insert_names (reports.flatMap (fun r => r.chunk_info)) Aggregate.empty
  have hnames2 : ((reports.flatMap (fun r => r.chunk_info)).foldl Aggregate.insert
      Aggregate.empty).names =
      firstReports ((reports.flatMap (fun r => r.chunk_info)).map (fun ci => ci.file_name)) := by
    rw [hnames]
    simp [Aggregate.empty]
  have hroom : ((reports.flatMap (fun r => r.chunk_info)).foldl Aggregate.insert
      Aggregate.empty).names.length ≤ MAX_NUM_FILES := by
    rw [hnames2, length_firstReports]
    exact hdistinct
  have hsound := foldl_insert_sound (reports.flatMap (fun r => r.chunk_info)) Aggregate.empty
    empty_sound hall
  have hrun : reports.foldlM insertToServerChunksCollate ServerChunksCollate.new =
      some ((reports.flatMap (fun r => r.chunk_info)).foldl Aggregate.insert
        Aggregate.empty).toCollate := by
    rw [foldlM_reports reports hcount]
    exact foldlM_step_refines _ Aggregate.empty empty_sound hall hroom
  have hmemall : ∀ n, (∃ ci ∈ reports.flatMap (fun r => r.chunk_info), ci.file_name = n) ↔
      ∃ r ∈ reports, ∃ ci ∈ r.chunk_info, ci.file_name = n := by
    intro n
    constructor
    · rintro ⟨ci, hci, e⟩
      obtain ⟨r, hr, hci2⟩ := List.mem_flatMap.mp hci
      exact ⟨r, hr, ci, hci2, e⟩
    · rintro ⟨r, hr, ci, hci, e⟩
      exact ⟨ci, List.mem_flatMap.mpr ⟨r, hr, hci⟩, e⟩
  refine ⟨_, hrun, ?_, ?_, ?_, ?_⟩
  · rw [toCollate_names _ hsound, hnames2]
  · rw [toCollate_names _ hsound]
    exact hsound.1
  · intro n
    rw [toCollate_names _ hsound, hnames2, mem_firstReports, ← hmemall n]
    simp only [List.mem_map]
  · intro j k hj hk
    have hp := fun n => foldl_insert_present (reports.flatMap (fun r => r.chunk_info))
      Aggregate.empty n k
    generalize hA : (reports.flatMap (fun r => r.chunk_info)).foldl Aggregate.insert
      Aggregate.empty = A at hsound hj hp ⊢
    have hjn : j < A.names.length := hj
    have hname : cString (A.toCollate.file_names.getD j []) = A.names[j] := by
      simp only [Aggregate.toCollate, List.getD_eq_getElem?_getD]
      rw [List.getElem?_append_left (by simpa using hjn), List.getElem?_map,
        List.getElem?_eq_getElem hjn]
      simp only [Option.map_some', Option.getD_some]
      exact cString_nameSlot _ (hsound.2.1 _ (List.getElem_mem hjn)).1
        (hsound.2.1 _ (List.getElem_mem hjn)).2
    have hrow : A.toCollate.chunks.getD j [] = A.row A.names[j] := by
      simp only [Aggregate.toCollate, List.getD_eq_getElem?_getD]
      rw [List.getElem?_append_left (by simpa using hjn), List.getElem?_map,
        List.getElem?_eq_getElem hjn]
      rfl
    rw [hname, hrow, row_getD _ _ _ hk, hp]
    simp only [Aggregate.empty, Bool.false_or, List.any_eq_true, Bool.and_eq_true,
      Bool.or_eq_true, decide_eq_true_eq]
    constructor
    · rintro ⟨ci, hci, e, hid⟩
      obtain ⟨r, hr, hci2⟩ := List.mem_flatMap.mp hci
      exact ⟨r, hr, ci, hci2, e.symm, hid⟩
    · rintro ⟨r, hr, ci, hci, e, hid⟩
      exact ⟨ci, List.mem_flatMap.mpr ⟨r, hr, hci⟩, e.symm, hid⟩

/-- Witness for C14: the two reports of `twoReports` meet the hypotheses, so their
aggregation lists "a" then "b" with the union of the reported piece ids. -/
theorem aggregation_is_union_of_reports_witness :
    (∀ r ∈ twoReports, r.chunks = (r.chunk_info.length : Int)) ∧
    (∀ r ∈ twoReports, ∀ ci ∈ r.chunk_info, ci.Reportable) ∧
    ((twoReports.flatMap (fun r => r.chunk_info)).map
      (fun ci => ci.file_name)).toFinset.card ≤ MAX_NUM_FILES ∧
    ∃ c : ServerChunksCollate,
      twoReports.foldlM insertToServerChunksCollate ServerChunksCollate.new = some c ∧
      (c.file_names.take c.num_files).map cString =
        firstReports ((twoReports.flatMap (fun r => r.chunk_info)).map
          (fun ci => ci.file_name)) ∧
      ((c.file_names.take c.num_files).map cString).Nodup ∧
      (∀ n, n ∈ (c.file_names.take c.num_files).map cString ↔
        ∃ r ∈ twoReports, ∃ ci ∈ r.chunk_info, ci.file_name = n) ∧
      (∀ j k, j < c.num_files → k < 4 →
        ((c.chunks.getD j []).getD k false = true ↔
          ∃ r ∈ twoReports, ∃ ci ∈ r.chunk_info,
            ci.file_name = cString (c.file_names.getD j []) ∧
            (ci.chunks.1 = (k : Int) + 1 ∨ ci.chunks.2 = (k : Int) + 1))) :=
  ⟨by decide, by decide, by decide,
    aggregation_is_union_of_reports twoReports (by decide) (by decide) (by decide)⟩

/-- Aggregating `twoReports` yields two entries, "a" with pieces 1, 2, 3 and "b" with
pieces 3, 4. -/
theorem twoReports_aggregate :
    (twoReports.foldlM insertToServerChunksCollate ServerChunksCollate.new).map
      (fun c => (c.num_files, (c.file_names.take c.num_files).map cString,
        c.chunks.take c.num_files)) =
      some (2, [[97], [98]], [[true, true, true, false], [false, false, true, true]]) := by
  rfl

/-! ## Placement depends on two bits -/

theorem md5DigestMod_eq_last (digest : List Nat) :
    md5DigestMod digest = digest.getD 15 0 % 4 := by
  unfold md5DigestMod MD5_DIGEST_LENGTH NUM_SERVER
  rw [List.range_succ, List.foldl_append]
  simp only [List.foldl_cons, List.foldl_nil]
  omega

/-- C27. Only two bits of the hash decide placement: for every digest `d` the value
the reduction loop of `getMd5SumHashMod` returns is `d[15] mod 4`, which is also what
`getMd5SumHashMod` returns for a readable file, so two digests that agree in the two
low bits of the last byte give the same placement row. -/
theorem placement_row_is_last_digest_byte_mod_four (d other : List Nat) :
    md5DigestMod d = d.getD 15 0 % 4 ∧
      (∀ (md5 : List Nat → List Nat) (file : List Nat), md5 file = d →
        getMd5SumHashMod md5 (some file) = ((d.getD 15 0 % 4 : Nat) : Int)) ∧
      (d.getD 15 0 % 4 = other.getD 15 0 % 4 → md5DigestMod d = md5DigestMod other) := by
  refine ⟨md5DigestMod_eq_last d, ?_, ?_⟩
  · intro md5 file h
    simp [getMd5SumHashMod, h, md5DigestMod_eq_last]
  · intro h
    rw [md5DigestMod_eq_last, md5DigestMod_eq_last, h]

/-- C27, instance: the digest of "hello" ends in `0x92`, a digest of zeros ending in `0x02`
agrees with it in the two low bits, and both give row 2. -/
theorem placement_row_is_last_digest_byte_mod_four_witness :
    md5DigestMod helloDigest = 2 ∧
      md5DigestMod helloDigest = md5DigestMod (List.replicate 15 0 ++ [2]) :=
  ⟨(placement_row_is_last_digest_byte_mod_four helloDigest (List.replicate 15 0 ++ [2])).1.trans
      (by decide),
    (placement_row_is_last_digest_byte_mod_four helloDigest (List.replicate 15 0 ++ [2])).2.2
      (by decide)⟩

/-! ## Path splitting -/

theorem rfind_eq_none (l : List Nat) (c : Nat) : rfind l c = none ↔ c ∉ l := by
  induction l with
  | nil => simp [rfind]
  | cons b bs ih =>
    unfold rfind
    cases h : rfind bs c with
    | none =>
      have hc : c ∉ bs := ih.mp h
      by_cases hb : b = c
      · simp [hb]
      · simp [hb, hc, Ne.symm hb]
    | some i =>
      have hc : ¬ c ∉ bs := fun hn => by rw [ih.mpr hn] at h; cases h
      simp only [not_not] at hc
      simp [hc]

theorem rfind_eq_some (l : List Nat) (c i : Nat) (h : rfind l c = some i) :
    l = l.take i ++ c :: l.drop (i + 1) ∧ c ∉ l.drop (i + 1) ∧ i < l.length := by
  induction l generalizing i with
  | nil => simp [rfind] at h
  | cons b bs ih =>
    unfold rfind at h
    cases hr : rfind bs c with
    | none =>
      rw [hr] at h
      have hc : c ∉ bs := (rfind_eq_none bs c).mp hr
      by_cases hb : b = c
      · simp only [hb, if_true, Option.some.injEq] at h
        subst h
        simp [hb, hc]
      · simp [hb] at h
    | some k =>
      rw [hr] at h
      simp only [Option.some.injEq] at h
      subst h
      obtain ⟨h1, h2, h3⟩ := ih k hr
      refine ⟨?_, ?_, ?_⟩
      · simp only [List.take_succ_cons, List.drop_succ_cons, List.cons_append]
        rw [← h1]
      · simpa using h2
      · simpa using h3

/-- The result of `Utils::getFileNameFromPath` and the part of the path before it:
together they are the path, the name holds no `'/'`, and the part before it is empty or
ends with `'/'`; when the name is empty and the path holds a `'/'`, the path ends with it. -/
theorem getFileNameFromPath_split (p : List Nat) :
    p.take (p.length - (getFileNameFromPath p).length) ++ getFileNameFromPath p = p ∧
      47 ∉ getFileNameFromPath p ∧
      (getFileNameFromPath p ≠ [] →
        (p.take (p.length - (getFileNameFromPath p).length)).getLast? = some 47) ∧
      (getFileNameFromPath p = [] → 47 ∈ p → p.getLast? = some 47) := by
  unfold getFileNameFromPath
  cases h : rfind p 47 with
  | none =>
    have hn := (rfind_eq_none p 47).mp h
    simp [hn]
  | some pos =>
    obtain ⟨h1, h2, h3⟩ := rfind_eq_some p 47 pos h
    by_cases hp : pos + 1 = p.length
    · simp only [hp, if_true, List.length_nil, Nat.sub_zero, List.take_length, List.append_nil,
        List.not_mem_nil, not_false_eq_true, ne_eq, not_true_eq_false, false_implies, true_and,
        implies_true, true_and]
      intro _
      have hd : p.drop (pos + 1) = [] := by rw [hp]; simp
      rw [hd] at h1
      rw [h1]
      simp
    · simp only [hp, if_false]
      have hlen : p.length - (p.drop (pos + 1)).length = pos + 1 := by
        rw [List.length_drop]; omega
      rw [hlen]
      refine ⟨List.take_append_drop _ _, h2, ?_, ?_⟩
      · intro _
        rw [List.take_succ, List.getLast?_append]
        have : p[pos]? = some 47 := by
          rw [h1, List.getElem?_append_right (by simp [List.length_take])]
          simp [List.length_take, Nat.min_eq_left (Nat.le_of_lt h3)]
        simp [this]
      · intro he
        exfalso
        have : (p.drop (pos + 1)).length = 0 := by rw [he]; rfl
        rw [List.length_drop] at this
        omega

/-- C25. Path splitting: for every path `p`, `extractFileNameAndFolder` applied to `p`
with initially empty fields (remote or local extraction) yields a folder and a basename
such that the folder followed by the basename is exactly `p`, the basename contains no
`'/'`, and the folder is either empty or ends with `'/'`. -/
theorem extractFileNameAndFolder_splits_path (p : List Nat) :
    ((extractFileNameAndFolder p FileAttribute.new EXTRACT_REMOTE).remote_file_folder ++
        (extractFileNameAndFolder p FileAttribute.new EXTRACT_REMOTE).remote_file_name = p ∧
      47 ∉ (extractFileNameAndFolder p FileAttribute.new EXTRACT_REMOTE).remote_file_name ∧
      ((extractFileNameAndFolder p FileAttribute.new EXTRACT_REMOTE).remote_file_folder = [] ∨
        (extractFileNameAndFolder p FileAttribute.new EXTRACT_REMOTE).remote_file_folder.getLast?
          = some 47)) ∧
    ((extractFileNameAndFolder p FileAttribute.new EXTRACT_LOCAL).local_file_folder ++
        (extractFileNameAndFolder p FileAttribute.new EXTRACT_LOCAL).local_file_name = p ∧
      47 ∉ (extractFileNameAndFolder p FileAttribute.new EXTRACT_LOCAL).local_file_name ∧
      ((extractFileNameAndFolder p FileAttribute.new EXTRACT_LOCAL).local_file_folder = [] ∨
        (extractFileNameAndFolder p FileAttribute.new EXTRACT_LOCAL).local_file_folder.getLast?
          = some 47)) := by
  obtain ⟨h1, h2, h3, h4⟩ := getFileNameFromPath_split p
  have hremote : EXTRACT_REMOTE ≠ EXTRACT_LOCAL := by decide
  unfold extractFileNameAndFolder
  simp only [hremote, if_false, if_true, FileAttribute.new, ROOT_FOLDER_STR]
  by_cases he : getFileNameFromPath p = []
  · by_cases hs : 47 ∈ p
    · simp [he, hs, h4 he hs]
    · simp [he, hs]
  · have hne : (getFileNameFromPath p).isEmpty = false := by
      cases hg : getFileNameFromPath p with
      | nil => exact absurd hg he
      | cons _ _ => rfl
    simp only [hne, Bool.not_false, if_true]
    exact ⟨⟨h1, h2, Or.inr (h3 he)⟩, h1, h2, Or.inr (h3 he)⟩

/-! ## Placement lookups stay inside the table -/

theorem filePiecesMapping_in_range (mod i j : Nat) (hmod : mod < 4) (hi : i < 4)
    (hj : j < 2) : ∃ p : Int, filePiecesMapping mod i j = some p ∧ 1 ≤ p ∧ p ≤ 4 := by
  interval_cases mod <;> interval_cases i <;> interval_cases j <;>
    exact ⟨_, rfl, by decide, by decide⟩

theorem filePiecesMapping_pair_distinct (mod i : Nat) (hmod : mod < 4) (hi : i < 4) :
    ∃ a b : Int, filePiecesMapping mod i 0 = some a ∧ filePiecesMapping mod i 1 = some b ∧
      1 ≤ a ∧ a ≤ 4 ∧ 1 ≤ b ∧ b ≤ 4 ∧ a ≠ b := by
  interval_cases mod <;> interval_cases i <;>
    exact ⟨_, _, rfl, rfl, by decide, by decide, by decide, by decide, by decide⟩

theorem splitsAt_in_range (splits : List (Option Split)) (p : Int)
    (hlen : splits.length = NUM_SERVER) (h1 : 1 ≤ p) (h4 : p ≤ 4) :
    ∃ sp, splitsAt splits (p - 1) = some sp := by
  unfold splitsAt
  rw [if_pos (by omega), List.get?_eq_getElem?]
  have hlt : (p - 1).toNat < splits.length := by
    rw [hlen]; simp only [NUM_SERVER]; omega
  exact ⟨_, List.getElem?_eq_getElem hlt⟩

theorem decodeIntFromUchar_of_length (le : Bool) (l : List Nat) (h : 4 ≤ l.length) :
    ∃ n, decodeIntFromUchar le l = some n := by
  match l, h with
  | b0 :: b1 :: b2 :: b3 :: _, _ => exact ⟨_, rfl⟩

theorem writeSplitFromSocketAsStream_ne_outOfBounds (le : Bool) (sock : List Nat) (old : Split) :
    writeSplitFromSocketAsStream le sock old ≠ .error .outOfBounds := by
  unfold writeSplitFromSocketAsStream recvFromSocket
  by_cases h9 : 9 ≤ sock.length
  · simp only [h9, if_true]
    obtain ⟨id, hid⟩ := decodeIntFromUchar_of_length le (List.take 4 (List.drop 1 (List.take 9 sock)))
      (by simp [List.length_take, List.length_drop]; omega)
    obtain ⟨len, hlen⟩ := decodeIntFromUchar_of_length le
      (List.take 4 (List.drop 5 (List.take 9 sock)))
      (by simp [List.length_take, List.length_drop]; omega)
    simp only [hid, hlen]
    split_ifs <;> try simp
  · simp [h9]

theorem dfsServePiece_ok (le le2 : Bool) (dir : PieceDir) (id : Int) :
    ∃ frame, dfsServePiece le2 dir (sendIntValueSocket le id) = .ok frame := by
  unfold dfsServePiece
  have hr : recvFromSocket (sendIntValueSocket le id) INT_SIZE
      = .ok (encodeIntBytes le id, []) := by
    rw [sendIntValueSocket_eq]
    simp [recvFromSocket, INT_SIZE, encodeIntBytes]
  rw [hr]
  obtain ⟨n, hn⟩ := decodeIntFromUchar_of_length le2 (encodeIntBytes le id) (by simp [encodeIntBytes])
  simp only [hn]
  exact ⟨_, rfl⟩

theorem fetchRemoteSplits_step_ne_outOfBounds (le : Bool) (host : DfsHost) (mod i j : Nat)
    (splits : List (Option Split)) (hmod : mod < 4) (hi : i < 4) (hj : j < 2)
    (hs : ∃ s0 s1 s2 s3 : Split, splits = [some s0, some s1, some s2, some s3]) :
    fetchRemoteSplits.step le host mod i splits j ≠ .error .outOfBounds := by
  obtain ⟨p, hp, h1, h4⟩ := filePiecesMapping_in_range mod i j hmod hi hj
  obtain ⟨old, hold⟩ := splitsAt_allSome splits p hs h1 h4
  obtain ⟨frame, hframe⟩ := dfsServePiece_ok le host.littleEndian host.dir p
  unfold fetchRemoteSplits.step
  simp only [hp, hold, hframe, h1, h4, ge_iff_le, and_self, if_true]
  have hne := writeSplitFromSocketAsStream_ne_outOfBounds le frame old
  cases hw : writeSplitFromSocketAsStream le frame old with
  | error e =>
    rw [hw] at hne
    simpa using hne
  | ok r => simp

theorem matchLoop_in_range (i : Nat) (hi : i < 4) (chunks0 chunks1 : Int) :
    ∃ mod : Int, fetchRemoteFileInfo.matchLoop i chunks0 chunks1 4 0 = some mod := by
  interval_cases i <;>
  · simp only [fetchRemoteFileInfo.matchLoop, filePiecesMapping, filePiecesMappingTable,
      List.get?_cons_zero, List.get?_cons_succ]
    split_ifs <;> exact ⟨_, rfl⟩

theorem sendFileSplits_in_range (le : Bool) (fileSplit : FileSplit) (mod i : Nat)
    (hmod : mod < 4) (hi : i < 4) (hlen : fileSplit.splits.length = NUM_SERVER) :
    ∃ out, sendFileSplits le fileSplit mod i = some out := by
  obtain ⟨a, b, ha, hb, a1, a4, b1, b4, _⟩ := filePiecesMapping_pair_distinct mod i hmod hi
  obtain ⟨sa, hsa⟩ := splitsAt_in_range fileSplit.splits a hlen a1 a4
  obtain ⟨sb, hsb⟩ := splitsAt_in_range fileSplit.splits b hlen b1 b4
  unfold sendFileSplits
  have r2 : List.range CHUNKS_PER_SERVER = [0, 1] := by decide
  rw [r2]
  simp only [List.foldlM_cons, List.foldlM_nil, ha, hb, hsa, hsb]
  cases sa <;> cases sb <;> exact ⟨_, rfl⟩

/-- C29. Placement lookups stay in range for four servers: for every connection count
of at most 4, every server index `i` below it and every `mod` in 0..3, each access
`filePiecesMapping[mod][i][j]` with `j < CHUNKS_PER_SERVER` is inside the table and
yields a piece id `p` with `p - 1` in 0..3, an index inside `fileSplit.splits`; hence
`sendFileSplits` and the matching loop of `fetchRemoteFileInfo` (rows 0..3 of column
`i`) make no access outside the table, and no step of `fetchRemoteSplits` fails with an
out-of-range access. -/
theorem placement_lookups_stay_in_range (connCount mod i : Nat) (hconn : connCount ≤ 4)
    (hmod : mod < 4) (hi : i < connCount) :
    (∀ j, j < CHUNKS_PER_SERVER →
      ∃ filePiece : Int, filePiecesMapping mod i j = some filePiece ∧
        0 ≤ filePiece - 1 ∧ filePiece - 1 ≤ 3 ∧
        ∀ splits : List (Option Split), splits.length = NUM_SERVER →
          ∃ sp, splitsAt splits (filePiece - 1) = some sp) ∧
    (∀ (littleEndian : Bool) (fileSplit : FileSplit), fileSplit.splits.length = NUM_SERVER →
      ∃ out, sendFileSplits littleEndian fileSplit mod i = some out) ∧
    (∀ chunks0 chunks1 : Int,
      ∃ m : Int, fetchRemoteFileInfo.matchLoop i chunks0 chunks1 4 0 = some m) ∧
    (∀ (littleEndian : Bool) (host : DfsHost) (j : Nat) (s0 s1 s2 s3 : Split),
      j < CHUNKS_PER_SERVER →
      fetchRemoteSplits.step littleEndian host mod i [some s0, some s1, some s2, some s3] j
        ≠ .error .outOfBounds) := by
  have hi4 : i < 4 := by omega
  refine ⟨?_, ?_, ?_, ?_⟩
  · intro j hj
    obtain ⟨p, hp, h1, h4⟩ := filePiecesMapping_in_range mod i j hmod hi4 hj
    exact ⟨p, hp, by omega, by omega, fun splits hlen => splitsAt_in_range splits p hlen h1 h4⟩
  · intro le fileSplit hlen
    exact sendFileSplits_in_range le fileSplit mod i hmod hi4 hlen
  · intro c0 c1
    exact matchLoop_in_range i hi4 c0 c1
  · intro le host j s0 s1 s2 s3 hj
    exact fetchRemoteSplits_step_ne_outOfBounds le host mod i j _ hmod hi4 hj ⟨s0, s1, s2, s3, rfl⟩

/-- C29, instance: four connections, `mod = 3`, server 3; the two lookups give pieces 1
and 2. -/
theorem placement_lookups_stay_in_range_witness :
    (4 ≤ 4 ∧ 3 < 4 ∧ 3 < 4) ∧
    (∀ j, j < CHUNKS_PER_SERVER →
      ∃ filePiece : Int, filePiecesMapping 3 3 j = some filePiece ∧
        0 ≤ filePiece - 1 ∧ filePiece - 1 ≤ 3 ∧
        ∀ splits : List (Option Split), splits.length = NUM_SERVER →
          ∃ sp, splitsAt splits (filePiece - 1) = some sp) ∧
    filePiecesMapping 3 3 0 = some 1 ∧ filePiecesMapping 3 3 1 = some 2 :=
  ⟨by decide,
    (placement_lookups_stay_in_range 4 3 3 (by decide) (by decide) (by decide)).1,
    by decide, by decide⟩

/-! ## Download: the last reply for a piece is the one kept -/

theorem servedSplit_fields (host : DfsHost) (k : Int) :
    (servedSplit host k).id = k ∧
      (servedSplit host k).content_length = (servedSplit host k).content.length ∧
      (servedSplit host k).content = (host.dir k).getD [] := by
  unfold servedSplit readIntoSplitFromFile
  cases host.dir k <;> simp [Split.new]

theorem fetch_step_served (le : Bool) (host : DfsHost) (mod i j : Nat)
    (splits : List (Option Split)) (id : Int) (old : Split)
    (hM : filePiecesMapping mod i j = some id) (hid : 1 ≤ id ∧ id ≤ 4)
    (hold : splitsAt splits (id - 1) = some (some old))
    (hle : host.littleEndian = le)
    (hsize : ∀ c, host.dir id = some c → c.length ≤ MAX_SEG_SIZE) :
    fetchRemoteSplits.step le host mod i splits j =
      .ok (splits.set (id - 1).toNat (some (servedSplit host id))) := by
  obtain ⟨f1, f2, f3⟩ := servedSplit_fields host id
  have h512 : (servedSplit host id).content.length ≤ 512 := by
    rw [f3]
    cases hd : host.dir id with
    | none => simp
    | some c => simpa [MAX_SEG_SIZE] using hsize c hd
  unfold fetchRemoteSplits.step
  simp only [hM, hold, hle]
  rw [dfsServePiece_eq le host.dir id (by omega) (by omega)]
  have h := frame_roundtrip le (servedSplit host id) [] old f2 h512
    (by rw [f1]; omega) (by rw [f1]; omega)
  rw [List.append_nil] at h
  have hs : readIntoSplitFromFile (host.dir id) { id := id, content := [], content_length := 0 }
      = servedSplit host id := rfl
  rw [hs]
  simp only [h]
  simp [hid.1, hid.2]

theorem fetch_round_served (le : Bool) (host : DfsHost) (mod i : Nat)
    (splits : List (Option Split)) (a b : Int)
    (hMa : filePiecesMapping mod i 0 = some a) (hMb : filePiecesMapping mod i 1 = some b)
    (ha : 1 ≤ a ∧ a ≤ 4) (hb : 1 ≤ b ∧ b ≤ 4)
    (hs : ∃ s0 s1 s2 s3 : Split, splits = [some s0, some s1, some s2, some s3])
    (hle : host.littleEndian = le)
    (hsize : ∀ id c, host.dir id = some c → c.length ≤ MAX_SEG_SIZE) :
    (List.range CHUNKS_PER_SERVER).foldlM (fetchRemoteSplits.step le host mod i) splits =
      .ok ((splits.set (a - 1).toNat (some (servedSplit host a))).set (b - 1).toNat
        (some (servedSplit host b))) := by
  have r2 : List.range CHUNKS_PER_SERVER = [0, 1] := by decide
  obtain ⟨olda, holda⟩ := splitsAt_allSome splits a hs ha.1 ha.2
  obtain ⟨oldb, holdb⟩ := splitsAt_allSome _ b
    (set_allSome splits a (servedSplit host a) hs ha.1 ha.2) hb.1 hb.2
  have e1 := fetch_step_served le host mod i 0 splits a olda hMa ha holda hle (hsize a)
  have e2 := fetch_step_served le host mod i 1 _ b oldb hMb hb holdb hle (hsize b)
  rw [r2, List.foldlM_cons, e1]
  simp only [bind, Except.bind]
  rw [List.foldlM_cons, e2]
  rfl

theorem splitsAt_set (splits : List (Option Split)) (a k : Int) (v : Option Split)
    (ha : 1 ≤ a) (hk : 1 ≤ k) :
    splitsAt (splits.set (a - 1).toNat v) (k - 1) =
      if a = k then (if (a - 1).toNat < splits.length then some v else none)
      else splitsAt splits (k - 1) := by
  have hk0 : (0 : Int) ≤ k - 1 := by omega
  unfold splitsAt
  simp only [hk0, if_true, List.get?_eq_getElem?, List.getElem?_set]
  by_cases hak : a = k
  · subst hak
    simp
  · have hne : (a - 1).toNat ≠ (k - 1).toNat := by omega
    rw [if_neg hne, if_neg hak]

theorem fetchRemoteSplits_eq_server (le : Bool) (connFds : List (Option DfsHost))
    (connCount : Nat) (fileSplit : FileSplit) (mod : Nat) :
    fetchRemoteSplits le connFds connCount fileSplit mod =
      match (List.range connCount).foldlM (fetchRemoteSplits.server le connFds mod)
          ((List.range 4).foldl (fun sp i => sp.set i (some Split.new)) fileSplit.splits) with
      | .error e => .error e
      | .ok splits => .ok { fileSplit with split_count := 4, splits := splits } := rfl

theorem fetch_upto (le : Bool) (mod bound : Nat) (connFds : List (Option DfsHost))
    (hmod : mod < 4)
    (hhosts : ∀ s host, s < bound → connFds.get? s = some (some host) →
      host.littleEndian = le ∧ ∀ id c, host.dir id = some c → c.length ≤ MAX_SEG_SIZE)
    (init : List (Option Split))
    (hinit : ∃ s0 s1 s2 s3 : Split, init = [some s0, some s1, some s2, some s3]) :
    ∀ n, n ≤ bound → n ≤ connFds.length → n ≤ 4 →
      ∃ splits, (List.range n).foldlM (fetchRemoteSplits.server le connFds mod) init
          = .ok splits ∧
        (∃ s0 s1 s2 s3 : Split, splits = [some s0, some s1, some s2, some s3]) ∧
        ∀ (k : Int) (s : Nat) (host : DfsHost), 1 ≤ k → k ≤ 4 → s < n →
          connFds.get? s = some (some host) →
          (filePiecesMapping mod s 0 = some k ∨ filePiecesMapping mod s 1 = some k) →
          (∀ t host2, s < t → t < n → connFds.get? t = some (some host2) →
            filePiecesMapping mod t 0 ≠ some k ∧ filePiecesMapping mod t 1 ≠ some k) →
          splitsAt splits (k - 1) = some (some (servedSplit host k)) := by
  intro n
  induction n with
  | zero =>
    intro _ _ _
    exact ⟨init, rfl, hinit, fun k s host _ _ hs => absurd hs (Nat.not_lt_zero s)⟩
  | succ n ih =>
    intro hbound hlen h4
    obtain ⟨splits, hrun, hall, hinv⟩ := ih (by omega) (by omega) (by omega)
    have hrange : (List.range (n + 1)).foldlM (fetchRemoteSplits.server le connFds mod) init =
        fetchRemoteSplits.server le connFds mod splits n := by
      rw [List.range_succ, List.foldlM_append, hrun]
      simp only [bind, Except.bind, List.foldlM_cons, List.foldlM_nil]
      cases fetchRemoteSplits.server le connFds mod splits n <;> rfl
    rw [hrange]
    have hn : n < connFds.length := by omega
    cases hx : connFds.get? n with
    | none =>
      rw [List.get?_eq_getElem?, List.getElem?_eq_getElem hn] at hx
      cases hx
    | some x =>
      cases x with
      | none =>
        refine ⟨splits, by simp only [fetchRemoteSplits.server, hx], hall, ?_⟩
        intro k s host k1 k4 hs hconn hholds hlast
        have hsn : s ≠ n := by
          intro e
          rw [e, hx] at hconn
          cases hconn
        exact hinv k s host k1 k4 (by omega) hconn hholds
          (fun t host2 hst htn => hlast t host2 hst (by omega))
      | some hostn =>
        obtain ⟨a, b, hMa, hMb, a1, a4, b1, b4, hab⟩ :=
          filePiecesMapping_pair_distinct mod n hmod (by omega)
        obtain ⟨hle, hsize⟩ := hhosts n hostn (by omega) hx
        have hround := fetch_round_served le hostn mod n splits a b hMa hMb ⟨a1, a4⟩ ⟨b1, b4⟩
          hall hle hsize
        have hall1 := set_allSome splits a (servedSplit hostn a) hall a1 a4
        have hall2 := set_allSome _ b (servedSplit hostn b) hall1 b1 b4
        refine ⟨_, by simp only [fetchRemoteSplits.server, hx]; exact hround, hall2, ?_⟩
        intro k s host k1 k4 hs hconn hholds hlast
        have hlen1 : (a - 1).toNat < splits.length := by
          obtain ⟨s0, s1, s2, s3, rfl⟩ := hall
          simp only [List.length_cons, List.length_nil]; omega
        have hlen2 : (b - 1).toNat <
            (splits.set (a - 1).toNat (some (servedSplit hostn a))).length := by
          rw [List.length_set]
          obtain ⟨s0, s1, s2, s3, rfl⟩ := hall
          simp only [List.length_cons, List.length_nil]; omega
        rw [splitsAt_set _ b k _ b1 k1, splitsAt_set _ a k _ a1 k1]
        by_cases hsn : s = n
        · subst hsn
          rw [hx] at hconn
          simp only [Option.some.injEq] at hconn
          subst hconn
          rcases hholds with h | h
          · rw [hMa] at h
            simp only [Option.some.injEq] at h
            subst h
            rw [if_neg (Ne.symm hab), if_pos rfl, if_pos hlen1]
          · rw [hMb] at h
            simp only [Option.some.injEq] at h
            subst h
            rw [if_pos rfl, if_pos hlen2]
        · have hlt : s < n := by omega
          obtain ⟨na, nb⟩ := hlast n hostn hlt (by omega) hx
          have hak : a ≠ k := fun e => na (by rw [hMa, e])
          have hbk : b ≠ k := fun e => nb (by rw [hMb, e])
          rw [if_neg hbk, if_neg hak]
          exact hinv k s host k1 k4 hlt hconn hholds
            (fun t host2 hst htn => hlast t host2 hst (by omega))

/-- C26. Last reply wins in GET: for every `mod` in 0..3, every set of connected servers
(of the client's byte order, with piece files of at most `MAX_SEG_SIZE` bytes, so that
every frame is accepted) and every piece id `k` in 1..4, `fetchRemoteSplits` returns, and
the split finally stored in `fileSplit.splits[k-1]` is the one read from the frame of the
highest-indexed connected server `s` with `k` in `filePiecesMapping[mod][s]`: that
server's frame is read into the same split whatever the split held before, and when the
server has no file for `k` its length-0 frame leaves an empty split there. -/
theorem last_reply_wins_in_get (littleEndian : Bool) (mod connCount : Nat)
    (connFds : List (Option DfsHost)) (fileSplit : FileSplit)
    (hmod : mod < 4) (hconn : connCount ≤ connFds.length) (hfour : connCount ≤ 4)
    (hsplits : fileSplit.splits.length = NUM_SERVER)
    (hhosts : ∀ s host, s < connCount → connFds.get? s = some (some host) →
      host.littleEndian = littleEndian ∧
        ∀ id c, host.dir id = some c → c.length ≤ MAX_SEG_SIZE) :
    ∃ result, fetchRemoteSplits littleEndian connFds connCount fileSplit mod = .ok result ∧
      ∀ (k : Int) (s : Nat) (host : DfsHost), 1 ≤ k → k ≤ 4 → s < connCount →
        connFds.get? s = some (some host) →
        (filePiecesMapping mod s 0 = some k ∨ filePiecesMapping mod s 1 = some k) →
        (∀ t host2, s < t → t < connCount → connFds.get? t = some (some host2) →
          filePiecesMapping mod t 0 ≠ some k ∧ filePiecesMapping mod t 1 ≠ some k) →
        splitsAt result.splits (k - 1) = some (some (servedSplit host k)) ∧
        dfsServePiece host.littleEndian host.dir (sendIntValueSocket littleEndian k) =
          .ok (writeSplitToSocketAsStream littleEndian (servedSplit host k)) ∧
        (∀ old : Split,
          writeSplitFromSocketAsStream littleEndian
            (writeSplitToSocketAsStream littleEndian (servedSplit host k)) old =
            .ok (servedSplit host k, [])) ∧
        (host.dir k = none →
          servedSplit host k = { id := k, content := [], content_length := 0 }) := by
  have hinit := fetch_init fileSplit hsplits
  obtain ⟨splits, hrun, _, hinv⟩ := fetch_upto littleEndian mod connCount connFds hmod hhosts
    _ ⟨_, _, _, _, hinit⟩ connCount (le_refl _) hconn hfour
  refine ⟨{ fileSplit with split_count := 4, splits := splits }, ?_, ?_⟩
  · rw [fetchRemoteSplits_eq_server, hrun]
  · intro k s host k1 k4 hs hget hholds hlast
    obtain ⟨hle, hsize⟩ := hhosts s host hs hget
    obtain ⟨f1, f2, f3⟩ := servedSplit_fields host k
    refine ⟨hinv k s host k1 k4 hs hget hholds hlast, ?_, ?_, ?_⟩
    · rw [hle]
      exact dfsServePiece_eq littleEndian host.dir k (by omega) (by omega)
    · intro old
      have h512 : (servedSplit host k).content.length ≤ 512 := by
        rw [f3]
        cases hd : host.dir k with
        | none => simp
        | some c => simpa [MAX_SEG_SIZE] using hsize k c hd
      have h := frame_roundtrip littleEndian (servedSplit host k) [] old f2 h512
        (by rw [f1]; omega) (by rw [f1]; omega)
      rw [List.append_nil] at h
      exact h
    · intro hnone
      simp [servedSplit, readIntoSplitFromFile, hnone, Split.new]

/-- C26, instance: `mod = 0`, server 0 holds pieces 1 and 2, server 1 (assigned pieces 2
and 3) holds no file; the empty frame of server 1 replaces the two bytes that server 0
sent for piece 2. -/
theorem last_reply_wins_in_get_witness :
    (hostWithPieces12.dir 2 = some [7, 7] ∧ hostWithoutPieces.dir 2 = none) ∧
    ∃ result,
      fetchRemoteSplits true [some hostWithPieces12, some hostWithoutPieces] 2 FileSplit.new 0
        = .ok result ∧
      splitsAt result.splits (2 - 1) = some (some { id := 2, content := [], content_length := 0 }) := by
  refine ⟨⟨rfl, rfl⟩, ?_⟩
  obtain ⟨result, hrun, hlast⟩ := last_reply_wins_in_get true 0 2
    [some hostWithPieces12, some hostWithoutPieces] FileSplit.new (by decide) (by decide)
    (by decide) (by decide)
    (by
      intro s host hs hget
      interval_cases s
      · simp only [List.get?_cons_zero, Option.some.injEq] at hget
        subst hget
        refine ⟨rfl, ?_⟩
        intro id c hc
        simp only [hostWithPieces12] at hc
        split_ifs at hc <;> simp only [Option.some.injEq] at hc <;> subst hc <;> decide
      · simp only [List.get?_cons_succ, List.get?_cons_zero, Option.some.injEq] at hget
        subst hget
        refine ⟨rfl, ?_⟩
        intro id c hc
        simp [hostWithoutPieces] at hc)
  refine ⟨result, hrun, ?_⟩
  have h := hlast 2 1 hostWithoutPieces (by decide) (by decide) (by decide) rfl (Or.inl rfl)
    (fun t host2 h1 h2 => by omega)
  rw [h.1, h.2.2.2 rfl]

/-- The download scenario evaluated: piece 2 ends up empty, piece 1 keeps the byte of
server 0, piece 4 was never requested. -/
theorem fetch_two_hosts_eval :
    fetchRemoteSplits true [some hostWithPieces12, some hostWithoutPieces] 2 FileSplit.new 0
      = .ok { file_name := "", split_count := 4,
              splits := [some { id := 1, content := [5], content_length := 1 },
                         some { id := 2, content := [], content_length := 0 },
                         some { id := 3, content := [], content_length := 0 },
                         some Split.new] } := by
  rfl

/-! ## Codec of the chunk reports -/

set_option maxRecDepth 20000 in
/-- Decoding the buffer of a two-entry record gives the record back. -/
theorem decode_two_entries_eval :
    (encodeServerChunksInfoToBuffer false []
        { chunks := 2, chunk_info := [{ file_name := asciiBytes "a", chunks := (1, 2) },
                                      { file_name := asciiBytes "bc", chunks := (3, 4) }] }).bind
      (fun buffer => decodeServerChunksInfoFromBuffer false buffer ServerChunksInfo.new)
      = some { chunks := 2, chunk_info := [{ file_name := asciiBytes "a", chunks := (1, 2) },
                                           { file_name := asciiBytes "bc", chunks := (3, 4) }] } := by
  decide

theorem nameSlot_length (n : List Nat) (h : n.length ≤ MAX_CHAR_BUFF) :
    (nameSlot n).length = MAX_CHAR_BUFF := by
  simp only [nameSlot, List.length_append, List.length_replicate]
  omega

theorem chunkInfoBytes_length (le : Bool) (ci : ChunkInfo)
    (h : ci.file_name.length ≤ MAX_CHAR_BUFF) :
    (chunkInfoBytes le ci).length = CHUNK_INFO_STRUCT_SIZE := by
  simp only [chunkInfoBytes, List.length_append, nameSlot_length _ h, encodeIntBytes_length,
    List.length_replicate]
  decide

theorem strncpy_zero_buffer (name : List Nat) (n m : Nat) (h0 : 0 ∉ name) (hlen : name.length ≤ n) :
    strncpy (List.replicate (n + m) 0) name n =
      name ++ List.replicate (n - name.length) 0 ++ List.replicate m 0 := by
  unfold strncpy
  rw [cString_of_no_zero name h0, List.take_of_length_le hlen, List.drop_replicate]
  simp

theorem encodeChunkInfoToBuffer_eq (le : Bool) (ci : ChunkInfo) (h : ci.Encodable) :
    encodeChunkInfoToBuffer le (List.replicate CHUNK_INFO_STRUCT_SIZE 0) ci =
      some (chunkInfoBytes le ci) := by
  obtain ⟨hlen, h0, _⟩ := h
  simp only [MAX_CHAR_BUFF] at hlen
  unfold encodeChunkInfoToBuffer
  have hbuf : MAX_CHAR_BUFF ≤ (List.replicate CHUNK_INFO_STRUCT_SIZE 0).length := by
    rw [List.length_replicate]; decide
  rw [if_pos hbuf]
  have hsz : CHUNK_INFO_STRUCT_SIZE = MAX_CHAR_BUFF + 16 := by decide
  rw [hsz, strncpy_zero_buffer _ _ _ h0 (by simp only [MAX_CHAR_BUFF]; omega)]
  have r2 : List.range CHUNKS_PER_SERVER = [0, 1] := by decide
  have hns : (ci.file_name ++ List.replicate (MAX_CHAR_BUFF - ci.file_name.length) 0).length
      = 100 := by
    simp only [List.length_append, List.length_replicate, MAX_CHAR_BUFF]; omega
  rw [r2]
  simp only [List.foldlM_cons, List.foldlM_nil, encodeIntToUchar_fresh, ChunkInfo.chunkAt,
    if_true, one_ne_zero, if_false]
  have c1 : copyInto (ci.file_name ++ List.replicate (MAX_CHAR_BUFF - ci.file_name.length) 0 ++
        List.replicate 16 0) (MAX_CHAR_BUFF + 0 * INT_SIZE) (encodeIntBytes le ci.chunks.1) =
      some (ci.file_name ++ List.replicate (MAX_CHAR_BUFF - ci.file_name.length) 0 ++
        (encodeIntBytes le ci.chunks.1 ++ List.replicate 12 0)) := by
    unfold copyInto
    rw [if_pos (by
      simp only [List.length_append, hns, List.length_replicate, encodeIntBytes_length,
        MAX_CHAR_BUFF, INT_SIZE]; omega)]
    have e1 : MAX_CHAR_BUFF + 0 * INT_SIZE = 100 := by decide
    rw [e1, encodeIntBytes_length, List.take_left' hns, List.drop_append_eq_append_drop, hns,
      List.drop_of_length_le (by omega)]
    simp [List.drop_replicate]
  have c2 : copyInto (ci.file_name ++ List.replicate (MAX_CHAR_BUFF - ci.file_name.length) 0 ++
        (encodeIntBytes le ci.chunks.1 ++ List.replicate 12 0)) (MAX_CHAR_BUFF + 1 * INT_SIZE)
        (encodeIntBytes le ci.chunks.2) =
      some (chunkInfoBytes le ci) := by
    unfold copyInto
    rw [if_pos (by
      simp only [List.length_append, hns, List.length_replicate, encodeIntBytes_length,
        MAX_CHAR_BUFF, INT_SIZE]; omega)]
    have e1 : MAX_CHAR_BUFF + 1 * INT_SIZE = 100 + 4 := by decide
    have hns4 : (ci.file_name ++ List.replicate (MAX_CHAR_BUFF - ci.file_name.length) 0 ++
        encodeIntBytes le ci.chunks.1).length = 100 + 4 := by
      rw [List.length_append, hns, encodeIntBytes_length]
    rw [e1, encodeIntBytes_length, ← List.append_assoc, List.take_left' hns4,
      List.drop_append_eq_append_drop, hns4, List.drop_of_length_le (by omega)]
    simp [List.drop_replicate, chunkInfoBytes, nameSlot, CHUNK_INFO_STRUCT_SIZE, MAX_CHAR_BUFF,
      NUM_SERVER, INT_SIZE, CHUNKS_PER_SERVER]
  rw [c1]
  simp only [bind, Option.bind]
  rw [c2]
  rfl

theorem flatMap_length_const {α β : Type} (l : List α) (f : α → List β) (k : Nat)
    (hf : ∀ x ∈ l, (f x).length = k) : (l.flatMap f).length = l.length * k := by
  induction l with
  | nil => simp
  | cons x xs ih =>
    rw [List.flatMap_cons, List.length_append, hf x (List.mem_cons_self _ _),
      ih (fun y hy => hf y (List.mem_cons_of_mem _ hy)), List.length_cons]
    ring

theorem flatMap_take_succ {α β : Type} (l : List α) (f : α → List β) (n : Nat)
    (hn : n < l.length) :
    (l.take (n + 1)).flatMap f = (l.take n).flatMap f ++ f l[n] := by
  rw [List.take_succ, List.flatMap_append, List.getElem?_eq_getElem hn]
  simp

theorem flatMap_slice {α β : Type} (l : List α) (f : α → List β) (k : Nat)
    (hf : ∀ x ∈ l, (f x).length = k) (i : Nat) (hi : i < l.length) (rest : List β) :
    ((l.flatMap f ++ rest).take ((i + 1) * k)).drop (i * k) = f l[i] := by
  have hsplit : l = l.take i ++ l[i] :: l.drop (i + 1) := by
    rw [← List.drop_eq_getElem_cons hi, List.take_append_drop]
  have hA : ((l.take i).flatMap f).length = i * k := by
    rw [flatMap_length_const _ f k (fun x hx => hf x (List.mem_of_mem_take hx)),
      List.length_take, Nat.min_eq_left (Nat.le_of_lt hi)]
  have hx : (f l[i]).length = k := hf _ (List.getElem_mem hi)
  have hflat : l.flatMap f ++ rest =
      (l.take i).flatMap f ++ (f l[i] ++ ((l.drop (i + 1)).flatMap f ++ rest)) := by
    conv_lhs => rw [hsplit]
    rw [List.flatMap_append, List.flatMap_cons]
    simp only [List.append_assoc]
  rw [hflat, ← List.append_assoc, List.take_left' (by rw [List.length_append, hA, hx]; ring),
    List.drop_left' hA]

/-- The loop of `encodeServerChunksInfoToBuffer` after `n` entries. -/
theorem encode_upto (le : Bool) (infos : List ChunkInfo)
    (hvalid : ∀ ci ∈ infos, ci.Encodable) (buf : List Nat)
    (hbuf : buf.length = INT_SIZE + infos.length * CHUNK_INFO_STRUCT_SIZE) :
    ∀ n, n ≤ infos.length →
      (List.range n).foldlM
        (fun (buf : List Nat) i =>
          match infos.get? i with
          | none => none
          | some chunkInfo =>
            match encodeChunkInfoToBuffer le (List.replicate CHUNK_INFO_STRUCT_SIZE 0) chunkInfo with
            | none => none
            | some chunkBuffer => copyInto buf (INT_SIZE + i * CHUNK_INFO_STRUCT_SIZE) chunkBuffer)
        buf =
        some (buf.take INT_SIZE ++ ((infos.take n).flatMap (chunkInfoBytes le) ++
          buf.drop (INT_SIZE + n * CHUNK_INFO_STRUCT_SIZE))) := by
  have hlenc : ∀ ci ∈ infos, (chunkInfoBytes le ci).length = CHUNK_INFO_STRUCT_SIZE :=
    fun ci hci => chunkInfoBytes_length le ci (by
      have := (hvalid ci hci).1
      simp only [MAX_CHAR_BUFF] at this ⊢
      omega)
  intro n
  induction n with
  | zero =>
    intro _
    simp
  | succ n ih =>
    intro hn
    have hlt : n < infos.length := by omega
    rw [List.range_succ, List.foldlM_append, ih (by omega)]
    simp only [bind, Option.bind, List.foldlM_cons, List.foldlM_nil, List.get?_eq_getElem?,
      List.getElem?_eq_getElem hlt]
    rw [encodeChunkInfoToBuffer_eq le _ (hvalid _ (List.getElem_mem hlt))]
    simp only
    have hF : ((infos.take n).flatMap (chunkInfoBytes le)).length = n * CHUNK_INFO_STRUCT_SIZE := by
      rw [flatMap_length_const _ _ CHUNK_INFO_STRUCT_SIZE
        (fun x hx => hlenc x (List.mem_of_mem_take hx)), List.length_take,
        Nat.min_eq_left (Nat.le_of_lt hlt)]
    have hT : (buf.take INT_SIZE).length = INT_SIZE := by
      rw [List.length_take, hbuf]; omega
    have hpre : (buf.take INT_SIZE ++ (infos.take n).flatMap (chunkInfoBytes le)).length =
        INT_SIZE + n * CHUNK_INFO_STRUCT_SIZE := by
      rw [List.length_append, hT, hF]
    have hc := hlenc infos[n] (List.getElem_mem hlt)
    have hsz : 0 < CHUNK_INFO_STRUCT_SIZE := by decide
    have hmul : (n + 1) * CHUNK_INFO_STRUCT_SIZE ≤ infos.length * CHUNK_INFO_STRUCT_SIZE :=
      Nat.mul_le_mul_right _ hn
    have hsucc : (n + 1) * CHUNK_INFO_STRUCT_SIZE = n * CHUNK_INFO_STRUCT_SIZE +
        CHUNK_INFO_STRUCT_SIZE := by ring
    unfold copyInto
    rw [if_pos (by
      rw [hc, List.length_append, hT, List.length_append, hF, List.length_drop, hbuf]
      omega)]
    rw [← List.append_assoc, List.take_left' hpre, hc, List.drop_append_eq_append_drop, hpre,
      List.drop_of_length_le (by rw [hpre]; omega), List.nil_append, List.drop_drop,
      flatMap_take_succ _ _ _ hlt]
    have hidx : INT_SIZE + n * CHUNK_INFO_STRUCT_SIZE +
        (INT_SIZE + n * CHUNK_INFO_STRUCT_SIZE + CHUNK_INFO_STRUCT_SIZE -
          (INT_SIZE + n * CHUNK_INFO_STRUCT_SIZE)) =
        INT_SIZE + (n + 1) * CHUNK_INFO_STRUCT_SIZE := by omega
    rw [hidx]
    simp only [List.append_assoc]
    rfl

theorem vectorResize_length (buffer : List Nat) (n : Nat) : (vectorResize buffer n).length = n := by
  simp only [vectorResize, List.length_append, List.length_take, List.length_replicate]
  omega

/-- The buffer that `encodeServerChunksInfoToBuffer` writes: the count and the entries. -/
theorem encodeServerChunksInfoToBuffer_eq (le : Bool) (buffer : List Nat) (info : ServerChunksInfo)
    (hcount : info.chunks = (info.chunk_info.length : Int))
    (hvalid : ∀ ci ∈ info.chunk_info, ci.Encodable)
    (hsize : (INT_SIZE : Int) + info.chunks * (CHUNK_INFO_STRUCT_SIZE : Int) < 2 ^ 31) :
    encodeServerChunksInfoToBuffer le buffer info =
      some (encodeIntBytes le info.chunks ++ info.chunk_info.flatMap (chunkInfoBytes le)) := by
  unfold encodeServerChunksInfoToBuffer
  rw [if_neg (by omega), if_neg (by omega)]
  have hnat : info.chunks.toNat = info.chunk_info.length := by omega
  simp only [hnat]
  have hbuf : (encodeIntToUchar le
      (vectorResize buffer (INT_SIZE + info.chunk_info.length * CHUNK_INFO_STRUCT_SIZE))
      info.chunks).length = INT_SIZE + info.chunk_info.length * CHUNK_INFO_STRUCT_SIZE := by
    simp only [encodeIntToUchar, List.length_append, encodeIntBytes_length, List.length_drop,
      vectorResize_length, INT_SIZE]
    omega
  rw [encode_upto le info.chunk_info hvalid _ hbuf info.chunk_info.length (le_refl _)]
  rw [List.take_length, List.drop_of_length_le (by rw [hbuf]), List.append_nil]
  simp only [encodeIntToUchar]
  rw [List.take_left' (by simp [INT_SIZE, encodeIntBytes_length])]

theorem cString_append_zero (name rest : List Nat) (h0 : 0 ∉ name) :
    cString (name ++ 0 :: rest) = name := by
  unfold cString
  rw [List.takeWhile_append_of_pos]
  · simp
  · intro a ha
    simp only [ne_eq, decide_not, Bool.not_eq_true', decide_eq_false_iff_not]
    intro e
    exact h0 (e ▸ ha)

theorem nameSlot_eq_cons (name : List Nat) (hlen : name.length ≤ MAX_CHAR_BUFF - 1) :
    nameSlot name = name ++ 0 :: List.replicate (MAX_CHAR_BUFF - 1 - name.length) 0 := by
  unfold nameSlot
  have : MAX_CHAR_BUFF - name.length = (MAX_CHAR_BUFF - 1 - name.length) + 1 := by
    simp only [MAX_CHAR_BUFF] at hlen ⊢
    omega
  rw [this, List.replicate_succ]

/-- Decoding the bytes of one encoded `ChunkInfo` gives it back, whatever the entry held. -/
theorem decodeChunkInfoFromBuffer_eq (le : Bool) (ci old : ChunkInfo) (h : ci.Encodable) :
    decodeChunkInfoFromBuffer le (chunkInfoBytes le ci) old = some ci := by
  obtain ⟨hlen, h0, a1, a2, b1, b2⟩ := h
  have hns : (nameSlot ci.file_name).length = 100 :=
    nameSlot_length _ (by simp only [MAX_CHAR_BUFF] at hlen ⊢; omega)
  have hzero : 0 ∈ chunkInfoBytes le ci := by
    unfold chunkInfoBytes
    rw [nameSlot_eq_cons _ hlen]
    simp
  have hname : cString (chunkInfoBytes le ci) = ci.file_name := by
    unfold chunkInfoBytes
    rw [nameSlot_eq_cons _ hlen, List.append_assoc, List.cons_append]
    exact cString_append_zero _ _ h0
  have hlenb : (chunkInfoBytes le ci).length = 116 :=
    chunkInfoBytes_length le ci (by simp only [MAX_CHAR_BUFF] at hlen ⊢; omega)
  have r1 : vectorRange (chunkInfoBytes le ci) (MAX_CHAR_BUFF + 0 * INT_SIZE)
      (MAX_CHAR_BUFF + (0 + 1) * INT_SIZE) = some (encodeIntBytes le ci.chunks.1) := by
    unfold vectorRange
    rw [if_pos (by rw [hlenb]; decide)]
    have e1 : MAX_CHAR_BUFF + (0 + 1) * INT_SIZE = 100 + 4 := by decide
    have e0 : MAX_CHAR_BUFF + 0 * INT_SIZE = 100 := by decide
    rw [e1, e0]
    unfold chunkInfoBytes
    rw [← List.append_assoc, List.take_left' (by rw [List.length_append, hns, encodeIntBytes_length]),
      List.drop_left' hns]
  have r2 : vectorRange (chunkInfoBytes le ci) (MAX_CHAR_BUFF + 1 * INT_SIZE)
      (MAX_CHAR_BUFF + (1 + 1) * INT_SIZE) = some (encodeIntBytes le ci.chunks.2) := by
    unfold vectorRange
    rw [if_pos (by rw [hlenb]; decide)]
    have e1 : MAX_CHAR_BUFF + (1 + 1) * INT_SIZE = 100 + 4 + 4 := by decide
    have e0 : MAX_CHAR_BUFF + 1 * INT_SIZE = 100 + 4 := by decide
    rw [e1, e0]
    unfold chunkInfoBytes
    rw [← List.append_assoc, ← List.append_assoc,
      List.take_left' (by
        rw [List.length_append, List.length_append, hns, encodeIntBytes_length,
          encodeIntBytes_length]),
      List.drop_left' (by rw [List.length_append, hns, encodeIntBytes_length])]
  have d1 : decodeIntFromUchar le (encodeIntBytes le ci.chunks.1) = some ci.chunks.1 := by
    have h := decode_encodeIntBytes le ci.chunks.1 a1 a2 []
    rwa [List.append_nil] at h
  have d2 : decodeIntFromUchar le (encodeIntBytes le ci.chunks.2) = some ci.chunks.2 := by
    have h := decode_encodeIntBytes le ci.chunks.2 b1 b2 []
    rwa [List.append_nil] at h
  unfold decodeChunkInfoFromBuffer
  rw [if_pos hzero]
  have r : List.range CHUNKS_PER_SERVER = [0, 1] := by decide
  rw [r]
  simp only [List.foldlM_cons, List.foldlM_nil, r1, r2, d1, d2, bind, Option.bind, hname,
    if_true, one_ne_zero, if_false]
  rfl

theorem slice_after_head (hdr body : List Nat) (hh : hdr.length = INT_SIZE) (x y : Nat) :
    ((hdr ++ body).take (INT_SIZE + x)).drop (INT_SIZE + y) = (body.take x).drop y := by
  rw [← hh, List.take_append, List.drop_append]

theorem resizeChunkInfo_length (infos : List ChunkInfo) (n : Nat) :
    (resizeChunkInfo infos n).length = n := by
  simp only [resizeChunkInfo, List.length_append, List.length_take, List.length_replicate]
  omega

/-- The loop of `decodeServerChunksInfoFromBuffer` after `n` entries. -/
theorem decode_upto (le : Bool) (infos : List ChunkInfo) (count : Int) (hdr : List Nat)
    (hh : hdr.length = INT_SIZE)
    (hvalid : ∀ ci ∈ infos, ci.Encodable)
    (hsize : INT_SIZE + infos.length * CHUNK_INFO_STRUCT_SIZE < 2 ^ 31)
    (init : List ChunkInfo) (hinit : init.length = infos.length) :
    ∀ n, n ≤ infos.length →
      (List.range n).foldlM
        (fun (info : ServerChunksInfo) i =>
          match vectorRange (hdr ++ infos.flatMap (chunkInfoBytes le))
              (INT_SIZE + i * CHUNK_INFO_STRUCT_SIZE)
              (INT_SIZE + (i + 1) * CHUNK_INFO_STRUCT_SIZE), info.chunk_info.get? i with
          | some chunkBuffer, some chunkInfo =>
            match decodeChunkInfoFromBuffer le chunkBuffer chunkInfo with
            | none => none
            | some decoded => some { info with chunk_info := info.chunk_info.set i decoded }
          | _, _ => none)
        { chunks := count, chunk_info := init } =
        some { chunks := count, chunk_info := infos.take n ++ init.drop n } := by
  have hlenc : ∀ ci ∈ infos, (chunkInfoBytes le ci).length = CHUNK_INFO_STRUCT_SIZE :=
    fun ci hci => chunkInfoBytes_length le ci (by
      have := (hvalid ci hci).1
      simp only [MAX_CHAR_BUFF] at this ⊢
      omega)
  have hF : (infos.flatMap (chunkInfoBytes le)).length = infos.length * CHUNK_INFO_STRUCT_SIZE :=
    flatMap_length_const _ _ _ hlenc
  intro n
  induction n with
  | zero =>
    intro _
    simp
  | succ n ih =>
    intro hn
    have hlt : n < infos.length := by omega
    have hmul : (n + 1) * CHUNK_INFO_STRUCT_SIZE ≤ infos.length * CHUNK_INFO_STRUCT_SIZE :=
      Nat.mul_le_mul_right _ hn
    have hrange : vectorRange (hdr ++ infos.flatMap (chunkInfoBytes le))
        (INT_SIZE + n * CHUNK_INFO_STRUCT_SIZE) (INT_SIZE + (n + 1) * CHUNK_INFO_STRUCT_SIZE) =
        some (chunkInfoBytes le infos[n]) := by
      unfold vectorRange
      rw [if_pos (by rw [List.length_append, hh, hF]; omega), slice_after_head _ _ hh]
      have h := flatMap_slice infos (chunkInfoBytes le) CHUNK_INFO_STRUCT_SIZE hlenc n hlt []
      rw [List.append_nil] at h
      rw [h]
    have hget : (infos.take n ++ init.drop n).get? n = some (init.get ⟨n, by omega⟩) := by
      rw [List.get?_eq_getElem?, List.getElem?_append_right (by simp [List.length_take]),
        List.length_take, Nat.min_eq_left (Nat.le_of_lt hlt), Nat.sub_self, List.getElem?_drop]
      simp [List.getElem?_eq_getElem (show n < init.length by omega)]
    rw [List.range_succ, List.foldlM_append, ih (by omega)]
    simp only [bind, Option.bind, List.foldlM_cons, List.foldlM_nil, hrange, hget,
      decodeChunkInfoFromBuffer_eq le _ _ (hvalid _ (List.getElem_mem hlt))]
    have hset : (infos.take n ++ init.drop n).set n infos[n] =
        infos.take (n + 1) ++ init.drop (n + 1) := by
      have hl : (infos.take n).length = n := by
        rw [List.length_take, Nat.min_eq_left (Nat.le_of_lt hlt)]
      have ht : infos.take (n + 1) = infos.take n ++ [infos[n]] := by
        rw [List.take_succ, List.getElem?_eq_getElem hlt]
        rfl
      rw [ht, List.append_assoc, List.set_append_right _ _ (by rw [hl]), hl, Nat.sub_self,
        List.drop_eq_getElem_cons (show n < init.length by omega), List.set_cons_zero]
      rfl
    rw [hset]
    rfl

/-- Decoding the buffer made of a count and its encoded entries. -/
theorem decodeServerChunksInfoFromBuffer_eq (le : Bool) (infos : List ChunkInfo)
    (old : ServerChunksInfo)
    (hvalid : ∀ ci ∈ infos, ci.Encodable)
    (hsize : INT_SIZE + infos.length * CHUNK_INFO_STRUCT_SIZE < 2 ^ 31) :
    decodeServerChunksInfoFromBuffer le
        (encodeIntBytes le (infos.length : Int) ++ infos.flatMap (chunkInfoBytes le)) old =
      some { chunks := (infos.length : Int), chunk_info := infos } := by
  unfold decodeServerChunksInfoFromBuffer
  have hlen31 : ((infos.length : Nat) : Int) < 2 ^ 31 := by
    have : infos.length < 2 ^ 31 := by
      simp only [INT_SIZE, CHUNK_INFO_STRUCT_SIZE, MAX_CHAR_BUFF, NUM_SERVER] at hsize
      omega
    exact_mod_cast this
  rw [decode_encodeIntBytes le _ (by omega) hlen31]
  simp only
  rw [if_neg (by omega), Int.toNat_ofNat]
  rw [decode_upto le infos _ _ (encodeIntBytes_length le _) hvalid hsize _
    (resizeChunkInfo_length _ _) infos.length (le_refl _)]
  rw [List.take_length, List.drop_of_length_le (by rw [resizeChunkInfo_length]), List.append_nil]

/-- C30, as stated, fails: the record `oversizedReport` has a count equal to its number
of entries and one-byte names without zero byte, but the buffer size
`INT_SIZE + chunks * CHUNK_INFO_STRUCT_SIZE` exceeds `INT_MAX`, so
`encodeServerChunksInfoToBuffer` writes no buffer to decode. -/
theorem report_codec_fails_beyond_int_size :
    oversizedReport.chunks = (oversizedReport.chunk_info.length : Int) ∧
    (∀ ci ∈ oversizedReport.chunk_info, ci.file_name.length ≤ 99 ∧ 0 ∉ ci.file_name) ∧
    (INT_SIZE : Int) + oversizedReport.chunks * (CHUNK_INFO_STRUCT_SIZE : Int) = 2147483760 ∧
    ∀ (littleEndian : Bool) (buffer : List Nat),
      encodeServerChunksInfoToBuffer littleEndian buffer oversizedReport = none := by
  have hsz : (INT_SIZE : Int) + oversizedReport.chunks * (CHUNK_INFO_STRUCT_SIZE : Int)
      = 2147483760 := by
    simp only [oversizedReport, INT_SIZE, CHUNK_INFO_STRUCT_SIZE, MAX_CHAR_BUFF, NUM_SERVER]
    norm_num
  refine ⟨?_, ?_, hsz, ?_⟩
  · simp only [oversizedReport, List.length_replicate]
    norm_num
  · intro ci hci
    simp only [oversizedReport] at hci
    rw [List.eq_of_mem_replicate hci]
    decide
  · intro le buffer
    unfold encodeServerChunksInfoToBuffer
    rw [if_neg (by simp only [oversizedReport]; norm_num), if_pos (by rw [hsz]; norm_num)]

/-- C30 (amended). `ServerChunksInfo` codec round trip: for every `ServerChunksInfo` whose
`chunks` field equals the number of `chunk_info` entries, whose file names are at most 99
bytes long and contain no zero byte (the piece ids being values of `int`), and whose
buffer size `INT_SIZE + chunks * CHUNK_INFO_STRUCT_SIZE` fits an `int`,
`encodeServerChunksInfoToBuffer` writes a buffer of that size and
`decodeServerChunksInfoFromBuffer` applied to it returns the same count, the same file
names in the same order and the same two piece ids for each entry. -/
theorem report_codec_roundtrip (littleEndian : Bool) (info old : ServerChunksInfo)
    (buffer : List Nat)
    (hcount : info.chunks = (info.chunk_info.length : Int))
    (hvalid : ∀ ci ∈ info.chunk_info, ci.Encodable)
    (hsize : (INT_SIZE : Int) + info.chunks * (CHUNK_INFO_STRUCT_SIZE : Int) < 2 ^ 31) :
    ∃ encoded, encodeServerChunksInfoToBuffer littleEndian buffer info = some encoded ∧
      encoded.length = INT_SIZE + info.chunk_info.length * CHUNK_INFO_STRUCT_SIZE ∧
      decodeServerChunksInfoFromBuffer littleEndian encoded old = some info := by
  have hlenc : ∀ ci ∈ info.chunk_info,
      (chunkInfoBytes littleEndian ci).length = CHUNK_INFO_STRUCT_SIZE :=
    fun ci hci => chunkInfoBytes_length littleEndian ci (by
      have := (hvalid ci hci).1
      simp only [MAX_CHAR_BUFF] at this ⊢
      omega)
  have hnat : INT_SIZE + info.chunk_info.length * CHUNK_INFO_STRUCT_SIZE < 2 ^ 31 := by
    rw [hcount] at hsize
    exact_mod_cast hsize
  refine ⟨_, encodeServerChunksInfoToBuffer_eq littleEndian buffer info hcount hvalid hsize,
    ?_, ?_⟩
  · rw [List.length_append, encodeIntBytes_length, flatMap_length_const _ _ _ hlenc]
    rfl
  · rw [hcount, decodeServerChunksInfoFromBuffer_eq littleEndian info.chunk_info old hvalid hnat,
      ← hcount]

/-- C30, instance: the report `reportOfTwoFiles` satisfies the hypotheses and survives
the round trip on a little-endian host. -/
theorem report_codec_roundtrip_witness :
    (reportOfTwoFiles.chunks = (reportOfTwoFiles.chunk_info.length : Int) ∧
      (∀ ci ∈ reportOfTwoFiles.chunk_info, ci.Encodable) ∧
      (INT_SIZE : Int) + reportOfTwoFiles.chunks * (CHUNK_INFO_STRUCT_SIZE : Int) < 2 ^ 31) ∧
    ∃ encoded, encodeServerChunksInfoToBuffer true [] reportOfTwoFiles = some encoded ∧
      encoded.length = INT_SIZE + reportOfTwoFiles.chunk_info.length * CHUNK_INFO_STRUCT_SIZE ∧
      decodeServerChunksInfoFromBuffer true encoded ServerChunksInfo.new =
        some reportOfTwoFiles :=
  ⟨by decide,
    report_codec_roundtrip true reportOfTwoFiles ServerChunksInfo.new [] (by decide) (by decide)
      (by decide)⟩

/-! ## Command envelope -/

theorem token_dropWhile_isspace (t rest : List Nat) (ht : IsToken t) :
    (t ++ rest).dropWhile isspace = t ++ rest := by
  obtain ⟨hne, _, hb⟩ := ht
  cases t with
  | nil => exact absurd rfl hne
  | cons a as =>
    have := (hb a (List.mem_cons_self _ _)).1
    simp [List.dropWhile_cons, this]

theorem token_takeWhile (t rest : List Nat) (ht : IsToken t) (sp : Nat)
    (hsp : isspace sp = true) :
    (t ++ sp :: rest).takeWhile (fun b => !isspace b) = t ∧
      (t ++ sp :: rest).dropWhile (fun b => !isspace b) = sp :: rest := by
  obtain ⟨_, _, hb⟩ := ht
  have hall : ∀ b ∈ t, (!isspace b) = true := fun b hbm => by simp [(hb b hbm).1]
  constructor
  · rw [List.takeWhile_append_of_pos hall]
    simp [List.takeWhile_cons, hsp]
  · rw [List.dropWhile_append_of_pos hall]
    simp [List.dropWhile_cons, hsp]

theorem token_cString (t : List Nat) (ht : IsToken t) : cString t = t :=
  cString_of_no_zero t (fun h0 => (ht.2.2 0 h0).2 rfl)

theorem parseFormat_template :
    parseFormat LIST_TEMPLATE.toList =
      [.char 70, .char 76, .char 65, .char 71, .space, .int, .space,
       .char 85, .char 83, .char 69, .char 82, .char 78, .char 65, .char 77, .char 69, .space,
       .str, .space,
       .char 80, .char 65, .char 83, .char 83, .char 87, .char 79, .char 82, .char 68, .space,
       .str, .space,
       .char 70, .char 79, .char 76, .char 68, .char 69, .char 82, .space, .str, .space,
       .char 70, .char 73, .char 76, .char 69, .char 78, .char 65, .char 77, .char 69, .space,
       .str, .space] := by
  decide

theorem formatChars_template :
    formatChars LIST_TEMPLATE.toList =
      [.char 70, .char 76, .char 65, .char 71, .char 32, .int, .char 32,
       .char 85, .char 83, .char 69, .char 82, .char 78, .char 65, .char 77, .char 69, .char 32,
       .str, .char 32,
       .char 80, .char 65, .char 83, .char 83, .char 87, .char 79, .char 82, .char 68, .char 32,
       .str, .char 32,
       .char 70, .char 79, .char 76, .char 68, .char 69, .char 82, .char 32, .str, .char 32,
       .char 70, .char 73, .char 76, .char 69, .char 78, .char 65, .char 77, .char 69, .char 32,
       .str, .char 10] := by
  decide

theorem sscanfItems_char (c : Nat) (items : List FormatItem) (input : List Nat) :
    sscanfItems (.char c :: items) (c :: input) = sscanfItems items input := by
  simp [sscanfItems]

theorem sscanfItems_space_char (c : Nat) (items : List FormatItem) (input : List Nat)
    (hc : isspace c = false) :
    sscanfItems (.space :: .char c :: items) (32 :: c :: input) = sscanfItems items input := by
  have h32 : isspace 32 = true := by decide
  simp [sscanfItems, List.dropWhile_cons, h32, hc]

theorem sscanfItems_space_str (t rest : List Nat) (sp : Nat) (items : List FormatItem)
    (ht : IsToken t) (hsp : isspace sp = true) :
    sscanfItems (.space :: .str :: items) (32 :: (t ++ sp :: rest)) =
      (sscanfItems items (sp :: rest)).map (fun vs => FormatValue.str t :: vs) := by
  have h32 : isspace 32 = true := by decide
  have hne : t.isEmpty = false := by
    cases t with
    | nil => exact absurd rfl ht.1
    | cons _ _ => rfl
  simp only [sscanfItems, List.dropWhile_cons, h32, if_true, token_dropWhile_isspace _ _ ht,
    (token_takeWhile t rest ht sp hsp).1, (token_takeWhile t rest ht sp hsp).2, hne]
  rfl

theorem printInt_flag (flag : Int) (h0 : 0 ≤ flag) (h3 : flag ≤ 3) :
    printInt flag = [48 + flag.toNat] := by
  have : flag = 0 ∨ flag = 1 ∨ flag = 2 ∨ flag = 3 := by omega
  rcases this with rfl | rfl | rfl | rfl <;> decide

theorem scanInt_digit (d : Nat) (hd : d ≤ 3) (rest : List Nat) :
    scanInt (32 :: (48 + d) :: 32 :: rest) = some (some (d : Int), 32 :: rest) := by
  have h32 : isspace 32 = true := by decide
  have hd1 : isspace (48 + d) = false := by
    simp only [isspace, decide_eq_false_iff_not]; omega
  unfold scanInt
  simp only [List.dropWhile_cons, h32, hd1, if_true]
  interval_cases d <;> simp [List.takeWhile_cons, List.dropWhile_cons, isdigit]

theorem sscanfItems_space_int (flag : Int) (h0 : 0 ≤ flag) (h3 : flag ≤ 3)
    (items : List FormatItem) (rest : List Nat) :
    sscanfItems (.space :: .int :: items) (32 :: (printInt flag ++ 32 :: rest)) =
      (sscanfItems items (32 :: rest)).map (fun vs => FormatValue.int flag :: vs) := by
  have hd1 : isspace (48 + flag.toNat) = false := by
    simp only [isspace, decide_eq_false_iff_not]; omega
  have h32 : isspace 32 = true := by decide
  have hs := scanInt_digit flag.toNat (by omega) rest
  have hdrop : List.dropWhile isspace (32 :: (48 + flag.toNat) :: 32 :: rest) =
      (48 + flag.toNat) :: 32 :: rest := by
    simp [List.dropWhile_cons, h32, hd1]
  have hs2 : scanInt ((48 + flag.toNat) :: 32 :: rest) = some (some flag, 32 :: rest) := by
    have h : scanInt ((48 + flag.toNat) :: 32 :: rest) =
        scanInt (32 :: (48 + flag.toNat) :: 32 :: rest) := by
      unfold scanInt
      rw [hdrop]
      simp [List.dropWhile_cons, hd1]
    rw [h, hs, Int.toNat_of_nonneg h0]
  rw [printInt_flag flag h0 h3]
  simp only [sscanfItems, List.cons_append, List.nil_append, hdrop, hs2]

/-- What `sscanf` stores for the text of an envelope read with a command template. -/
theorem sscanf_envelope (flag : Int) (u p folder file : List Nat) (h0 : 0 ≤ flag)
    (h3 : flag ≤ 3) (hu : IsToken u) (hp : IsToken p) (hfolder : IsToken folder)
    (hfile : IsToken file) :
    sscanfItems (parseFormat LIST_TEMPLATE.toList) (envelopeText flag u p folder file) =
      some [FormatValue.int flag, FormatValue.str u, FormatValue.str p, FormatValue.str folder,
        FormatValue.str file] := by
  have e1 : asciiBytes "FLAG " = [70, 76, 65, 71, 32] := by decide
  have e2 : asciiBytes " USERNAME " = [32, 85, 83, 69, 82, 78, 65, 77, 69, 32] := by decide
  have e3 : asciiBytes " PASSWORD " = [32, 80, 65, 83, 83, 87, 79, 82, 68, 32] := by decide
  have e4 : asciiBytes " FOLDER " = [32, 70, 79, 76, 68, 69, 82, 32] := by decide
  have e5 : asciiBytes " FILENAME " = [32, 70, 73, 76, 69, 78, 65, 77, 69, 32] := by decide
  have h32 : isspace 32 = true := by decide
  have h10 : isspace 10 = true := by decide
  rw [parseFormat_template, envelopeText, e1, e2, e3, e4, e5]
  simp only [List.cons_append, List.nil_append]
  rw [sscanfItems_char, sscanfItems_char, sscanfItems_char, sscanfItems_char,
    sscanfItems_space_int flag h0 h3, sscanfItems_space_char _ _ _ (by decide)]
  iterate 7 rw [sscanfItems_char]
  rw [sscanfItems_space_str u _ 32 _ hu h32, sscanfItems_space_char _ _ _ (by decide)]
  iterate 7 rw [sscanfItems_char]
  rw [sscanfItems_space_str p _ 32 _ hp h32, sscanfItems_space_char _ _ _ (by decide)]
  iterate 5 rw [sscanfItems_char]
  rw [sscanfItems_space_str folder _ 32 _ hfolder h32, sscanfItems_space_char _ _ _ (by decide)]
  iterate 7 rw [sscanfItems_char]
  rw [sscanfItems_space_str file _ 10 _ hfile h10]
  simp [sscanfItems, List.dropWhile_cons, h10]

theorem envelopeText_length (flag : Int) (u p folder file : List Nat) (h0 : 0 ≤ flag)
    (h3 : flag ≤ 3) :
    (envelopeText flag u p folder file).length =
      45 + u.length + p.length + folder.length + file.length := by
  rw [envelopeText, printInt_flag flag h0 h3]
  simp only [List.length_append, List.length_cons, List.length_nil, asciiBytes, List.length_map]
  have e1 : "FLAG ".toList.length = 5 := by decide
  have e2 : " USERNAME ".toList.length = 10 := by decide
  have e3 : " PASSWORD ".toList.length = 10 := by decide
  have e4 : " FOLDER ".toList.length = 8 := by decide
  have e5 : " FILENAME ".toList.length = 10 := by decide
  rw [e1, e2, e3, e4, e5]
  omega

/-- The text that `snprintf` writes for a command template and four tokens. -/
theorem snprintf_envelope (flag : Int) (u p folder file : List Nat) (h0 : 0 ≤ flag)
    (h3 : flag ≤ 3) (hu : IsToken u) (hp : IsToken p) (hfolder : IsToken folder)
    (hfile : IsToken file) :
    snprintf 512 LIST_TEMPLATE
        [FormatValue.int flag, FormatValue.str u, FormatValue.str p, FormatValue.str folder,
          FormatValue.str file] =
      some (envelopeText flag u p folder file) := by
  have hlen := envelopeText_length flag u p folder file h0 h3
  have hu2 := hu.2.1
  have hp2 := hp.2.1
  have hf2 := hfolder.2.1
  have hn2 := hfile.2.1
  simp only [MAX_CHAR_BUFF] at hu2 hp2 hf2 hn2
  have e1 : asciiBytes "FLAG " = [70, 76, 65, 71, 32] := by decide
  have e2 : asciiBytes " USERNAME " = [32, 85, 83, 69, 82, 78, 65, 77, 69, 32] := by decide
  have e3 : asciiBytes " PASSWORD " = [32, 80, 65, 83, 83, 87, 79, 82, 68, 32] := by decide
  have e4 : asciiBytes " FOLDER " = [32, 70, 79, 76, 68, 69, 82, 32] := by decide
  have e5 : asciiBytes " FILENAME " = [32, 70, 73, 76, 69, 78, 65, 77, 69, 32] := by decide
  have hout : formatOutput (formatChars LIST_TEMPLATE.toList)
      [FormatValue.int flag, FormatValue.str u, FormatValue.str p, FormatValue.str folder,
        FormatValue.str file] = some (envelopeText flag u p folder file) := by
    rw [formatChars_template, envelopeText, e1, e2, e3, e4, e5]
    simp only [formatOutput, Option.map_some', token_cString _ hu, token_cString _ hp,
      token_cString _ hfolder, token_cString _ hfile, List.cons_append, List.nil_append,
      List.append_nil]
  unfold snprintf
  rw [hout, Option.map_some', List.take_of_length_le (by rw [hlen]; omega)]

theorem templateStr_eq (flag : Int) (h0 : 0 ≤ flag) (h3 : flag ≤ 3) :
    commandHandler.templateStr flag = LIST_TEMPLATE := by
  have : flag = 0 ∨ flag = 1 ∨ flag = 2 ∨ flag = 3 := by omega
  rcases this with rfl | rfl | rfl | rfl <;> decide

theorem authDfsUser_loop_eq (user : User) (conf : DfsConfig) :
    ∀ fuel i, i + fuel ≤ conf.users.length →
      authDfsUser.loop user conf fuel i =
        some (decide (some user ∈ (conf.users.drop i).take fuel)) := by
  intro fuel
  induction fuel with
  | zero =>
    intro i _
    simp [authDfsUser.loop]
  | succ n ih =>
    intro i hi
    have hlt : i < conf.users.length := by omega
    unfold authDfsUser.loop
    rw [List.get?_eq_getElem?, List.getElem?_eq_getElem hlt]
    simp only
    rw [List.drop_eq_getElem_cons hlt, List.take_succ_cons]
    by_cases he : conf.users[i] = some user
    · simp [he]
    · rw [if_neg he, ih (i + 1) (by omega)]
      have hne : ¬ some user = conf.users[i] := fun e => he e.symm
      simp [hne]

/-- The result of `authDfsUser` for a configuration whose count stays inside the array. -/
theorem authDfsUser_eq (user : User) (conf : DfsConfig)
    (hconf : conf.user_count.toNat ≤ conf.users.length) :
    authDfsUser user conf =
      some (decide (some user ∈ conf.users.take conf.user_count.toNat)) := by
  unfold authDfsUser
  rw [authDfsUser_loop_eq user conf _ 0 (by omega), List.drop_zero]

/-- Decoding the text of an envelope with the template of its flag. -/
theorem decode_envelope (flag : Int) (u p folder file : List Nat) (recvCmd : DfsRecvCommand)
    (conf : DfsConfig) (h0 : 0 ≤ flag)
    (h3 : flag ≤ 3) (hu : IsToken u) (hp : IsToken p) (hfolder : IsToken folder)
    (hfile : IsToken file) (hconf : conf.user_count.toNat ≤ conf.users.length) :
    dfsCommandDecodeAndAuth (envelopeText flag u p folder file) LIST_TEMPLATE recvCmd conf =
      some (decide (some ({ username := u, password := p } : User) ∈
              conf.users.take conf.user_count.toNat),
            { flag := flag, user := { username := u, password := p },
              folder := if folder = asciiBytes "NULL" then [] else folder,
              file_name := if file = asciiBytes "NULL" then [] else file }) := by
  have hc : cString (envelopeText flag u p folder file) = envelopeText flag u p folder file := by
    apply cString_of_no_zero
    rw [envelopeText, printInt_flag flag h0 h3]
    have e1 : asciiBytes "FLAG " = [70, 76, 65, 71, 32] := by decide
    have e2 : asciiBytes " USERNAME " = [32, 85, 83, 69, 82, 78, 65, 77, 69, 32] := by decide
    have e3 : asciiBytes " PASSWORD " = [32, 80, 65, 83, 83, 87, 79, 82, 68, 32] := by decide
    have e4 : asciiBytes " FOLDER " = [32, 70, 79, 76, 68, 69, 82, 32] := by decide
    have e5 : asciiBytes " FILENAME " = [32, 70, 73, 76, 69, 78, 65, 77, 69, 32] := by decide
    rw [e1, e2, e3, e4, e5]
    have z1 : 0 ∉ u := fun h => (hu.2.2 0 h).2 rfl
    have z2 : 0 ∉ p := fun h => (hp.2.2 0 h).2 rfl
    have z3 : 0 ∉ folder := fun h => (hfolder.2.2 0 h).2 rfl
    have z4 : 0 ∉ file := fun h => (hfile.2.2 0 h).2 rfl
    simp only [List.mem_append, List.mem_cons, List.mem_singleton, List.not_mem_nil, z1, z2, z3,
      z4, or_false, false_or]
    omega
  unfold dfsCommandDecodeAndAuth sscanf
  rw [hc, sscanf_envelope flag u p folder file h0 h3 hu hp hfolder hfile]
  simp only
  rw [if_pos ⟨hu.2.1, hp.2.1, hfolder.2.1, hfile.2.1⟩, authDfsUser_eq _ conf hconf]
  rfl

theorem token_isEmpty (t : List Nat) (ht : IsToken t) : t.isEmpty = false := by
  cases t with
  | nil => exact absurd rfl ht.1
  | cons _ _ => rfl

/-- The text that `commandBuilder` writes when it returns `true` on tokens. -/
theorem commandBuilder_envelope (files : LocalFiles) (buffer : List Nat)
    (fileAttr : FileAttribute) (user : User) (flag : Int)
    (h0 : 0 ≤ flag) (h3 : flag ≤ 3)
    (hu : IsToken user.username) (hp : IsToken user.password)
    (hfolder : IsToken fileAttr.remote_file_folder) (hfile : IsToken fileAttr.remote_file_name)
    (hbuilt : (commandBuilder files buffer (commandHandler.templateStr flag) fileAttr user
      flag).map Prod.fst = some true) :
    commandBuilder files buffer (commandHandler.templateStr flag) fileAttr user flag =
      some (true, envelopeText flag user.username user.password fileAttr.remote_file_folder
        fileAttr.remote_file_name) := by
  have hsn := snprintf_envelope flag _ _ _ _ h0 h3 hu hp hfolder hfile
  have hf := token_isEmpty _ hfolder
  have hn := token_isEmpty _ hfile
  rw [templateStr_eq flag h0 h3] at hbuilt ⊢
  have hcases : flag = 0 ∨ flag = 1 ∨ flag = 2 ∨ flag = 3 := by omega
  rcases hcases with rfl | rfl | rfl | rfl
  · simp [commandBuilder, LIST_FLAG, hf, hn, hsn]
  · simp only [commandBuilder, LIST_FLAG, PUT_FLAG, GET_FLAG, hf, hn, Bool.not_false] at hbuilt ⊢
    norm_num at hbuilt ⊢
    split_ifs at hbuilt ⊢ with hc
    · simp at hbuilt
    · simp [hsn]
  · simp only [commandBuilder, LIST_FLAG, PUT_FLAG, GET_FLAG, hf, hn, Bool.not_false] at hbuilt ⊢
    norm_num at hbuilt ⊢
    split_ifs at hbuilt ⊢ with hc hd
    · simp at hbuilt
    · simp at hbuilt
    · simp [hsn]
  · simp only [commandBuilder, LIST_FLAG, PUT_FLAG, GET_FLAG, MKDIR_FLAG, hf, hn,
      Bool.not_false]
    norm_num
    simp [hsn]

/-- C21. Envelope round trip with NULL normalisation: for every command flag in
{0,1,2,3} and all non-empty, white-space-free username, password, folder and file-name
tokens shorter than 100 bytes (tokens of a C string: without zero byte), the text that
`commandBuilder` writes when it returns `true` is
`"FLAG <flag> USERNAME <u> PASSWORD <p> FOLDER <folder> FILENAME <file>\n"`, and
`dfsCommandDecodeAndAuth` applied to that text (with a configuration whose user count
stays inside its array) recovers the same flag, username, password, folder and file
name, except that a folder token or a file-name token equal to the literal `NULL` is
decoded as the empty string; the `bool` it returns tells whether the pair is among the
configured users. -/
theorem envelope_roundtrip_with_null_normalisation (files : LocalFiles) (buffer : List Nat)
    (fileAttr : FileAttribute) (user : User) (flag : Int) (recvCmd : DfsRecvCommand)
    (conf : DfsConfig)
    (hflag : 0 ≤ flag ∧ flag ≤ 3)
    (hu : IsToken user.username) (hp : IsToken user.password)
    (hfolder : IsToken fileAttr.remote_file_folder) (hfile : IsToken fileAttr.remote_file_name)
    (hbuilt : (commandBuilder files buffer (commandHandler.templateStr flag) fileAttr user
      flag).map Prod.fst = some true)
    (hconf : conf.user_count.toNat ≤ conf.users.length) :
    commandBuilder files buffer (commandHandler.templateStr flag) fileAttr user flag =
      some (true, envelopeText flag user.username user.password fileAttr.remote_file_folder
        fileAttr.remote_file_name) ∧
    dfsCommandDecodeAndAuth
        (envelopeText flag user.username user.password fileAttr.remote_file_folder
          fileAttr.remote_file_name)
        (commandHandler.templateStr flag) recvCmd conf =
      some (decide (some user ∈ conf.users.take conf.user_count.toNat),
            { flag := flag, user := user,
              folder := if fileAttr.remote_file_folder = asciiBytes "NULL" then []
                        else fileAttr.remote_file_folder,
              file_name := if fileAttr.remote_file_name = asciiBytes "NULL" then []
                           else fileAttr.remote_file_name }) := by
  refine ⟨commandBuilder_envelope files buffer fileAttr user flag hflag.1 hflag.2 hu hp hfolder
    hfile hbuilt, ?_⟩
  rw [templateStr_eq flag hflag.1 hflag.2]
  exact decode_envelope flag user.username user.password _ _ recvCmd conf hflag.1 hflag.2 hu hp
    hfolder hfile hconf

/-- C21, instance: LIST of folder "docs/" by "alice" / "pw" with the file-name token
`NULL`: the file name is decoded as the empty string. -/
theorem envelope_roundtrip_with_null_normalisation_witness :
    dfsCommandDecodeAndAuth
        (asciiBytes "FLAG 0 USERNAME alice PASSWORD pw FOLDER docs/ FILENAME NULL\n")
        LIST_TEMPLATE DfsRecvCommand.new confAlice =
      some (true,
            { flag := 0,
              user := { username := asciiBytes "alice", password := asciiBytes "pw" },
              folder := asciiBytes "docs/", file_name := [] }) :=
  (envelope_roundtrip_with_null_normalisation permissiveFiles []
    { FileAttribute.new with
      remote_file_folder := asciiBytes "docs/", remote_file_name := asciiBytes "NULL" }
    { username := asciiBytes "alice", password := asciiBytes "pw" } 0 DfsRecvCommand.new confAlice
    (by decide) (by decide) (by decide) (by decide) (by decide) (by decide) (by decide)).2

/-! ## Authentication gate of the server -/

theorem parseFormat_generic :
    parseFormat GENERIC_TEMPLATE.toList =
      [.char 70, .char 76, .char 65, .char 71, .space, .int, .space, .scanset 10, .char 115] := by
  decide

theorem token_no_newline (t : List Nat) (ht : IsToken t) : ∀ b ∈ t, b ≠ 10 := by
  intro b hb e
  have h := (ht.2.2 b hb).1
  rw [e] at h
  exact absurd h (by decide)

theorem cString_envelopeText (flag : Int) (u p folder file : List Nat) (h0 : 0 ≤ flag)
    (h3 : flag ≤ 3) (hu : IsToken u) (hp : IsToken p) (hfolder : IsToken folder)
    (hfile : IsToken file) :
    cString (envelopeText flag u p folder file) = envelopeText flag u p folder file := by
  apply cString_of_no_zero
  rw [envelopeText, printInt_flag flag h0 h3]
  have e1 : asciiBytes "FLAG " = [70, 76, 65, 71, 32] := by decide
  have e2 : asciiBytes " USERNAME " = [32, 85, 83, 69, 82, 78, 65, 77, 69, 32] := by decide
  have e3 : asciiBytes " PASSWORD " = [32, 80, 65, 83, 83, 87, 79, 82, 68, 32] := by decide
  have e4 : asciiBytes " FOLDER " = [32, 70, 79, 76, 68, 69, 82, 32] := by decide
  have e5 : asciiBytes " FILENAME " = [32, 70, 73, 76, 69, 78, 65, 77, 69, 32] := by decide
  rw [e1, e2, e3, e4, e5]
  have z1 : 0 ∉ u := fun h => (hu.2.2 0 h).2 rfl
  have z2 : 0 ∉ p := fun h => (hp.2.2 0 h).2 rfl
  have z3 : 0 ∉ folder := fun h => (hfolder.2.2 0 h).2 rfl
  have z4 : 0 ∉ file := fun h => (hfile.2.2 0 h).2 rfl
  simp only [List.mem_append, List.mem_cons, List.mem_singleton, List.not_mem_nil, z1, z2, z3,
    z4, or_false, false_or]
  omega

/-- What `sscanf` stores for the text of an envelope read with `GENERIC_TEMPLATE`: the
flag and the rest of the line. -/
theorem sscanf_generic_envelope (flag : Int) (u p folder file : List Nat) (h0 : 0 ≤ flag)
    (h3 : flag ≤ 3) (hu : IsToken u) (hp : IsToken p) (hfolder : IsToken folder)
    (hfile : IsToken file) :
    ∃ line : List Nat, line.length ≤ MAX_SEG_SIZE ∧
      sscanf (envelopeText flag u p folder file) GENERIC_TEMPLATE =
        some [FormatValue.int flag, FormatValue.str line] := by
  have e1 : asciiBytes "FLAG " = [70, 76, 65, 71, 32] := by decide
  have e2 : asciiBytes " USERNAME " = [32, 85, 83, 69, 82, 78, 65, 77, 69, 32] := by decide
  have e3 : asciiBytes " PASSWORD " = [32, 80, 65, 83, 83, 87, 79, 82, 68, 32] := by decide
  have e4 : asciiBytes " FOLDER " = [32, 70, 79, 76, 68, 69, 82, 32] := by decide
  have e5 : asciiBytes " FILENAME " = [32, 70, 73, 76, 69, 78, 65, 77, 69, 32] := by decide
  have hu2 := hu.2.1
  have hp2 := hp.2.1
  have hf2 := hfolder.2.1
  have hn2 := hfile.2.1
  simp only [MAX_CHAR_BUFF] at hu2 hp2 hf2 hn2
  refine ⟨[85, 83, 69, 82, 78, 65, 77, 69, 32] ++ (u ++ ([32, 80, 65, 83, 83, 87, 79, 82, 68, 32]
    ++ (p ++ ([32, 70, 79, 76, 68, 69, 82, 32] ++ (folder ++
      ([32, 70, 73, 76, 69, 78, 65, 77, 69, 32] ++ file)))))), ?_, ?_⟩
  · simp only [List.length_append, List.length_cons, List.length_nil, MAX_SEG_SIZE]
    omega
  · unfold sscanf
    rw [cString_envelopeText flag u p folder file h0 h3 hu hp hfolder hfile, parseFormat_generic,
      envelopeText, e1, e2, e3, e4, e5]
    simp only [List.cons_append, List.nil_append]
    rw [sscanfItems_char, sscanfItems_char, sscanfItems_char, sscanfItems_char,
      sscanfItems_space_int flag h0 h3]
    have hall : ∀ b ∈ ([85, 83, 69, 82, 78, 65, 77, 69, 32] ++ (u ++
        ([32, 80, 65, 83, 83, 87, 79, 82, 68, 32] ++ (p ++ ([32, 70, 79, 76, 68, 69, 82, 32] ++
          (folder ++ ([32, 70, 73, 76, 69, 78, 65, 77, 69, 32] ++ file))))))),
        (decide (b ≠ 10)) = true := by
      intro b hb
      simp only [List.mem_append, List.mem_cons, List.not_mem_nil, or_false] at hb
      simp only [ne_eq, decide_not, Bool.not_eq_true', decide_eq_false_iff_not]
      rcases hb with h | h | h | h | h | h | h | h
      · omega
      · exact token_no_newline u hu b h
      · omega
      · exact token_no_newline p hp b h
      · omega
      · exact token_no_newline folder hfolder b h
      · omega
      · exact token_no_newline file hfile b h
    have hinput : (32 :: 85 :: 83 :: 69 :: 82 :: 78 :: 65 :: 77 :: 69 :: 32 :: (u ++
        32 :: 80 :: 65 :: 83 :: 83 :: 87 :: 79 :: 82 :: 68 :: 32 :: (p ++
          32 :: 70 :: 79 :: 76 :: 68 :: 69 :: 82 :: 32 :: (folder ++
            32 :: 70 :: 73 :: 76 :: 69 :: 78 :: 65 :: 77 :: 69 :: 32 :: (file ++ [10])))) :
          List Nat) =
        32 :: (([85, 83, 69, 82, 78, 65, 77, 69, 32] ++ (u ++
          ([32, 80, 65, 83, 83, 87, 79, 82, 68, 32] ++ (p ++ ([32, 70, 79, 76, 68, 69, 82, 32] ++
            (folder ++ ([32, 70, 73, 76, 69, 78, 65, 77, 69, 32] ++ file))))))) ++ [10]) := by
      simp only [List.cons_append, List.nil_append, List.append_assoc]
    rw [hinput]
    generalize hL : ([85, 83, 69, 82, 78, 65, 77, 69, 32] ++ (u ++
        ([32, 80, 65, 83, 83, 87, 79, 82, 68, 32] ++ (p ++ ([32, 70, 79, 76, 68, 69, 82, 32] ++
          (folder ++ ([32, 70, 73, 76, 69, 78, 65, 77, 69, 32] ++ file))))))) = line at hall ⊢
    have hne : line.isEmpty = false := by
      rw [← hL]; rfl
    have hhead : List.dropWhile isspace (32 :: (line ++ [10])) = line ++ [10] := by
      rw [← hL]
      simp [List.dropWhile_cons, isspace]
    have htake : List.takeWhile (fun b => decide (b ≠ 10)) (line ++ [10]) = line := by
      rw [List.takeWhile_append_of_pos hall]
      simp [List.takeWhile_cons]
    have hdrop : List.dropWhile (fun b => decide (b ≠ 10)) (line ++ [10]) = [10] := by
      rw [List.dropWhile_append_of_pos hall]
      simp [List.dropWhile_cons]
    simp only [sscanfItems, hhead, htake, hdrop, hne]
    simp only [Bool.false_eq_true, if_false, Option.map_some', decide_True, decide_False,
      Nat.reduceEqDiff, Option.some.injEq, List.cons.injEq, FormatValue.str.injEq, and_true,
      true_and]
    try rw [← hL]
    try simp

theorem recvIntValueSocket_sendInt (le : Bool) (n : Int) (h1 : -2 ^ 31 ≤ n) (h2 : n < 2 ^ 31)
    (rest : List Nat) :
    recvIntValueSocket le (sendIntValueSocket le n ++ rest) = .ok (n, rest) := by
  unfold recvIntValueSocket
  have hr : recvFromSocket (sendIntValueSocket le n ++ rest) INT_SIZE
      = .ok (encodeIntBytes le n, rest) := by
    rw [sendIntValueSocket_eq]
    simp [recvFromSocket, INT_SIZE, encodeIntBytes]
  rw [hr]
  have hd : decodeIntFromUchar le (encodeIntBytes le n) = some n := by
    have h := decode_encodeIntBytes le n h1 h2 []
    rwa [List.append_nil] at h
  simp only [hd]

/-- What `dfsCommandAccept` does on the envelope of a LIST, GET, PUT or MKDIR command. -/
theorem dfsCommandAccept_envelope (le : Bool) (flag : Int) (u p folder file rest : List Nat)
    (conf : DfsConfig) (h0 : 0 ≤ flag) (h3 : flag ≤ 3) (hu : IsToken u) (hp : IsToken p)
    (hfolder : IsToken folder) (hfile : IsToken file)
    (hconf : conf.user_count.toNat ≤ conf.users.length) :
    dfsCommandAccept le
        (sendIntValueSocket le ((envelopeText flag u p folder file).length : Int) ++
          (envelopeText flag u p folder file ++ rest)) conf =
      if some ({ username := u, password := p } : User) ∈
          conf.users.take conf.user_count.toNat then
        .ok { reply := sendIntValueSocket le 0,
              executed := some (
                { flag := flag, user := { username := u, password := p },
                  folder := (if folder = asciiBytes "NULL" then [] else folder),
                  file_name := (if file = asciiBytes "NULL" then [] else file) }, flag),
              rest := rest }
      else
        .ok { reply := sendIntValueSocket le (-1) ++ sendErrorHelper le AUTH_FAILED_ERROR,
              executed := none, rest := rest } := by
  have hlen := envelopeText_length flag u p folder file h0 h3
  have hu2 := hu.2.1
  have hp2 := hp.2.1
  have hf2 := hfolder.2.1
  have hn2 := hfile.2.1
  simp only [MAX_CHAR_BUFF] at hu2 hp2 hf2 hn2
  obtain ⟨line, hline, hscan⟩ := sscanf_generic_envelope flag u p folder file h0 h3 hu hp hfolder
    hfile
  have hdec := fun recvCmd => decode_envelope flag u p folder file recvCmd conf h0 h3 hu hp hfolder
    hfile hconf
  unfold dfsCommandAccept
  rw [recvIntValueSocket_sendInt le _ (by omega) (by omega)]
  simp only
  rw [if_neg (by omega), Int.toNat_ofNat]
  have hrecv : recvFromSocket (envelopeText flag u p folder file ++ rest)
      (envelopeText flag u p folder file).length =
      .ok (envelopeText flag u p folder file, rest) := by
    simp [recvFromSocket]
  rw [hrecv]
  simp only [hscan, hline, if_true]
  have htemplates : GET_TEMPLATE = LIST_TEMPLATE ∧ PUT_TEMPLATE = LIST_TEMPLATE ∧
      MKDIR_TEMPLATE = LIST_TEMPLATE := by decide
  rw [htemplates.1, htemplates.2.1, htemplates.2.2]
  have hdecoded : (if flag = LIST_FLAG then
        dfsCommandDecodeAndAuth (envelopeText flag u p folder file) LIST_TEMPLATE
          { DfsRecvCommand.new with flag := flag } conf
      else if flag = GET_FLAG then
        dfsCommandDecodeAndAuth (envelopeText flag u p folder file) LIST_TEMPLATE
          { DfsRecvCommand.new with flag := flag } conf
      else if flag = PUT_FLAG then
        dfsCommandDecodeAndAuth (envelopeText flag u p folder file) LIST_TEMPLATE
          { DfsRecvCommand.new with flag := flag } conf
      else if flag = MKDIR_FLAG then
        dfsCommandDecodeAndAuth (envelopeText flag u p folder file) LIST_TEMPLATE
          { DfsRecvCommand.new with flag := flag } conf
      else some (false, { DfsRecvCommand.new with flag := flag })) =
      dfsCommandDecodeAndAuth (envelopeText flag u p folder file) LIST_TEMPLATE
          { DfsRecvCommand.new with flag := flag } conf := by
    have hcases : flag = 0 ∨ flag = 1 ∨ flag = 2 ∨ flag = 3 := by omega
    rcases hcases with rfl | rfl | rfl | rfl <;>
      simp [LIST_FLAG, GET_FLAG, PUT_FLAG, MKDIR_FLAG]
  rw [hdecoded, hdec]
  by_cases hm : some ({ username := u, password := p } : User) ∈
      conf.users.take conf.user_count.toNat
  · simp [hm]
  · simp [hm]

theorem auth_failed_reply_bytes (le : Bool) :
    sendIntValueSocket le (-1) ++ sendErrorHelper le AUTH_FAILED_ERROR =
      [255, 255, 255, 255] ++ (if le then [43, 0, 0, 0] else [0, 0, 0, 43]) ++
        asciiBytes "Invalid Username/Password. Please try again" := by
  cases le <;> rfl

theorem status_zero_bytes (le : Bool) : sendIntValueSocket le 0 = [0, 0, 0, 0] := by
  cases le <;> rfl

/-- C22. Authentication gate: for every LIST, GET, PUT or MKDIR envelope (flag in 0..3,
tokens as in C21, sent with its length prefix) and every configuration whose user count
stays inside its array, `dfsCommandAccept` returns; it replies with status -1 (four bytes
255) followed by the error frame carrying the `AUTH_FAILED` message (the length 43 as the
host encodes it, then the 43 bytes of the message) and executes no command if and only
if no entry among the configured users has exactly the envelope's username and exactly
its password (that is, `authDfsUser` returns `false`); otherwise it replies with status
0 (four bytes 0) and calls `dfsCommandExec` with the decoded command and the flag. -/
theorem authentication_gate (littleEndian : Bool) (flag : Int)
    (u p folder file rest : List Nat) (conf : DfsConfig)
    (hflag : 0 ≤ flag ∧ flag ≤ 3) (hu : IsToken u) (hp : IsToken p)
    (hfolder : IsToken folder) (hfile : IsToken file)
    (hconf : conf.user_count.toNat ≤ conf.users.length) :
    ∃ out, dfsCommandAccept littleEndian
        (sendIntValueSocket littleEndian ((envelopeText flag u p folder file).length : Int) ++
          (envelopeText flag u p folder file ++ rest)) conf = .ok out ∧
      out.rest = rest ∧
      ((out.reply = [255, 255, 255, 255] ++
              (if littleEndian then [43, 0, 0, 0] else [0, 0, 0, 43]) ++
              asciiBytes "Invalid Username/Password. Please try again" ∧
            out.executed = none) ↔
        some ({ username := u, password := p } : User) ∉
          conf.users.take conf.user_count.toNat) ∧
      (authDfsUser { username := u, password := p } conf = some false ↔
        some ({ username := u, password := p } : User) ∉
          conf.users.take conf.user_count.toNat) ∧
      (some ({ username := u, password := p } : User) ∈
          conf.users.take conf.user_count.toNat →
        out.reply = [0, 0, 0, 0] ∧
        out.executed = some (
          { flag := flag, user := { username := u, password := p },
            folder := (if folder = asciiBytes "NULL" then [] else folder),
            file_name := (if file = asciiBytes "NULL" then [] else file) }, flag)) := by
  have h := dfsCommandAccept_envelope littleEndian flag u p folder file rest conf hflag.1 hflag.2
    hu hp hfolder hfile hconf
  have hauth := authDfsUser_eq { username := u, password := p } conf hconf
  by_cases hm : some ({ username := u, password := p } : User) ∈
      conf.users.take conf.user_count.toNat
  · rw [if_pos hm] at h
    refine ⟨_, h, rfl, ?_, ?_, ?_⟩
    · constructor
      · intro hx
        simp at hx
      · intro hx
        exact absurd hm hx
    · rw [hauth]
      simp [hm]
    · intro _
      exact ⟨status_zero_bytes littleEndian, rfl⟩
  · rw [if_neg hm] at h
    refine ⟨_, h, rfl, ?_, ?_, ?_⟩
    · constructor
      · intro _
        exact hm
      · intro _
        exact ⟨auth_failed_reply_bytes littleEndian, rfl⟩
    · rw [hauth]
      simp [hm]
    · intro hx
      exact absurd hx hm

/-- C22, instance: the server that knows "alice" / "pw" receives a LIST envelope of
"alice" with the password "pwx" on a little-endian host; it answers -1 and the
`AUTH_FAILED` frame, 51 bytes in all, and executes nothing. -/
theorem authentication_gate_witness :
    ∃ out, dfsCommandAccept true
        (sendIntValueSocket true
            ((envelopeText 0 (asciiBytes "alice") (asciiBytes "pwx") (asciiBytes "/")
              (asciiBytes "NULL")).length : Int) ++
          (envelopeText 0 (asciiBytes "alice") (asciiBytes "pwx") (asciiBytes "/")
            (asciiBytes "NULL") ++ [])) confAlice = .ok out ∧
      out.reply = [255, 255, 255, 255] ++ [43, 0, 0, 0] ++
        asciiBytes "Invalid Username/Password. Please try again" ∧
      out.executed = none := by
  obtain ⟨out, hrun, _, hiff, _, _⟩ := authentication_gate true 0 (asciiBytes "alice")
    (asciiBytes "pwx") (asciiBytes "/") (asciiBytes "NULL") [] confAlice (by decide) (by decide)
    (by decide) (by decide) (by decide) (by decide)
  exact ⟨out, hrun, hiff.mpr (by decide)⟩

set_option maxRecDepth 20000 in
/-- The two outcomes of the gate evaluated on a little-endian host: the right password is
answered with status 0 and the call of `dfsCommandExec`, a wrong one with -1 and the
43 bytes of the `AUTH_FAILED` message. -/
theorem dfsCommandAccept_eval :
    dfsCommandAccept true
        ([61, 0, 0, 0] ++
          asciiBytes "FLAG 0 USERNAME alice PASSWORD pw FOLDER docs/ FILENAME NULL\n")
        confAlice =
      .ok { reply := [0, 0, 0, 0],
            executed := some (
              { flag := 0,
                user := { username := asciiBytes "alice", password := asciiBytes "pw" },
                folder := asciiBytes "docs/", file_name := [] }, 0),
            rest := [] } ∧
    dfsCommandAccept true
        ([62, 0, 0, 0] ++
          asciiBytes "FLAG 0 USERNAME alice PASSWORD pwx FOLDER docs/ FILENAME NULL\n")
        confAlice =
      .ok { reply := [255, 255, 255, 255] ++ [43, 0, 0, 0] ++
              asciiBytes "Invalid Username/Password. Please try again",
            executed := none, rest := [] } := by
  constructor <;> rfl

/-! ## LIST replies and the segment bound -/

theorem strncpy_length (dst src : List Nat) (n : Nat) (h : n ≤ dst.length) :
    (strncpy dst src n).length = dst.length := by
  simp only [strncpy, List.length_append, List.length_take, List.length_replicate,
    List.length_drop]
  omega

theorem copyInto_length (buffer src out : List Nat) (offset : Nat)
    (h : copyInto buffer offset src = some out) : out.length = buffer.length := by
  unfold copyInto at h
  split_ifs at h with hle
  simp only [Option.some.injEq] at h
  rw [← h]
  simp only [List.length_append, List.length_take, List.length_drop]
  omega

theorem copyInto_some (buffer src : List Nat) (offset : Nat)
    (h : offset + src.length ≤ buffer.length) :
    ∃ out, copyInto buffer offset src = some out ∧ out.length = buffer.length := by
  have he : copyInto buffer offset src =
      some (buffer.take offset ++ src ++ buffer.drop (offset + src.length)) := by
    unfold copyInto
    rw [if_pos h]
  exact ⟨_, he, copyInto_length _ _ _ _ he⟩

theorem encodeChunkInfoToBuffer_length (le : Bool) (ci : ChunkInfo) :
    ∃ cb, encodeChunkInfoToBuffer le (List.replicate CHUNK_INFO_STRUCT_SIZE 0) ci = some cb ∧
      cb.length = CHUNK_INFO_STRUCT_SIZE := by
  unfold encodeChunkInfoToBuffer
  have hbuf : MAX_CHAR_BUFF ≤ (List.replicate CHUNK_INFO_STRUCT_SIZE 0).length := by
    rw [List.length_replicate]; decide
  rw [if_pos hbuf]
  have hs : (strncpy (List.replicate CHUNK_INFO_STRUCT_SIZE 0) ci.file_name MAX_CHAR_BUFF).length
      = 116 := by
    rw [strncpy_length _ _ _ hbuf, List.length_replicate]
    rfl
  have r2 : List.range CHUNKS_PER_SERVER = [0, 1] := by decide
  rw [r2]
  simp only [List.foldlM_cons, List.foldlM_nil, encodeIntToUchar_fresh]
  obtain ⟨o1, h1, l1⟩ := copyInto_some
    (strncpy (List.replicate CHUNK_INFO_STRUCT_SIZE 0) ci.file_name MAX_CHAR_BUFF)
    (encodeIntBytes le (ci.chunkAt 0)) (MAX_CHAR_BUFF + 0 * INT_SIZE)
    (by rw [hs, encodeIntBytes_length]; decide)
  obtain ⟨o2, h2, l2⟩ := copyInto_some o1 (encodeIntBytes le (ci.chunkAt 1))
    (MAX_CHAR_BUFF + 1 * INT_SIZE) (by rw [l1, hs, encodeIntBytes_length]; decide)
  rw [h1]
  simp only [bind, Option.bind]
  rw [h2]
  exact ⟨o2, rfl, by rw [l2, l1, hs]; rfl⟩

/-- The encoder writes a buffer of `INT_SIZE + chunks * CHUNK_INFO_STRUCT_SIZE` bytes for
every record whose count is its number of entries and fits. -/
theorem encodeServerChunksInfoToBuffer_length (le : Bool) (buffer : List Nat)
    (info : ServerChunksInfo)
    (hcount : info.chunks = (info.chunk_info.length : Int))
    (hsize : (INT_SIZE : Int) + info.chunks * (CHUNK_INFO_STRUCT_SIZE : Int) < 2 ^ 31) :
    ∃ out, encodeServerChunksInfoToBuffer le buffer info = some out ∧
      out.length = INT_SIZE + info.chunk_info.length * CHUNK_INFO_STRUCT_SIZE := by
  unfold encodeServerChunksInfoToBuffer
  rw [if_neg (by omega), if_neg (by omega)]
  have hnat : info.chunks.toNat = info.chunk_info.length := by omega
  simp only [hnat]
  have hbuf : (encodeIntToUchar le
      (vectorResize buffer (INT_SIZE + info.chunk_info.length * CHUNK_INFO_STRUCT_SIZE))
      info.chunks).length = INT_SIZE + info.chunk_info.length * CHUNK_INFO_STRUCT_SIZE := by
    simp only [encodeIntToUchar, List.length_append, encodeIntBytes_length, List.length_drop,
      vectorResize_length, INT_SIZE]
    omega
  generalize encodeIntToUchar le
      (vectorResize buffer (INT_SIZE + info.chunk_info.length * CHUNK_INFO_STRUCT_SIZE))
      info.chunks = start at hbuf
  have key : ∀ n, n ≤ info.chunk_info.length → ∃ out,
      (List.range n).foldlM
        (fun (buf : List Nat) i =>
          match info.chunk_info.get? i with
          | none => none
          | some chunkInfo =>
            match encodeChunkInfoToBuffer le (List.replicate CHUNK_INFO_STRUCT_SIZE 0) chunkInfo with
            | none => none
            | some chunkBuffer => copyInto buf (INT_SIZE + i * CHUNK_INFO_STRUCT_SIZE) chunkBuffer)
        start = some out ∧ out.length = start.length := by
    intro n
    induction n with
    | zero =>
      intro _
      exact ⟨start, rfl, rfl⟩
    | succ n ih =>
      intro hn
      obtain ⟨mid, hmid, lmid⟩ := ih (by omega)
      have hlt : n < info.chunk_info.length := by omega
      obtain ⟨cb, hcb, lcb⟩ := encodeChunkInfoToBuffer_length le info.chunk_info[n]
      have hmul : (n + 1) * CHUNK_INFO_STRUCT_SIZE ≤
          info.chunk_info.length * CHUNK_INFO_STRUCT_SIZE := Nat.mul_le_mul_right _ hn
      obtain ⟨out, hout, lout⟩ := copyInto_some mid cb (INT_SIZE + n * CHUNK_INFO_STRUCT_SIZE)
        (by rw [lcb, lmid, hbuf]; linarith)
      refine ⟨out, ?_, by rw [lout, lmid]⟩
      rw [List.range_succ, List.foldlM_append, hmid]
      simp only [bind, Option.bind, List.foldlM_cons, List.foldlM_nil, List.get?_eq_getElem?,
        List.getElem?_eq_getElem hlt, hcb, hout]
      rfl
  obtain ⟨out, hout, lout⟩ := key info.chunk_info.length (le_refl _)
  exact ⟨out, hout, by rw [lout, hbuf]⟩

/-- The file information that the LIST branch sends for a record whose count is its
number of entries and whose payload size fits an `int`. -/
theorem fileInfo_eq (le : Bool) (info : ServerChunksInfo)
    (hcount : info.chunks = (info.chunk_info.length : Int))
    (hsize : (INT_SIZE : Int) + info.chunks * (CHUNK_INFO_STRUCT_SIZE : Int) < 2 ^ 31) :
    ∃ payload : List Nat,
      dfsCommandExecList.fileInfo le info =
        some (sendIntValueSocket le (listHasData info) ++
          (sendIntValueSocket le
            ((INT_SIZE : Int) + info.chunks * (CHUNK_INFO_STRUCT_SIZE : Int)) ++ payload)) ∧
      payload.length = INT_SIZE + info.chunk_info.length * CHUNK_INFO_STRUCT_SIZE ∧
      (listHasData info ≠ 0 →
        encodeServerChunksInfoToBuffer le
          (List.replicate ((INT_SIZE : Int) + info.chunks * (CHUNK_INFO_STRUCT_SIZE : Int)).toNat 0)
          info = some payload) ∧
      (listHasData info = 0 → info.chunk_info = [] ∧ payload = [0, 0, 0, 0]) := by
  have hnn : ¬ ((INT_SIZE : Int) + info.chunks * (CHUNK_INFO_STRUCT_SIZE : Int) < 0 ∨
      (INT_SIZE : Int) + info.chunks * (CHUNK_INFO_STRUCT_SIZE : Int) ≥ 2 ^ 31) := by
    simp only [INT_SIZE, CHUNK_INFO_STRUCT_SIZE, MAX_CHAR_BUFF, NUM_SERVER] at hsize ⊢
    omega
  unfold dfsCommandExecList.fileInfo
  simp only
  rw [if_neg hnn]
  by_cases hd : listHasData info ≠ 0
  · obtain ⟨out, hout, lout⟩ := encodeServerChunksInfoToBuffer_length le
      (List.replicate ((INT_SIZE : Int) + info.chunks * (CHUNK_INFO_STRUCT_SIZE : Int)).toNat 0)
      info hcount hsize
    refine ⟨out, ?_, lout, fun _ => hout, fun h => absurd h hd⟩
    rw [if_pos hd, hout]
    rfl
  · have hd0 : listHasData info = 0 := by
      simpa using hd
    have hc0 : info.chunks = 0 := by
      unfold listHasData at hd0
      split_ifs at hd0 with h <;> omega
    have hnil : info.chunk_info = [] := by
      apply List.eq_nil_of_length_eq_zero
      omega
    refine ⟨[0, 0, 0, 0], ?_, ?_, fun h => absurd hd0 h, fun _ => ⟨hnil, rfl⟩⟩
    · rw [if_neg hd, hc0]
      rfl
    · rw [hnil]
      rfl

/-- The client's step on the file information of a server, as far as the size gate
decides it. -/
theorem fetchRemoteFileInfo_server_on_reply (le : Bool) (i : Nat) (hasData size : Int)
    (payload rest : List Nat) (collate : ServerChunksCollate) (mod : Int)
    (hd1 : -2 ^ 31 ≤ hasData) (hd2 : hasData < 2 ^ 31) (hs0 : 0 ≤ size) (hs2 : size < 2 ^ 31)
    (hlen : payload.length = size.toNat) :
    fetchRemoteFileInfo.server le i
        (sendIntValueSocket le hasData ++ (sendIntValueSocket le size ++ payload) ++ rest)
        collate mod =
      if size > (MAX_SEG_SIZE : Int) then .ok (collate, mod, rest)
      else
        match decodeServerChunksInfoFromBuffer le payload ServerChunksInfo.new with
        | none => .error .outOfBounds
        | some serverChunksInfo =>
          if hasData > 0 then
            match insertToServerChunksCollate collate serverChunksInfo,
                  fetchRemoteFileInfo.deriveMod mod i serverChunksInfo with
            | some collate1, some mod1 => .ok (collate1, mod1, rest)
            | _, _ => .error .outOfBounds
          else .ok (collate, mod, rest) := by
  have hrecv : recvFromSocket (payload ++ rest) size.toNat = .ok (payload, rest) := by
    simp [recvFromSocket, hlen]
  unfold fetchRemoteFileInfo.server
  rw [List.append_assoc, recvIntValueSocket_sendInt le hasData hd1 hd2]
  simp only
  rw [List.append_assoc, recvIntValueSocket_sendInt le size (by omega) hs2]
  simp only
  rw [if_neg (by omega), hrecv]

/-- C28, as stated, fails for huge listings: for the 18 512 791 basenames of
`oversizedListing` (count equal to the number of entries) the payload size
`4 + CHUNK_INFO_STRUCT_SIZE * c = 2147483760` does not fit the `int` that holds
`sizeOfPayload`, and the LIST branch sends no payload of that size. -/
theorem list_payload_size_overflows_int :
    oversizedListing.chunks = (oversizedListing.chunk_info.length : Int) ∧
    (INT_SIZE : Int) + oversizedListing.chunks * (CHUNK_INFO_STRUCT_SIZE : Int) = 2147483760 ∧
    (2147483760 : Int) > 2 ^ 31 - 1 ∧
    dfsCommandExecList.fileInfo true oversizedListing = none ∧
    dfsCommandExecList.fileInfo false oversizedListing = none := by
  have hsz : (INT_SIZE : Int) + oversizedListing.chunks * (CHUNK_INFO_STRUCT_SIZE : Int)
      = 2147483760 := by
    simp only [oversizedListing, INT_SIZE, CHUNK_INFO_STRUCT_SIZE, MAX_CHAR_BUFF, NUM_SERVER]
    norm_num
  refine ⟨?_, hsz, by norm_num, ?_, ?_⟩
  · simp only [oversizedListing, List.length_map, List.length_range]
    norm_num
  · unfold dfsCommandExecList.fileInfo
    simp only
    rw [if_pos (Or.inr (by rw [hsz]; norm_num))]
  · unfold dfsCommandExecList.fileInfo
    simp only
    rw [if_pos (Or.inr (by rw [hsz]; norm_num))]

/-- C28 (amended). LIST silently drops servers with more than four files: for a listing
of `c` present basenames whose payload size fits an `int`, the payload the server sends
(after `hasData` and the size) has `4 + CHUNK_INFO_STRUCT_SIZE * c` bytes, which exceeds
`MAX_SEG_SIZE = 512` exactly when `c > 4`; for `c > 4` the step of `fetchRemoteFileInfo`
reads the reply and leaves the collation and `mod` unchanged; for `c ≤ 4` it decodes the
payload and, when `hasData > 0`, inserts the decoded record, which is the listing itself
when its names are at most 99 bytes long. -/
theorem list_reply_aggregated_iff_at_most_four (littleEndian : Bool) (info : ServerChunksInfo)
    (i : Nat) (collate : ServerChunksCollate) (mod : Int) (rest : List Nat)
    (hcount : info.chunks = (info.chunk_info.length : Int))
    (hsize : (INT_SIZE : Int) + info.chunks * (CHUNK_INFO_STRUCT_SIZE : Int) < 2 ^ 31) :
    ∃ payload : List Nat,
      dfsCommandExecList.fileInfo littleEndian info =
        some (sendIntValueSocket littleEndian (listHasData info) ++
          (sendIntValueSocket littleEndian
            ((INT_SIZE : Int) + info.chunks * (CHUNK_INFO_STRUCT_SIZE : Int)) ++ payload)) ∧
      payload.length = INT_SIZE + CHUNK_INFO_STRUCT_SIZE * info.chunk_info.length ∧
      (MAX_SEG_SIZE < payload.length ↔ 4 < info.chunk_info.length) ∧
      (4 < info.chunk_info.length →
        fetchRemoteFileInfo.server littleEndian i
            (sendIntValueSocket littleEndian (listHasData info) ++
              (sendIntValueSocket littleEndian
                ((INT_SIZE : Int) + info.chunks * (CHUNK_INFO_STRUCT_SIZE : Int)) ++ payload) ++
              rest) collate mod = .ok (collate, mod, rest)) ∧
      (info.chunk_info.length ≤ 4 →
        fetchRemoteFileInfo.server littleEndian i
            (sendIntValueSocket littleEndian (listHasData info) ++
              (sendIntValueSocket littleEndian
                ((INT_SIZE : Int) + info.chunks * (CHUNK_INFO_STRUCT_SIZE : Int)) ++ payload) ++
              rest) collate mod =
          match decodeServerChunksInfoFromBuffer littleEndian payload ServerChunksInfo.new with
          | none => .error .outOfBounds
          | some serverChunksInfo =>
            if listHasData info > 0 then
              match insertToServerChunksCollate collate serverChunksInfo,
                    fetchRemoteFileInfo.deriveMod mod i serverChunksInfo with
              | some collate1, some mod1 => .ok (collate1, mod1, rest)
              | _, _ => .error .outOfBounds
            else .ok (collate, mod, rest)) ∧
      ((∀ ci ∈ info.chunk_info, ci.Encodable) →
        decodeServerChunksInfoFromBuffer littleEndian payload ServerChunksInfo.new =
          some info) := by
  obtain ⟨payload, hreply, hlen, henc, hzero⟩ := fileInfo_eq littleEndian info hcount hsize
  have hhas : listHasData info = 0 ∨ listHasData info = 1 := by
    unfold listHasData
    split_ifs <;> simp
  have hsz : ((INT_SIZE : Int) + info.chunks * (CHUNK_INFO_STRUCT_SIZE : Int)).toNat =
      payload.length := by
    rw [hlen, hcount]
    have : ((INT_SIZE : Int) + (info.chunk_info.length : Int) * (CHUNK_INFO_STRUCT_SIZE : Int)) =
        ((INT_SIZE + info.chunk_info.length * CHUNK_INFO_STRUCT_SIZE : Nat) : Int) := by
      push_cast
      rfl
    rw [this, Int.toNat_ofNat]
  have hstep := fetchRemoteFileInfo_server_on_reply littleEndian i (listHasData info)
    ((INT_SIZE : Int) + info.chunks * (CHUNK_INFO_STRUCT_SIZE : Int)) payload rest collate mod
    (by rcases hhas with h | h <;> rw [h] <;> norm_num)
    (by rcases hhas with h | h <;> rw [h] <;> norm_num)
    (by
      simp only [INT_SIZE, CHUNK_INFO_STRUCT_SIZE, MAX_CHAR_BUFF, NUM_SERVER] at hsize ⊢
      omega) hsize hsz.symm
  have hgate : (INT_SIZE : Int) + info.chunks * (CHUNK_INFO_STRUCT_SIZE : Int) >
      (MAX_SEG_SIZE : Int) ↔ 4 < info.chunk_info.length := by
    rw [hcount]
    simp only [INT_SIZE, CHUNK_INFO_STRUCT_SIZE, MAX_CHAR_BUFF, NUM_SERVER, MAX_SEG_SIZE]
    omega
  refine ⟨payload, hreply, by rw [hlen, Nat.mul_comm], ?_, ?_, ?_, ?_⟩
  · rw [hlen]
    simp only [INT_SIZE, CHUNK_INFO_STRUCT_SIZE, MAX_CHAR_BUFF, NUM_SERVER, MAX_SEG_SIZE]
    omega
  · intro h5
    rw [hstep, if_pos (hgate.mpr h5)]
  · intro h4
    rw [hstep, if_neg (fun h => absurd (hgate.mp h) (by omega))]
  · intro hvalid
    rcases hhas with h0 | h1
    · obtain ⟨hnil, hp⟩ := hzero h0
      have hc0 : info.chunks = 0 := by rw [hcount, hnil]; rfl
      have hd := decodeServerChunksInfoFromBuffer_eq littleEndian [] ServerChunksInfo.new
        (by simp) (by decide)
      have he : encodeIntBytes littleEndian ((([] : List ChunkInfo).length : Nat) : Int) ++
          ([] : List ChunkInfo).flatMap (chunkInfoBytes littleEndian) = [0, 0, 0, 0] := by
        cases littleEndian <;> decide
      rw [he] at hd
      rw [hp, hd]
      cases info
      simp_all
    · have hne : listHasData info ≠ 0 := by rw [h1]; norm_num
      have h1e := henc hne
      rw [encodeServerChunksInfoToBuffer_eq littleEndian _ info hcount hvalid hsize] at h1e
      simp only [Option.some.injEq] at h1e
      have hnat : INT_SIZE + info.chunk_info.length * CHUNK_INFO_STRUCT_SIZE < 2 ^ 31 := by
        rw [hcount] at hsize
        exact_mod_cast hsize
      rw [← h1e, hcount,
        decodeServerChunksInfoFromBuffer_eq littleEndian info.chunk_info ServerChunksInfo.new
          hvalid hnat, ← hcount]

/-- C28, instance: a listing of five basenames on a little-endian host has a payload of
`4 + 116 * 5 = 584` bytes, and the client's step leaves the empty collation as it is. -/
theorem list_reply_aggregated_iff_at_most_four_witness :
    (listingOfFive.chunks = (listingOfFive.chunk_info.length : Int) ∧
      (INT_SIZE : Int) + listingOfFive.chunks * (CHUNK_INFO_STRUCT_SIZE : Int) < 2 ^ 31) ∧
    ∃ payload : List Nat,
      dfsCommandExecList.fileInfo true listingOfFive =
        some (sendIntValueSocket true 1 ++ (sendIntValueSocket true 584 ++ payload)) ∧
      payload.length = 584 ∧
      fetchRemoteFileInfo.server true 0
          (sendIntValueSocket true 1 ++ (sendIntValueSocket true 584 ++ payload) ++ [])
          ServerChunksCollate.new (-1) = .ok (ServerChunksCollate.new, -1, []) := by
  obtain ⟨payload, hreply, hlen, _, hdrop, _, _⟩ :=
    list_reply_aggregated_iff_at_most_four true listingOfFive 0 ServerChunksCollate.new (-1) []
      (by decide) (by decide)
  exact ⟨⟨by decide, by decide⟩, payload, hreply, hlen, hdrop (by decide)⟩

set_option maxRecDepth 100000 in
/-- The size gate evaluated on a little-endian host: the listing of `reportOfTwoFiles`
(236 bytes) is inserted into the empty collation, which then holds "b" and "a", and
`mod` 3 is derived from the pair (3, 4) reported by server 1. -/
theorem list_reply_of_two_files_eval :
    ((dfsCommandExecList.fileInfo true reportOfTwoFiles).map
      (fun reply =>
        (fetchRemoteFileInfo.server true 1 reply ServerChunksCollate.new (-1)).toOption.map
          (fun r => (r.1.num_files, (r.1.file_names.take 2).map cString, r.1.chunks.take 2,
            r.2.1, r.2.2)))) =
      some (some (2, [[98], [97]],
        [[false, false, true, true], [false, true, true, false]], 3, [])) := by
  rfl

/-! ## Status loop of the client -/

theorem foldlM_range_succ_ok {σ : Type} (f : σ → Nat → Except NetError σ) (init : σ) (n : Nat)
    (out : σ) (h : (List.range (n + 1)).foldlM f init = .ok out) :
    ∃ mid, (List.range n).foldlM f init = .ok mid ∧ f mid n = .ok out := by
  rw [List.range_succ, List.foldlM_append] at h
  cases hm : (List.range n).foldlM f init with
  | error e =>
    rw [hm] at h
    simp [bind, Except.bind] at h
  | ok mid =>
    rw [hm] at h
    simp only [bind, Except.bind, List.foldlM_cons, List.foldlM_nil] at h
    refine ⟨mid, rfl, ?_⟩
    cases hf : f mid n with
    | error e =>
      rw [hf] at h
      simp [pure, Except.pure] at h
    | ok r =>
      rw [hf] at h
      simp only [pure, Except.pure] at h
      rw [h]

/-- The status loop of `commandExec` after `n` servers: the connections not yet visited
are untouched, and `errorFlag` is set exactly when one of the visited servers answered
`-1`. -/
theorem status_upto (le : Bool) (connFds : List (Option (List Nat))) :
    ∀ n (errorFlag : Bool) (st : ClientState),
      (List.range n).foldlM (commandExec.readStatus le)
          (false, { connFds := connFds, stdout := [] }) = .ok (errorFlag, st) →
      (∀ k, n ≤ k → st.connFds.get? k = connFds.get? k) ∧
        (errorFlag = true ↔ ∃ i, i < n ∧ AnswersFailure le connFds i) := by
  intro n
  induction n with
  | zero =>
    intro errorFlag st h
    simp only [List.range_zero, List.foldlM_nil, pure, Except.pure, Except.ok.injEq,
      Prod.mk.injEq] at h
    obtain ⟨h1, h2⟩ := h
    subst h1 h2
    refine ⟨fun k _ => rfl, ?_⟩
    constructor
    · intro hf
      cases hf
    · rintro ⟨i, hi, _⟩
      omega
  | succ n ih =>
    intro errorFlag st h
    obtain ⟨⟨flag0, st0⟩, hmid, hstep⟩ := foldlM_range_succ_ok _ _ n _ h
    obtain ⟨hkeep, hflag⟩ := ih flag0 st0 hmid
    have hn : st0.connFds.get? n = connFds.get? n := hkeep n (le_refl _)
    have hother : ∀ (s : Option (List Nat)) k, n + 1 ≤ k →
        (st0.connFds.set n s).get? k = connFds.get? k := by
      intro s k hk
      rw [List.get?_eq_getElem?, List.getElem?_set_ne (by omega), ← List.get?_eq_getElem?]
      exact hkeep k (by omega)
    have hiff_keep : ¬ AnswersFailure le connFds n →
        (flag0 = true ↔ ∃ i, i < n + 1 ∧ AnswersFailure le connFds i) := by
      intro hno
      rw [hflag]
      constructor
      · rintro ⟨i, hi, ha⟩
        exact ⟨i, by omega, ha⟩
      · rintro ⟨i, hi, ha⟩
        by_cases hin : i = n
        · subst hin
          exact absurd ha hno
        · exact ⟨i, by omega, ha⟩
    unfold commandExec.readStatus at hstep
    simp only at hstep
    rw [hn] at hstep
    cases hx : connFds.get? n with
    | none =>
      rw [hx] at hstep
      simp at hstep
    | some x =>
      rw [hx] at hstep
      cases x with
      | none =>
        simp only [Except.ok.injEq, Prod.mk.injEq] at hstep
        obtain ⟨h1, h2⟩ := hstep
        subst h1 h2
        refine ⟨fun k hk => hkeep k (by omega), hiff_keep ?_⟩
        rintro ⟨sock, rest, hs, _⟩
        rw [hx] at hs
        cases hs
      | some sock =>
        simp only at hstep
        cases hr : recvIntValueSocket le sock with
        | error e =>
          rw [hr] at hstep
          simp at hstep
        | ok r =>
          obtain ⟨c, sock1⟩ := r
          rw [hr] at hstep
          simp only at hstep
          by_cases hc : c = -1
          · rw [if_pos hc] at hstep
            cases hp : fetchAndPrintError le sock1 with
            | error e =>
              rw [hp] at hstep
              simp at hstep
            | ok q =>
              obtain ⟨line, sock2⟩ := q
              rw [hp] at hstep
              simp only [Except.ok.injEq, Prod.mk.injEq] at hstep
              obtain ⟨h1, h2⟩ := hstep
              subst h1 h2
              refine ⟨fun k hk => hother _ k hk, ?_⟩
              constructor
              · intro _
                exact ⟨n, by omega, sock, sock1, hx, by rw [hr, hc]⟩
              · intro _
                rfl
          · rw [if_neg hc] at hstep
            simp only [Except.ok.injEq, Prod.mk.injEq] at hstep
            obtain ⟨h1, h2⟩ := hstep
            subst h1 h2
            refine ⟨fun k hk => hother _ k hk, hiff_keep ?_⟩
            rintro ⟨sock', rest, hs, hrecv⟩
            rw [hx] at hs
            simp only [Option.some.injEq] at hs
            subst hs
            rw [hr] at hrecv
            simp only [Except.ok.injEq, Prod.mk.injEq] at hrecv
            exact hc hrecv.1

set_option maxRecDepth 100000 in
/-- C23, as stated, fails: LIST over two servers on a little-endian host, server 0
answering `-1` with the `AUTH_FAILED` frame and server 1 answering 0 with the listing of
"a".  With the reply of server 0 as the server sends it, `fetchAndPrintError` asks for
one byte more than the frame holds and the client ends on the closed connection; with one
more byte on that connection the error line is printed and `commandExec` returns.  In
both cases nothing of server 1 is aggregated or printed, whereas server 1 alone gives the
lines "a" and "docs/". -/
theorem list_aborts_when_one_server_fails :
    AnswersFailure true [some (replyAuthFailed true), some (replyListOfA true)] 0 ∧
    (recvIntValueSocket true (replyListOfA true)).toOption.map Prod.fst = some 0 ∧
    commandExec true [some (replyAuthFailed true), some (replyListOfA true)] 2 LIST_FLAG 0
      = .error .peerClosed ∧
    commandExec true [some (replyAuthFailed true ++ [0]), some (replyListOfA true)] 2
        LIST_FLAG 0
      = .ok { stdout := asciiBytes
                "<<< Error Message: Invalid Username/Password. Please try again\n",
              collate := none, decision := none, signal := none, mod := none,
              connFds := [some [], some ((replyListOfA true).drop 4)] } ∧
    (commandExec true [none, some (replyListOfA true)] 2 LIST_FLAG 0).toOption.map
        (fun out => out.stdout) = some (asciiBytes "a\ndocs/\n") := by
  refine ⟨⟨_, _, rfl, rfl⟩, rfl, rfl, rfl, rfl⟩

/-- C23 (amended). A failure status stops `commandExec` for every server: when at least
one connected server answers status `-1`, a run of `commandExec` with flag LIST or GET
(as with any flag) is the run of the status loop and nothing more.  It ends where the
status loop ends, and when the status loop completes it has built no aggregate
(`fetchRemoteFileInfo` is not called), taken no GET decision, sent no signal and written
to standard output only what the status loop wrote: no file information of any server,
the servers that succeeded included, is aggregated or printed. -/
theorem failure_status_stops_list_and_get (littleEndian : Bool)
    (connFds : List (Option (List Nat))) (connCount : Nat) (flag fallbackMod : Int)
    (hfail : ∃ i, i < connCount ∧ AnswersFailure littleEndian connFds i) :
    commandExec littleEndian connFds connCount flag fallbackMod =
      ((List.range connCount).foldlM (commandExec.readStatus littleEndian)
          (false, { connFds := connFds, stdout := [] })).map
        (fun r => { stdout := r.2.stdout, collate := none, decision := none, signal := none,
                    mod := none, connFds := r.2.connFds }) := by
  unfold commandExec
  cases hfold : (List.range connCount).foldlM (commandExec.readStatus littleEndian)
      (false, { connFds := connFds, stdout := [] }) with
  | error e => rfl
  | ok r =>
    obtain ⟨errorFlag, st⟩ := r
    have hflag : errorFlag = true :=
      (status_upto littleEndian connFds connCount errorFlag st hfold).2.2 hfail
    subst hflag
    rfl

set_option maxRecDepth 100000 in
/-- C23 (amended), instance: LIST over two servers on a little-endian host, server 0
answering `-1` and the `AUTH_FAILED` frame as `dfsCommandAccept` sends them, server 1
answering 0 and the listing of "a". -/
theorem failure_status_stops_list_and_get_witness :
    (∃ i, i < 2 ∧
      AnswersFailure true [some (replyAuthFailed true), some (replyListOfA true)] i) ∧
    commandExec true [some (replyAuthFailed true), some (replyListOfA true)] 2 LIST_FLAG 0 =
      ((List.range 2).foldlM (commandExec.readStatus true)
          (false, { connFds := [some (replyAuthFailed true), some (replyListOfA true)],
                    stdout := [] })).map
        (fun r => { stdout := r.2.stdout, collate := none, decision := none, signal := none,
                    mod := none, connFds := r.2.connFds }) :=
  have hfail : ∃ i, i < 2 ∧
      AnswersFailure true [some (replyAuthFailed true), some (replyListOfA true)] i :=
    ⟨0, by decide, _, _, rfl, rfl⟩
  ⟨hfail, failure_status_stops_list_and_get true
    [some (replyAuthFailed true), some (replyListOfA true)] 2 LIST_FLAG 0 hfail⟩

set_option maxRecDepth 100000 in
/-- C24: the server part holds and the client part does not.  The MKDIR branch of the
server sends `-1` and the `FOLDER_EXISTS` frame and creates nothing when the folder
exists, and sends `1` and creates it otherwise.  The client, for an authenticated MKDIR of
a folder that exists on its one server, reads only the status 0 that `dfsCommandAccept`
sent before: `commandExec` returns with nothing printed and with the `-1` and the whole
error frame still unread on the connection. -/
theorem mkdir_status_left_unread (littleEndian : Bool) :
    dfsCommandExecMkdir littleEndian true
      = (sendIntValueSocket littleEndian (-1) ++
          sendErrorHelper littleEndian FOLDER_EXISTS_ERROR, false, false) ∧
    dfsCommandExecMkdir littleEndian false = (sendIntValueSocket littleEndian 1, true, true) ∧
    commandExec littleEndian [some (replyMkdirExists littleEndian)] 1 MKDIR_FLAG 0
      = .ok { stdout := [], collate := none, decision := none, signal := none, mod := none,
              connFds := [some (sendIntValueSocket littleEndian (-1) ++
                sendErrorHelper littleEndian FOLDER_EXISTS_ERROR)] } ∧
    (recvIntValueSocket littleEndian
        (sendIntValueSocket littleEndian (-1) ++
          sendErrorHelper littleEndian FOLDER_EXISTS_ERROR)).toOption.map Prod.fst
      = some (-1) := by
  cases littleEndian
  · exact ⟨rfl, rfl, rfl, rfl⟩
  · exact ⟨rfl, rfl, rfl, rfl⟩

end Dfs
